import Mathlib

/-! MapReduce coordinator and worker (`src/mr/coordinator.go`, `src/mr/worker.go`).

A shallow embedding of the coordinator's task state and of its single RPC
handler `GetTask`, together with `Done` and `MakeCoordinator`, and of the Map
and Reduce branches of `Worker` with `ihash`.

Conventions of the embedding:

* Go slices are lists; an out-of-range index (a run-time panic that kills the
  process) is the result `none`.
* Go `int` is `Int`; the two decrements wrap at 64 bits (`wrapInt64`).
* `time.Time` is an `Int` count of nanoseconds since the zero `time.Time`;
  `Before` is `<` and `Add` is `+`.  The reading of the clock, `time.Now()`,
  is the parameter `now` of `GetTask`.
* The mutex is not modelled: one call of `GetTask` is one atomic step.
* In the worker, the Go map is an association list, `sort.Sort` is a parameter
  with its contract, the longest slice that `make` can allocate is a parameter,
  a file is the list of outcomes of its `Decode` calls, and creating and
  writing files is taken to succeed.
-/

namespace mr

/-! ## Data model -/

/-- Modelled from the spec: the task-type constants `TaskTypeNone`, `TaskTypeMap`,
`TaskTypeReduce`, `TaskTypeSleep`, `TaskTypeExit` are used by both source files but
declared in a file that is not part of the sources at hand. -/
inductive TaskType where
  | TaskTypeNone
  | TaskTypeMap
  | TaskTypeReduce
  | TaskTypeSleep
  | TaskTypeExit
  deriving DecidableEq, Repr

open TaskType

/-- Modelled from the spec: the request record `TaskArgs` (fields `DoneType`, `Id`,
`Files`), declared outside the sources at hand. -/
structure TaskArgs where
  DoneType : TaskType
  Id : Int
  Files : List String
  deriving DecidableEq, Repr

/-- Modelled from the spec: the response record `TaskReply` (fields `Type`, `Id`,
`Files`, `NReduce`), declared outside the sources at hand.  The field `Type` is
spelled `Type_` since `Type` is reserved. -/
structure TaskReply where
  Type_ : TaskType
  Id : Int
  Files : List String
  NReduce : Int
  deriving DecidableEq, Repr

/-- Nanoseconds since the zero `time.Time`. -/
abbrev Time := Int

/-- The constant `time.Second`, in nanoseconds. -/
def Second : Int := 1000000000

/-- The struct `MapTask`. -/
structure MapTask where
  id : Int
  file : String
  startAt : Time
  done : Bool
  deriving DecidableEq, Repr

/-- The struct `ReduceTask`. -/
structure ReduceTask where
  id : Int
  files : List String
  startAt : Time
  done : Bool
  deriving DecidableEq, Repr

/-- The struct `Coordinator`, without its mutex. -/
structure Coordinator where
  mapTasks : List MapTask
  mapRemain : Int
  reduceTasks : List ReduceTask
  reduceRemain : Int
  deriving DecidableEq, Repr

/-- Two's-complement wrap of an integer into the range of a 64-bit Go `int`. -/
def wrapInt64 (x : Int) : Int := (x + 2 ^ 63) % 2 ^ 64 - 2 ^ 63

/-! ## `GetTask`, step 1: the report -/

/-- The loop `for reduceId, file := range args.Files` of `GetTask`, started at index
`reduceId`: a non-empty `file` is appended to `reduceTasks[reduceId].files`. -/
def rangeFiles : List ReduceTask → Nat → List String → Option (List ReduceTask)
  | rts, _, [] => some rts
  | rts, reduceId, file :: rest =>
    if 0 < file.length then
      match rts[reduceId]? with
      | none => none
      | some t =>
        rangeFiles (rts.set reduceId { t with files := t.files ++ [file] }) (reduceId + 1) rest
    else rangeFiles rts (reduceId + 1) rest

/-- The `switch args.DoneType` of `GetTask`: the completion report is applied to the
coordinator. -/
def applyReport (c : Coordinator) (args : TaskArgs) : Option Coordinator :=
  match args.DoneType with
  | TaskTypeMap =>
    if args.Id < 0 then none
    else
      match c.mapTasks[args.Id.toNat]? with
      | none => none
      | some t =>
        if !t.done then
          match rangeFiles c.reduceTasks 0 args.Files with
          | none => none
          | some rts =>
            some { c with
              mapTasks := c.mapTasks.set args.Id.toNat { t with done := true }
              reduceTasks := rts
              mapRemain := wrapInt64 (c.mapRemain - 1) }
        else some c
  | TaskTypeReduce =>
    if args.Id < 0 then none
    else
      match c.reduceTasks[args.Id.toNat]? with
      | none => none
      | some t =>
        if !t.done then
          some { c with
            reduceTasks := c.reduceTasks.set args.Id.toNat { t with done := true }
            reduceRemain := wrapInt64 (c.reduceRemain - 1) }
        else some c
  | _ => some c

/-! ## `GetTask`, step 2: the next assignment -/

/-- The test `!t.done && t.startAt.Before(timeoutAgo)` on a map task. -/
def MapTask.eligible (timeoutAgo : Time) (t : MapTask) : Bool :=
  !t.done && decide (t.startAt < timeoutAgo)

/-- The test `!t.done && t.startAt.Before(timeoutAgo)` on a reduce task. -/
def ReduceTask.eligible (timeoutAgo : Time) (t : ReduceTask) : Bool :=
  !t.done && decide (t.startAt < timeoutAgo)

/-- The two scan loops of `GetTask`, `for idx := range c.mapTasks` and
`for idx := range c.reduceTasks`, have the same shape: the index and the value of
the first task that passes the test `p`, if any. -/
def scanTasks {α : Type} (p : α → Bool) : List α → Option (Nat × α)
  | [] => none
  | t :: rest =>
    if p t then some (0, t)
    else (scanTasks p rest).map fun q => (q.1 + 1, q.2)

/-- The second half of `GetTask`, from `now := time.Now()` on: the coordinator after
the assignment and the reply. -/
def pickTask (c : Coordinator) (reply : TaskReply) (now : Time) : Coordinator × TaskReply :=
  let timeoutAgo := now + (-10 * Second)
  if c.mapRemain > 0 then
    match scanTasks (MapTask.eligible timeoutAgo) c.mapTasks with
    | some (idx, t) =>
      ({ c with mapTasks := c.mapTasks.set idx { t with startAt := now } },
       { Type_ := TaskTypeMap, Id := t.id, Files := [t.file], NReduce := c.reduceTasks.length })
    | none => (c, { reply with Type_ := TaskTypeSleep })
  else if c.reduceRemain > 0 then
    match scanTasks (ReduceTask.eligible timeoutAgo) c.reduceTasks with
    | some (idx, t) =>
      ({ c with reduceTasks := c.reduceTasks.set idx { t with startAt := now } },
       { reply with Type_ := TaskTypeReduce, Id := t.id, Files := t.files })
    | none => (c, { reply with Type_ := TaskTypeSleep })
  else (c, { reply with Type_ := TaskTypeExit })

/-- The RPC handler `Coordinator.GetTask`.  `reply` is the record the handler fills
in, `now` the value of `time.Now()`; `none` is a run-time panic. -/
def GetTask (c : Coordinator) (args : TaskArgs) (reply : TaskReply) (now : Time) :
    Option (Coordinator × TaskReply) :=
  match applyReport c args with
  | none => none
  | some c1 => some (pickTask c1 reply now)

/-- The method `Coordinator.Done`. -/
def Done (c : Coordinator) : Bool :=
  c.mapRemain == 0 && c.reduceRemain == 0

/-! ## `MakeCoordinator` -/

/-- The loop `for i, f := range files` of `MakeCoordinator`, started at index `i`. -/
def initMapTasks : Nat → List String → List MapTask
  | _, [] => []
  | i, f :: rest => { id := i, file := f, startAt := 0, done := false } :: initMapTasks (i + 1) rest

/-- The loop `for i := 0; i < nReduce; i++` of `MakeCoordinator`: `n` tasks, the first
with id `i`. -/
def initReduceTasks : Nat → Nat → List ReduceTask
  | _, 0 => []
  | i, n + 1 => { id := i, files := [], startAt := 0, done := false } :: initReduceTasks (i + 1) n

/-- The function `MakeCoordinator`, without the start of the RPC server.  `make` panics
on a negative length; a length beyond the range of `int` does not exist in Go.  `make` also
panics on a length that the runtime cannot allocate; that bound is not modelled here, so
the model has start states with more tasks than the program can hold, and lacks none. -/
def MakeCoordinator (files : List String) (nReduce : Int) : Option Coordinator :=
  if nReduce < 0 ∨ 2 ^ 63 ≤ nReduce ∨ 2 ^ 63 ≤ (files.length : Int) then none
  else
    some {
      mapTasks := initMapTasks 0 files
      reduceTasks := initReduceTasks 0 nReduce.toNat
      mapRemain := files.length
      reduceRemain := nReduce }

/-! ## Executions -/

/-- One call of `GetTask`: the report, the reply record handed in, and the clock. -/
structure Call where
  args : TaskArgs
  reply : TaskReply
  now : Time
  deriving DecidableEq, Repr

/-- A sequence of `GetTask` calls, served one after the other: the final coordinator
and the replies in call order; `none` if a call panics. -/
def run : Coordinator → List Call → Option (Coordinator × List TaskReply)
  | c, [] => some (c, [])
  | c, call :: rest =>
    match GetTask c call.args call.reply call.now with
    | none => none
    | some (c1, r) =>
      match run c1 rest with
      | none => none
      | some (c2, rs) => some (c2, r :: rs)

/-- The number of map tasks with `done = false`. -/
def mapNotDone (ts : List MapTask) : Nat := ts.countP fun t => !t.done

/-- The number of reduce tasks with `done = false`. -/
def reduceNotDone (ts : List ReduceTask) : Nat := ts.countP fun t => !t.done

/-- The zero value of `TaskReply`, which the RPC layer hands to the handler. -/
def zeroReply : TaskReply := { Type_ := TaskTypeNone, Id := 0, Files := [], NReduce := 0 }

/-- A sample job: the coordinator made for the input files `x`, `y` and two reduce tasks. -/
def sampleStart : Coordinator :=
  { mapTasks := [{ id := 0, file := "x", startAt := 0, done := false },
                 { id := 1, file := "y", startAt := 0, done := false }]
    mapRemain := 2
    reduceTasks := [{ id := 0, files := [], startAt := 0, done := false },
                    { id := 1, files := [], startAt := 0, done := false }]
    reduceRemain := 2 }

/-- A sample execution on `sampleStart`: a first contact, the completion of map 0 (reported
twice), and the completion of reduce 1. -/
def sampleCalls : List Call :=
  [{ args := { DoneType := TaskTypeNone, Id := 0, Files := [] }, reply := zeroReply,
     now := 100 * Second },
   { args := { DoneType := TaskTypeMap, Id := 0, Files := ["mr-0-0", ""] }, reply := zeroReply,
     now := 101 * Second },
   { args := { DoneType := TaskTypeMap, Id := 0, Files := ["mr-0-0", ""] }, reply := zeroReply,
     now := 102 * Second },
   { args := { DoneType := TaskTypeReduce, Id := 1, Files := ["mr-out-1"] }, reply := zeroReply,
     now := 103 * Second }]

/-- The reports by which both map tasks of `sampleStart` complete. -/
def sampleMapReports : List Call :=
  [{ args := { DoneType := TaskTypeMap, Id := 0, Files := ["mr-0-0", ""] }, reply := zeroReply,
     now := 101 * Second },
   { args := { DoneType := TaskTypeMap, Id := 1, Files := ["mr-1-0", "mr-1-1"] },
     reply := zeroReply, now := 102 * Second }]

/-- The state of the sample job after `sampleMapReports`: the reduce phase. -/
def sampleReducePhase : Coordinator :=
  { mapTasks := [{ id := 0, file := "x", startAt := 0, done := true },
                 { id := 1, file := "y", startAt := 101 * Second, done := true }]
    mapRemain := 0
    reduceTasks := [{ id := 0, files := ["mr-0-0", "mr-1-0"], startAt := 102 * Second,
                      done := false },
                    { id := 1, files := ["mr-1-1"], startAt := 0, done := false }]
    reduceRemain := 2 }

/-- The state of the sample job after a first-contact call at 103 s in `sampleReducePhase`:
reduce 1 has been handed out. -/
def sampleReduceAssigned : Coordinator :=
  { sampleReducePhase with
    reduceTasks := [{ id := 0, files := ["mr-0-0", "mr-1-0"], startAt := 102 * Second,
                      done := false },
                    { id := 1, files := ["mr-1-1"], startAt := 103 * Second, done := false }] }

/-- The state of the sample job after the first report of `sampleMapReports` has been
applied: map 0 is done and its partition-0 file is recorded. -/
def sampleAfterMap0 : Coordinator :=
  { mapTasks := [{ id := 0, file := "x", startAt := 0, done := true },
                 { id := 1, file := "y", startAt := 0, done := false }]
    mapRemain := 1
    reduceTasks := [{ id := 0, files := ["mr-0-0"], startAt := 0, done := false },
                    { id := 1, files := [], startAt := 0, done := false }]
    reduceRemain := 2 }

/-- A state of the sample job in which reduce 1 has been reported done ahead of the maps. -/
def sampleReduceDone : Coordinator :=
  { mapTasks := [{ id := 0, file := "x", startAt := 0, done := false },
                 { id := 1, file := "y", startAt := 0, done := false }]
    mapRemain := 2
    reduceTasks := [{ id := 0, files := [], startAt := 0, done := false },
                    { id := 1, files := [], startAt := 0, done := true }]
    reduceRemain := 1 }

/-- The report of a worker that has nothing to report. -/
def firstContact : TaskArgs := { DoneType := TaskTypeNone, Id := 0, Files := [] }

/-- A job with one input file and one reduce task, as `MakeCoordinator` makes it. -/
def soloStart : Coordinator :=
  { mapTasks := [{ id := 0, file := "x", startAt := 0, done := false }]
    mapRemain := 1
    reduceTasks := [{ id := 0, files := [], startAt := 0, done := false }]
    reduceRemain := 1 }

/-- The job `soloStart` after its map task has been handed out at 100 s. -/
def soloAssigned : Coordinator :=
  { soloStart with mapTasks := [{ id := 0, file := "x", startAt := 100 * Second, done := false }] }

/-- The job `sampleStart` after map 0 has been handed out at 100 s. -/
def sampleMap0Assigned : Coordinator :=
  { sampleStart with
    mapTasks := [{ id := 0, file := "x", startAt := 100 * Second, done := false },
                 { id := 1, file := "y", startAt := 0, done := false }] }

/-- The job `sampleStart` after map 0 has been handed out at 100 s, map 1 at 105 s and
map 0 again at 116 s. -/
def sampleMap0Again : Coordinator :=
  { sampleStart with
    mapTasks := [{ id := 0, file := "x", startAt := 116 * Second, done := false },
                 { id := 1, file := "y", startAt := 105 * Second, done := false }] }

/-- The job `sampleStart` after map 0 has been handed out at 100 s and map 1 at 105 s. -/
def sampleBothAssigned : Coordinator :=
  { sampleStart with
    mapTasks := [{ id := 0, file := "x", startAt := 100 * Second, done := false },
                 { id := 1, file := "y", startAt := 105 * Second, done := false }] }

/-- Two calls without a report, at 105 s and at 110 s. -/
def soloWindowCalls : List Call :=
  [{ args := firstContact, reply := zeroReply, now := 105 * Second },
   { args := firstContact, reply := zeroReply, now := 110 * Second }]

/-- The job `soloStart` after a report `{Reduce, 0}` made before any assignment. -/
def soloReduceReported : Coordinator :=
  { soloStart with
    reduceTasks := [{ id := 0, files := [], startAt := 0, done := true }]
    reduceRemain := 0 }

/-- The finished job `soloStart`: both tasks done, both counters zero. -/
def soloFinished : Coordinator :=
  { mapTasks := [{ id := 0, file := "x", startAt := 100 * Second, done := true }]
    mapRemain := 0
    reduceTasks := [{ id := 0, files := ["mr-0-0"], startAt := 101 * Second, done := true }]
    reduceRemain := 0 }

/-- A complete execution of the job `soloStart`: first contact, the map completion, the
reduce completion. -/
def soloCalls : List Call :=
  [{ args := firstContact, reply := zeroReply, now := 100 * Second },
   { args := { DoneType := TaskTypeMap, Id := 0, Files := ["mr-0-0"] }, reply := zeroReply,
     now := 101 * Second },
   { args := { DoneType := TaskTypeReduce, Id := 0, Files := ["mr-out-0"] },
     reply := zeroReply, now := 102 * Second }]

/-- The replies to `soloCalls`. -/
def soloReplies : List TaskReply :=
  [{ Type_ := TaskTypeMap, Id := 0, Files := ["x"], NReduce := 1 },
   { Type_ := TaskTypeReduce, Id := 0, Files := ["mr-0-0"], NReduce := 0 },
   { Type_ := TaskTypeExit, Id := 0, Files := [], NReduce := 0 }]

/-- The path that the loop of `rangeFiles`, started at index `k` on the list `fs`, appends
to the reduce task at index `r`: the non-empty entry `fs[r - k]`, if there is one. -/
def appended (fs : List String) (k r : Nat) : List String :=
  if k ≤ r then
    match fs[r - k]? with
    | some f => if 0 < f.length then [f] else []
    | none => []
  else []

/-- The data model's reading of `id`: every task's id is its index. -/
def IdsAreIndices (c : Coordinator) : Prop :=
  (∀ (i : Nat) (t : MapTask), c.mapTasks[i]? = some t → t.id = (i : Int)) ∧
  (∀ (i : Nat) (t : ReduceTask), c.reduceTasks[i]? = some t → t.id = (i : Int))

/-- The two counters are exact and the task lists fit a Go `int`. -/
def CountersExact (c : Coordinator) : Prop :=
  c.mapRemain = (mapNotDone c.mapTasks : Int) ∧
  c.reduceRemain = (reduceNotDone c.reduceTasks : Int) ∧
  (c.mapTasks.length : Int) < 2 ^ 63 ∧ (c.reduceTasks.length : Int) < 2 ^ 63

/-- A report with in-range ids for `M` map tasks and `R` reduce tasks: a Map report
names a map task and carries `R` files, a Reduce report names a reduce task. -/
def InRange (M R : Nat) (args : TaskArgs) : Prop :=
  (args.DoneType = TaskTypeMap → 0 ≤ args.Id ∧ args.Id < M ∧ args.Files.length = R) ∧
  (args.DoneType = TaskTypeReduce → 0 ≤ args.Id ∧ args.Id < R)

/-! ## The shuffle, in the words of the spec -/

/-- The files of the first Map completion report for map task `m` in a sequence of calls:
the report of `m` that the coordinator accepts. -/
def firstMapReport (m : Nat) : List Call → Option (List String)
  | [] => none
  | call :: rest =>
    if call.args.DoneType = TaskTypeMap ∧ call.args.Id = (m : Int) then some call.args.Files
    else firstMapReport m rest

/-- The entry of a report for partition `r`: its `files[r]` if there is one and it is not
empty. -/
def partitionEntry (fs : Option (List String)) (r : Nat) : List String :=
  match fs with
  | some fs => appended fs 0 r
  | none => []

/-- The complete shuffle of partition `r`, in the words of the spec: for each of the map
tasks `0, …, M - 1`, the non-empty `files[r]` of the first completion report of that task. -/
def expectedShuffle (calls : List Call) (r : Nat) : Nat → List String
  | 0 => []
  | M + 1 => expectedShuffle calls r M ++ partitionEntry (firstMapReport M calls) r

/-- The part of the shuffle of partition `r` that is still to come from the calls, when `d`
tells which map tasks are done already. -/
def pendingShuffle (d : Nat → Bool) (calls : List Call) (r : Nat) : Nat → List String
  | 0 => []
  | M + 1 =>
    pendingShuffle d calls r M ++
      (if d M then [] else partitionEntry (firstMapReport M calls) r)

/-- The done flag of map task `m`, `false` out of range. -/
def mapDoneAt (c : Coordinator) (m : Nat) : Bool :=
  match c.mapTasks[m]? with
  | some t => t.done
  | none => false

/-! ## The worker (`src/mr/worker.go`): hashing -/

/-- The struct `KeyValue`. -/
structure KeyValue where
  Key : String
  Value : String
  deriving DecidableEq, Repr

/-- Modelled from the spec: the Go library `hash/fnv` is not among the sources.  This is
`fnv.New32a()`, the initial state of the 32-bit FNV-1a hash: the offset basis. -/
def fnvNew32a : Nat := 2166136261

/-- Modelled from the spec: the Go library `hash/fnv` is not among the sources.  This is
`Write` of the 32-bit FNV-1a hash: for each byte, xor the byte into the state, then multiply
by the prime 16777619, in 32 bits. -/
def fnvWrite : Nat → List UInt8 → Nat
  | h, [] => h
  | h, c :: data => fnvWrite (((h ^^^ c.toNat) * 16777619) % 2 ^ 32) data

/-- Modelled from the spec: the Go library `hash/fnv` is not among the sources.  This is
`Sum32`, which returns the state. -/
def fnvSum32 (h : Nat) : Nat := h

/-- The conversion `[]byte(key)`: the UTF-8 bytes of the key. -/
def keyBytes (key : String) : List UInt8 := key.data.flatMap String.utf8EncodeChar

/-- The function `ihash`. -/
def ihash (key : String) : Int :=
  ((fnvSum32 (fnvWrite fnvNew32a (keyBytes key)) &&& 0x7fffffff : Nat) : Int)

/-- The 32-bit FNV-1a hash in the words of the claim: from the offset basis 2166136261, for
each byte xor then multiply by 16777619 modulo 2^32. -/
def fnv1a32 (bytes : List UInt8) : Nat :=
  bytes.foldl (fun h b => ((h ^^^ b.toNat) * 16777619) % 2 ^ 32) 2166136261

/-- Go's `a % b` on `int`: the remainder of the division truncated toward zero; a zero
divisor is a run-time panic. -/
def goMod (a b : Int) : Option Int :=
  if b = 0 then none else some (Int.tmod a b)

/-! ## The worker: a Map task -/

/-- The Go map `byReduceFiles`, of type `map[int][]KeyValue`, as an association list. -/
abbrev Buckets := List (Int × List KeyValue)

/-- The read `byReduceFiles[idx]`; a missing key reads as the nil slice. -/
def Buckets.get : Buckets → Int → List KeyValue
  | [], _ => []
  | (k, kvs) :: rest, idx => if k = idx then kvs else Buckets.get rest idx

/-- The write `byReduceFiles[idx] = kvs`. -/
def Buckets.put : Buckets → Int → List KeyValue → Buckets
  | [], idx, kvs => [(idx, kvs)]
  | (k, old) :: rest, idx, kvs =>
    if k = idx then (k, kvs) :: rest else (k, old) :: Buckets.put rest idx kvs

/-- The loop `for _, kv := range intermediate` of the Map branch of `Worker`: each record is
appended to the bucket `ihash(kv.Key) % NReduce`. -/
def partitionLoop (nReduce : Int) : Buckets → List KeyValue → Option Buckets
  | b, [] => some b
  | b, kv :: rest =>
    match goMod (ihash kv.Key) nReduce with
    | none => none
    | some idx => partitionLoop nReduce (b.put idx (b.get idx ++ [kv])) rest

/-- The file name `fmt.Sprintf("mr-%d-%d", newTask.Id, reduceId)`. -/
def intermediateName (id reduceId : Int) : String :=
  "mr-" ++ toString id ++ "-" ++ toString reduceId

/-- The loop `for reduceId, kvs := range byReduceFiles` of the Map branch of `Worker`, as far
as the report goes: `files[reduceId] = filename`.  Creating and writing the file is taken to
succeed.  Go ranges over a map in no fixed order; here the order is that of the list. -/
def reportLoop (id : Int) : List String → Buckets → Option (List String)
  | files, [] => some files
  | files, (reduceId, _) :: rest =>
    if reduceId < 0 ∨ (files.length : Int) ≤ reduceId then none
    else reportLoop id (files.set reduceId.toNat (intermediateName id reduceId)) rest

/-- The Map branch of `Worker` from the output `intermediate` of `mapf` on: the completion
report `finishedTask`.  `make([]string, NReduce)` panics on a negative length and on a
length beyond `maxLen`, the longest `[]string` that the runtime can make (`makeslice: len
out of range`); `maxLen` depends on the platform and is a parameter. -/
def workerMap (maxLen : Nat) (id nReduce : Int) (intermediate : List KeyValue) :
    Option TaskArgs :=
  match partitionLoop nReduce [] intermediate with
  | none => none
  | some byReduceFiles =>
    if nReduce < 0 ∨ (maxLen : Int) < nReduce then none
    else
      match reportLoop id (List.replicate nReduce.toNat "") byReduceFiles with
      | none => none
      | some files => some { DoneType := TaskTypeMap, Id := id, Files := files }

/-- The longest `[]string` on 64-bit Linux: the runtime allocates at most `2^48` bytes at
once and a string header takes 16 bytes. -/
def maxStringsLinux64 : Nat := 2 ^ 44

/-- The output of a word-count `mapf` on the text `cat dog cat`. -/
def sampleIntermediate : List KeyValue :=
  [{ Key := "cat", Value := "1" }, { Key := "dog", Value := "1" },
   { Key := "cat", Value := "1" }, { Key := "a", Value := "1" }]

/-! ## The worker: a Reduce task -/

/-- The method `ByKey.Less`, on the two elements compared. -/
def ByKey.Less (a b : KeyValue) : Bool := decide (a.Key < b.Key)

/-- The loops over `i` and `j` of the Reduce branch of `Worker`, on the sorted records: the
first record opens a round, the inner loop runs over the following records with the same
key, the values of the round are collected, and the next round starts behind them.
`f key values` is what the round does with its key and values. -/
def reduceLoop {β : Type} (f : String → List String → β) : List KeyValue → List β
  | [] => []
  | kv :: rest =>
    f kv.Key
        (kv.Value :: (rest.takeWhile fun x => decide (x.Key = kv.Key)).map fun x => x.Value) ::
      reduceLoop f (rest.dropWhile fun x => decide (x.Key = kv.Key))
termination_by l => l.length
decreasing_by
  simp only [List.length_cons]
  exact Nat.lt_succ_of_le (List.dropWhile_sublist _).length_le

/-- The lines written to `mr-out-<id>`: each round calls `reducef(key, values)` and prints
`"%v %v\n"` of the key and the result. -/
def reduceLines (reducef : String → List String → String) (sorted : List KeyValue) :
    List String :=
  reduceLoop (fun key values => key ++ " " ++ reducef key values ++ "\n") sorted

/-- The outcome of one call of `dec.Decode(&kv)`: a record, the end of the stream, or an
error other than the end of the stream. -/
inductive DecodeResult where
  | record (kv : KeyValue)
  | eof
  | corrupt
  deriving DecidableEq, Repr

/-- The loop `for { ... dec.Decode(&kv) ... }` on the outcomes of the successive `Decode`
calls on one file; behind the last outcome listed the stream has ended.  Any error ends the
loop by `break`. -/
def decodeLoop : List DecodeResult → List KeyValue
  | [] => []
  | DecodeResult.record kv :: rest => kv :: decodeLoop rest
  | DecodeResult.eof :: _ => []
  | DecodeResult.corrupt :: _ => []

/-- The loop `for _, filename := range newTask.Files` of the Reduce branch of `Worker`.
`openFile` stands for `os.Open` followed by `json.NewDecoder`: `none` if the file cannot be
opened, which is fatal (`log.Fatalf`), else the outcomes of the `Decode` calls. -/
def readLoop (openFile : String → Option (List DecodeResult)) :
    List KeyValue → List String → Option (List KeyValue)
  | intermediate, [] => some intermediate
  | intermediate, filename :: rest =>
    match openFile filename with
    | none => none
    | some stream => readLoop openFile (intermediate ++ decodeLoop stream) rest

/-- The Reduce branch of `Worker`: the lines written to `mr-out-<id>` and the completion
report `finishedTask`; `none` is the fatal exit of the worker.  `sortByKey` stands for
`sort.Sort(ByKey(intermediate))`, a library routine; creating the output file and writing
to it are taken to succeed. -/
def workerReduce (sortByKey : List KeyValue → List KeyValue)
    (reducef : String → List String → String)
    (openFile : String → Option (List DecodeResult)) (id : Int) (files : List String) :
    Option (List String × TaskArgs) :=
  match readLoop openFile [] files with
  | none => none
  | some intermediate =>
    some (reduceLines reducef (sortByKey intermediate),
          { DoneType := TaskTypeReduce, Id := id, Files := ["mr-out-" ++ toString id] })

/-- A word-count `reducef`: the number of values. -/
def countValues (_key : String) (values : List String) : String := toString values.length

/-- An insertion sort by key, one routine that meets the contract of `sort.Sort`. -/
def insertionSortByKey (l : List KeyValue) : List KeyValue :=
  l.insertionSort fun a b => a.Key ≤ b.Key

/-- A file system with one intermediate file, `mr-0-0`, whose second record is corrupt. -/
def sampleOpen (filename : String) : Option (List DecodeResult) :=
  if filename = "mr-0-0" then
    some [DecodeResult.record { Key := "b", Value := "1" }, DecodeResult.corrupt,
          DecodeResult.record { Key := "a", Value := "1" }]
  else none

/-- The method `Coordinator.Done` as a step on the coordinator: the state it leaves and the
value it returns.  The method reads the two counters and writes nothing. -/
def DoneCall (c : Coordinator) : Coordinator × Bool := (c, Done c)

/-- The job `soloStart` with a report of its map task that lists two files where there is one
reduce task. -/
def soloLongReport : TaskArgs :=
  { DoneType := TaskTypeMap, Id := 0, Files := ["mr-0-0", "mr-0-1"] }

/-- Every call of the sequence carries a Map or Reduce completion report for a task whose
`startAt` is still the zero time when the call is made. -/
def reportsUnassigned : Coordinator → List Call → Prop
  | _, [] => True
  | c, call :: rest =>
    ((call.args.DoneType = TaskTypeMap ∧ ∃ t : MapTask, 0 ≤ call.args.Id ∧
        c.mapTasks[call.args.Id.toNat]? = some t ∧ t.startAt = 0) ∨
     (call.args.DoneType = TaskTypeReduce ∧ ∃ t : ReduceTask, 0 ≤ call.args.Id ∧
        c.reduceTasks[call.args.Id.toNat]? = some t ∧ t.startAt = 0)) ∧
    match GetTask c call.args call.reply call.now with
    | some (c1, _) => reportsUnassigned c1 rest
    | none => True

/-- Some task has been handed out and is not done: a task with `done = false` whose
`startAt` is later than the zero time. -/
def hasAssignedPending (c : Coordinator) : Prop :=
  (∃ (i : Nat) (u : MapTask), c.mapTasks[i]? = some u ∧ u.done = false ∧ 0 < u.startAt) ∨
  (∃ (i : Nat) (u : ReduceTask), c.reduceTasks[i]? = some u ∧ u.done = false ∧ 0 < u.startAt)

/-- Two completion reports on the job `soloStart`, with no first contact: the reduce task,
which was never handed out, and then the map task. -/
def soloReportsOnly : List Call :=
  [{ args := { DoneType := TaskTypeReduce, Id := 0, Files := ["mr-out-0"] },
     reply := zeroReply, now := 100 * Second },
   { args := { DoneType := TaskTypeMap, Id := 0, Files := ["mr-0-0"] },
     reply := zeroReply, now := 101 * Second }]

/-- The job `soloStart` after `soloReportsOnly`. -/
def soloReportedOnly : Coordinator :=
  { mapTasks := [{ id := 0, file := "x", startAt := 100 * Second, done := true }]
    mapRemain := 0
    reduceTasks := [{ id := 0, files := ["mr-0-0"], startAt := 0, done := true }]
    reduceRemain := 0 }

/-! ## List facts used below -/

theorem countP_set_of_getElem? {α : Type} (p : α → Bool) (l : List α) (i : Nat) (a b : α)
    (h : l[i]? = some a) :
    (l.set i b).countP p + (if p a then 1 else 0) = l.countP p + (if p b then 1 else 0) := by
  induction l generalizing i with
  | nil => simp at h
  | cons x xs ih =>
    cases i with
    | zero =>
      simp only [List.getElem?_cons_zero, Option.some.injEq] at h
      subst h
      simp only [List.set_cons_zero, List.countP_cons]
      omega
    | succ j =>
      simp only [List.getElem?_cons_succ] at h
      have := ih j h
      simp only [List.set_cons_succ, List.countP_cons]
      omega

theorem countP_eq_zero_of_all {α : Type} (p : α → Bool) (l : List α)
    (h : l.countP p = 0) (a : α) (ha : a ∈ l) : p a = false := by
  rw [List.countP_eq_zero] at h
  simpa using h a ha

theorem countP_pos_of_getElem? {α : Type} (p : α → Bool) (l : List α) (i : Nat) (a : α)
    (h : l[i]? = some a) (hp : p a = true) : 0 < l.countP p := by
  rw [List.countP_pos_iff]
  exact ⟨a, List.getElem?_mem h, hp⟩

/-! ## The loop over the reported files -/

theorem appended_nil (k r : Nat) : appended [] k r = [] := by
  unfold appended
  split <;> simp

theorem appended_cons_self (f : String) (rest : List String) (k : Nat) :
    appended (f :: rest) k k = if 0 < f.length then [f] else [] := by
  simp [appended]

theorem appended_succ_self (rest : List String) (k : Nat) : appended rest (k + 1) k = [] := by
  simp [appended]

theorem appended_cons_of_ne (f : String) (rest : List String) (k r : Nat) (h : r ≠ k) :
    appended (f :: rest) k r = appended rest (k + 1) r := by
  unfold appended
  by_cases hk : k ≤ r
  · have h1 : k + 1 ≤ r := by omega
    obtain ⟨d, hd⟩ : ∃ d, r - k = d + 1 := ⟨r - k - 1, by omega⟩
    have h2 : r - (k + 1) = d := by omega
    simp [hk, h1, hd, h2]
  · have h1 : ¬ k + 1 ≤ r := by omega
    simp [hk, h1]

theorem rangeFiles_getElem? (fs : List String) :
    ∀ (rts : List ReduceTask) (k : Nat) (rts' : List ReduceTask),
      rangeFiles rts k fs = some rts' →
      ∀ r : Nat, rts'[r]? =
        (rts[r]?).map fun (t : ReduceTask) => { t with files := t.files ++ appended fs k r } := by
  induction fs with
  | nil =>
    intro rts k rts' h r
    simp only [rangeFiles, Option.some.injEq] at h
    subst h
    cases hr : rts[r]? <;> simp [appended_nil]
  | cons f rest ih =>
    intro rts k rts' h r
    unfold rangeFiles at h
    by_cases hf : 0 < f.length
    · simp only [hf, if_true] at h
      cases hk : rts[k]? with
      | none => simp [hk] at h
      | some t =>
        simp only [hk] at h
        have hlt : k < rts.length := (List.getElem?_eq_some_iff.mp hk).1
        rw [ih _ _ _ h r]
        by_cases hrk : r = k
        · subst hrk
          simp [List.getElem?_set, hlt, hk, appended_succ_self, appended_cons_self, hf]
        · have hkr : k ≠ r := fun e => hrk e.symm
          simp [List.getElem?_set_ne hkr, appended_cons_of_ne _ _ _ _ hrk]
    · simp only [hf, if_false] at h
      rw [ih _ _ _ h r]
      by_cases hrk : r = k
      · subst hrk
        simp [appended_succ_self, appended_cons_self, hf]
      · simp [appended_cons_of_ne _ _ _ _ hrk]

theorem rangeFiles_length (fs : List String) :
    ∀ (rts : List ReduceTask) (k : Nat) (rts' : List ReduceTask),
      rangeFiles rts k fs = some rts' → rts'.length = rts.length := by
  induction fs with
  | nil =>
    intro rts k rts' h
    simp only [rangeFiles, Option.some.injEq] at h
    rw [h]
  | cons f rest ih =>
    intro rts k rts' h
    unfold rangeFiles at h
    by_cases hf : 0 < f.length
    · simp only [hf, if_true] at h
      cases hk : rts[k]? with
      | none => simp [hk] at h
      | some t =>
        simp only [hk] at h
        rw [ih _ _ _ h, List.length_set]
    · simp only [hf, if_false] at h
      exact ih _ _ _ h

theorem rangeFiles_isSome (fs : List String) :
    ∀ (rts : List ReduceTask) (k : Nat),
      (∀ j f, fs[j]? = some f → 0 < f.length → k + j < rts.length) →
      ∃ rts', rangeFiles rts k fs = some rts' := by
  induction fs with
  | nil =>
    intro rts k _
    exact ⟨rts, rfl⟩
  | cons f rest ih =>
    intro rts k h
    unfold rangeFiles
    by_cases hf : 0 < f.length
    · have hlt : k < rts.length := by simpa using h 0 f (by simp) hf
      have hk : rts[k]? = some rts[k] := List.getElem?_eq_getElem hlt
      simp only [hf, if_true, hk]
      apply ih
      intro j g hj hg
      have := h (j + 1) g (by simpa using hj) hg
      rw [List.length_set]
      omega
    · simp only [hf, if_false]
      apply ih
      intro j g hj hg
      have := h (j + 1) g (by simpa using hj) hg
      omega

theorem rangeFiles_done (fs : List String) (rts : List ReduceTask) (k : Nat)
    (rts' : List ReduceTask) (h : rangeFiles rts k fs = some rts') :
    rts'.map (fun t => t.done) = rts.map (fun t => t.done) := by
  apply List.ext_getElem?
  intro r
  rw [List.getElem?_map, List.getElem?_map, rangeFiles_getElem? fs rts k rts' h r]
  cases rts[r]? <;> simp

theorem reduceNotDone_eq_of_done (l1 l2 : List ReduceTask)
    (h : l1.map (fun t => t.done) = l2.map (fun t => t.done)) :
    reduceNotDone l1 = reduceNotDone l2 := by
  have e : ∀ l : List ReduceTask,
      reduceNotDone l = (l.map fun t => t.done).countP fun b => !b := by
    intro l
    unfold reduceNotDone
    rw [List.countP_map]
    rfl
  rw [e, e, h]

/-! ## The scan loops -/

theorem scanTasks_some {α : Type} (p : α → Bool) :
    ∀ (l : List α) (i : Nat) (t : α), scanTasks p l = some (i, t) →
      l[i]? = some t ∧ p t = true ∧ ∀ (j : Nat) (u : α), j < i → l[j]? = some u → p u = false := by
  intro l
  induction l with
  | nil => intro i t h; simp [scanTasks] at h
  | cons x xs ih =>
    intro i t h
    unfold scanTasks at h
    by_cases hx : p x = true
    · simp only [hx, if_true, Option.some.injEq, Prod.mk.injEq] at h
      obtain ⟨h0, h1⟩ := h
      subst h0; subst h1
      exact ⟨by simp, hx, fun j u hj _ => absurd hj (Nat.not_lt_zero j)⟩
    · simp only [hx] at h
      cases hs : scanTasks p xs with
      | none => simp [hs] at h
      | some q =>
        obtain ⟨k, v⟩ := q
        simp only [hs, Option.map_some', Bool.false_eq_true, if_false, Option.some.injEq,
          Prod.mk.injEq] at h
        obtain ⟨h0, h1⟩ := h
        subst h0; subst h1
        obtain ⟨a, b, c⟩ := ih k v hs
        refine ⟨by simpa using a, b, ?_⟩
        intro j u hj hu
        cases j with
        | zero =>
          simp only [List.getElem?_cons_zero, Option.some.injEq] at hu
          subst hu
          simpa using hx
        | succ j =>
          simp only [List.getElem?_cons_succ] at hu
          exact c j u (by omega) hu

theorem scanTasks_none {α : Type} (p : α → Bool) :
    ∀ (l : List α), scanTasks p l = none ↔ ∀ t ∈ l, p t = false := by
  intro l
  induction l with
  | nil => simp [scanTasks]
  | cons x xs ih =>
    unfold scanTasks
    by_cases hx : p x = true
    · simp [hx]
    · have hx' : p x = false := by simpa using hx
      simp [hx', ih]

theorem scanTasks_of_eligible {α : Type} (p : α → Bool) (l : List α) (i : Nat) (t : α)
    (h : l[i]? = some t) (hp : p t = true) :
    ∃ (j : Nat) (u : α), scanTasks p l = some (j, u) ∧ j ≤ i := by
  cases hs : scanTasks p l with
  | none =>
    have := (scanTasks_none p l).mp hs t (List.getElem?_mem h)
    rw [hp] at this
    exact absurd this (by simp)
  | some q =>
    obtain ⟨j, u⟩ := q
    refine ⟨j, u, rfl, ?_⟩
    by_contra hlt
    have := (scanTasks_some p l j u hs).2.2 i t (by omega) h
    rw [hp] at this
    exact absurd this (by simp)

/-! ## Case analysis of the two steps of `GetTask` -/

theorem wrapInt64_of_range (x : Int) (h0 : -(2 ^ 63) ≤ x) (h1 : x < 2 ^ 63) :
    wrapInt64 x = x := by
  unfold wrapInt64
  rw [Int.emod_eq_of_lt (by omega) (by omega)]
  omega

theorem applyReport_cases (c c1 : Coordinator) (args : TaskArgs)
    (h : applyReport c args = some c1) :
    c1 = c ∨
    (args.DoneType = TaskTypeMap ∧ 0 ≤ args.Id ∧ ∃ (t : MapTask) (rts : List ReduceTask),
      c.mapTasks[args.Id.toNat]? = some t ∧ t.done = false ∧
      rangeFiles c.reduceTasks 0 args.Files = some rts ∧
      c1 = { c with
        mapTasks := c.mapTasks.set args.Id.toNat { t with done := true }
        reduceTasks := rts
        mapRemain := wrapInt64 (c.mapRemain - 1) }) ∨
    (args.DoneType = TaskTypeReduce ∧ 0 ≤ args.Id ∧ ∃ t : ReduceTask,
      c.reduceTasks[args.Id.toNat]? = some t ∧ t.done = false ∧
      c1 = { c with
        reduceTasks := c.reduceTasks.set args.Id.toNat { t with done := true }
        reduceRemain := wrapInt64 (c.reduceRemain - 1) }) := by
  unfold applyReport at h
  cases hd : args.DoneType with
  | TaskTypeMap =>
    simp only [hd] at h
    by_cases hneg : args.Id < 0
    · simp [hneg] at h
    · simp only [hneg, if_false] at h
      cases ht : c.mapTasks[args.Id.toNat]? with
      | none => simp [ht] at h
      | some t =>
        simp only [ht] at h
        cases hdn : t.done with
        | true =>
          simp only [hdn, Bool.not_true, Bool.false_eq_true, if_false, Option.some.injEq] at h
          exact Or.inl h.symm
        | false =>
          simp only [hdn, Bool.not_false, if_true] at h
          cases hr : rangeFiles c.reduceTasks 0 args.Files with
          | none => simp [hr] at h
          | some rts =>
            simp only [hr, Option.some.injEq] at h
            exact Or.inr (Or.inl ⟨rfl, by omega, t, rts, rfl, hdn, rfl, h.symm⟩)
  | TaskTypeReduce =>
    simp only [hd] at h
    by_cases hneg : args.Id < 0
    · simp [hneg] at h
    · simp only [hneg, if_false] at h
      cases ht : c.reduceTasks[args.Id.toNat]? with
      | none => simp [ht] at h
      | some t =>
        simp only [ht] at h
        cases hdn : t.done with
        | true =>
          simp only [hdn, Bool.not_true, Bool.false_eq_true, if_false, Option.some.injEq] at h
          exact Or.inl h.symm
        | false =>
          simp only [hdn, Bool.not_false, if_true, Option.some.injEq] at h
          exact Or.inr (Or.inr ⟨rfl, by omega, t, rfl, hdn, h.symm⟩)
  | TaskTypeNone => simp only [hd, Option.some.injEq] at h; exact Or.inl h.symm
  | TaskTypeSleep => simp only [hd, Option.some.injEq] at h; exact Or.inl h.symm
  | TaskTypeExit => simp only [hd, Option.some.injEq] at h; exact Or.inl h.symm

theorem pickTask_cases (c : Coordinator) (reply : TaskReply) (now : Time) :
    (0 < c.mapRemain ∧ ∃ (idx : Nat) (t : MapTask),
      scanTasks (MapTask.eligible (now + (-10 * Second))) c.mapTasks = some (idx, t) ∧
      pickTask c reply now =
        ({ c with mapTasks := c.mapTasks.set idx { t with startAt := now } },
         { Type_ := TaskTypeMap, Id := t.id, Files := [t.file],
           NReduce := c.reduceTasks.length })) ∨
    (0 < c.mapRemain ∧
      scanTasks (MapTask.eligible (now + (-10 * Second))) c.mapTasks = none ∧
      pickTask c reply now = (c, { reply with Type_ := TaskTypeSleep })) ∨
    (¬ 0 < c.mapRemain ∧ 0 < c.reduceRemain ∧ ∃ (idx : Nat) (t : ReduceTask),
      scanTasks (ReduceTask.eligible (now + (-10 * Second))) c.reduceTasks = some (idx, t) ∧
      pickTask c reply now =
        ({ c with reduceTasks := c.reduceTasks.set idx { t with startAt := now } },
         { reply with Type_ := TaskTypeReduce, Id := t.id, Files := t.files })) ∨
    (¬ 0 < c.mapRemain ∧ 0 < c.reduceRemain ∧
      scanTasks (ReduceTask.eligible (now + (-10 * Second))) c.reduceTasks = none ∧
      pickTask c reply now = (c, { reply with Type_ := TaskTypeSleep })) ∨
    (¬ 0 < c.mapRemain ∧ ¬ 0 < c.reduceRemain ∧
      pickTask c reply now = (c, { reply with Type_ := TaskTypeExit })) := by
  unfold pickTask
  by_cases hm : 0 < c.mapRemain
  · cases hs : scanTasks (MapTask.eligible (now + (-10 * Second))) c.mapTasks with
    | none => exact Or.inr (Or.inl ⟨hm, rfl, by simp only [gt_iff_lt, hm, hs, if_true]⟩)
    | some q =>
      obtain ⟨idx, t⟩ := q
      exact Or.inl ⟨hm, idx, t, rfl, by simp only [gt_iff_lt, hm, hs, if_true]⟩
  · by_cases hr : 0 < c.reduceRemain
    · cases hs : scanTasks (ReduceTask.eligible (now + (-10 * Second))) c.reduceTasks with
      | none => exact Or.inr (Or.inr (Or.inr (Or.inl ⟨hm, hr, rfl, by simp only [gt_iff_lt, hm, hr, hs, if_true, if_false]⟩)))
      | some q =>
        obtain ⟨idx, t⟩ := q
        exact Or.inr (Or.inr (Or.inl ⟨hm, hr, idx, t, rfl, by simp only [gt_iff_lt, hm, hr, hs, if_true, if_false]⟩))
    · exact Or.inr (Or.inr (Or.inr (Or.inr ⟨hm, hr, by simp only [gt_iff_lt, hm, hr, if_false]⟩)))

/-! ## What a call preserves -/

theorem getElem?_set_prop {α : Type} (P : Nat → α → Prop) (l : List α) (k : Nat) (b : α)
    (hl : ∀ (i : Nat) (t : α), l[i]? = some t → P i t) (hb : P k b) :
    ∀ (i : Nat) (t : α), (l.set k b)[i]? = some t → P i t := by
  intro i t h
  rw [List.getElem?_set] at h
  by_cases hki : k = i
  · subst hki
    by_cases hlt : k < l.length
    · simp only [if_true, hlt, Option.some.injEq] at h
      subst h
      exact hb
    · simp [hlt] at h
  · simp only [hki, if_false] at h
    exact hl i t h

theorem applyReport_length (c c1 : Coordinator) (args : TaskArgs)
    (h : applyReport c args = some c1) :
    c1.mapTasks.length = c.mapTasks.length ∧ c1.reduceTasks.length = c.reduceTasks.length := by
  rcases applyReport_cases c c1 args h with h | ⟨_, _, t, rts, _, _, hr, h⟩ | ⟨_, _, t, _, _, h⟩
  · subst h; exact ⟨rfl, rfl⟩
  · subst h
    exact ⟨by simp, rangeFiles_length _ _ _ _ hr⟩
  · subst h
    exact ⟨rfl, by simp⟩

theorem pickTask_length (c : Coordinator) (reply : TaskReply) (now : Time) :
    (pickTask c reply now).1.mapTasks.length = c.mapTasks.length ∧
    (pickTask c reply now).1.reduceTasks.length = c.reduceTasks.length := by
  rcases pickTask_cases c reply now with ⟨_, _, _, _, h⟩ | ⟨_, _, h⟩ | ⟨_, _, _, _, _, h⟩ |
    ⟨_, _, _, h⟩ | ⟨_, _, h⟩ <;> rw [h] <;> simp

theorem applyReport_ids (c c1 : Coordinator) (args : TaskArgs)
    (h : applyReport c args = some c1) (hid : IdsAreIndices c) : IdsAreIndices c1 := by
  rcases applyReport_cases c c1 args h with h | ⟨_, _, t, rts, ht, _, hr, h⟩ | ⟨_, _, t, ht, _, h⟩
  · subst h; exact hid
  · subst h
    refine ⟨?_, ?_⟩
    · exact getElem?_set_prop (fun i (u : MapTask) => u.id = (i : Int)) _ _ _ hid.1
        (hid.1 _ t ht)
    · intro i u hu
      simp only at hu
      rw [rangeFiles_getElem? _ _ _ _ hr i] at hu
      cases hc : c.reduceTasks[i]? with
      | none => simp [hc] at hu
      | some v =>
        simp only [hc, Option.map_some', Option.some.injEq] at hu
        subst hu
        exact hid.2 i v hc
  · subst h
    exact ⟨hid.1, getElem?_set_prop (fun i (u : ReduceTask) => u.id = (i : Int)) _ _ _ hid.2
      (hid.2 _ t ht)⟩

theorem pickTask_ids (c : Coordinator) (reply : TaskReply) (now : Time)
    (hid : IdsAreIndices c) : IdsAreIndices (pickTask c reply now).1 := by
  rcases pickTask_cases c reply now with ⟨_, idx, t, hs, h⟩ | ⟨_, _, h⟩ | ⟨_, _, idx, t, hs, h⟩ |
    ⟨_, _, _, h⟩ | ⟨_, _, h⟩ <;> rw [h]
  · have ht := (scanTasks_some _ _ _ _ hs).1
    exact ⟨getElem?_set_prop (fun i (u : MapTask) => u.id = (i : Int)) _ _ _ hid.1
      (hid.1 _ t ht), hid.2⟩
  · exact hid
  · have ht := (scanTasks_some _ _ _ _ hs).1
    exact ⟨hid.1, getElem?_set_prop (fun i (u : ReduceTask) => u.id = (i : Int)) _ _ _ hid.2
      (hid.2 _ t ht)⟩
  · exact hid
  · exact hid

theorem mapNotDone_set_done (l : List MapTask) (i : Nat) (t : MapTask)
    (h : l[i]? = some t) (hd : t.done = false) :
    mapNotDone (l.set i { t with done := true }) + 1 = mapNotDone l := by
  have := countP_set_of_getElem? (fun u : MapTask => !u.done) l i t { t with done := true } h
  simpa [mapNotDone, hd] using this

theorem mapNotDone_set_startAt (l : List MapTask) (i : Nat) (t : MapTask) (now : Time)
    (h : l[i]? = some t) :
    mapNotDone (l.set i { t with startAt := now }) = mapNotDone l := by
  have := countP_set_of_getElem? (fun u : MapTask => !u.done) l i t { t with startAt := now } h
  simpa [mapNotDone] using this

theorem reduceNotDone_set_done (l : List ReduceTask) (i : Nat) (t : ReduceTask)
    (h : l[i]? = some t) (hd : t.done = false) :
    reduceNotDone (l.set i { t with done := true }) + 1 = reduceNotDone l := by
  have := countP_set_of_getElem? (fun u : ReduceTask => !u.done) l i t { t with done := true } h
  simpa [reduceNotDone, hd] using this

theorem reduceNotDone_set_startAt (l : List ReduceTask) (i : Nat) (t : ReduceTask) (now : Time)
    (h : l[i]? = some t) :
    reduceNotDone (l.set i { t with startAt := now }) = reduceNotDone l := by
  have := countP_set_of_getElem? (fun u : ReduceTask => !u.done) l i t { t with startAt := now } h
  simpa [reduceNotDone] using this

theorem mapNotDone_le (l : List MapTask) : mapNotDone l ≤ l.length := List.countP_le_length _

theorem reduceNotDone_le (l : List ReduceTask) : reduceNotDone l ≤ l.length :=
  List.countP_le_length _

theorem applyReport_counters (c c1 : Coordinator) (args : TaskArgs)
    (h : applyReport c args = some c1) (hc : CountersExact c) : CountersExact c1 := by
  obtain ⟨hm, hr, bm, br⟩ := hc
  rcases applyReport_cases c c1 args h with h | ⟨_, _, t, rts, ht, hd, hrf, h⟩ |
    ⟨_, _, t, ht, hd, h⟩
  · subst h; exact ⟨hm, hr, bm, br⟩
  · subst h
    have h1 := mapNotDone_set_done _ _ _ ht hd
    have h2 := mapNotDone_le c.mapTasks
    have h3 := reduceNotDone_eq_of_done _ _ (rangeFiles_done _ _ _ _ hrf)
    have h4 := rangeFiles_length _ _ _ _ hrf
    refine ⟨?_, ?_, ?_, ?_⟩
    · simp only
      rw [wrapInt64_of_range _ (by omega) (by omega)]
      omega
    · simp only
      rw [hr, h3]
    · simpa using bm
    · simp only
      rw [h4]; exact br
  · subst h
    have h1 := reduceNotDone_set_done _ _ _ ht hd
    have h2 := reduceNotDone_le c.reduceTasks
    refine ⟨hm, ?_, bm, ?_⟩
    · simp only
      rw [wrapInt64_of_range _ (by omega) (by omega)]
      omega
    · simpa using br

theorem pickTask_counters (c : Coordinator) (reply : TaskReply) (now : Time)
    (hc : CountersExact c) : CountersExact (pickTask c reply now).1 := by
  obtain ⟨hm, hr, bm, br⟩ := hc
  rcases pickTask_cases c reply now with ⟨_, idx, t, hs, h⟩ | ⟨_, _, h⟩ | ⟨_, _, idx, t, hs, h⟩ |
    ⟨_, _, _, h⟩ | ⟨_, _, h⟩ <;> rw [h]
  · have ht := (scanTasks_some _ _ _ _ hs).1
    exact ⟨by simp only; rw [mapNotDone_set_startAt _ _ _ _ ht]; exact hm, hr,
      by simpa using bm, br⟩
  · exact ⟨hm, hr, bm, br⟩
  · have ht := (scanTasks_some _ _ _ _ hs).1
    exact ⟨hm, by simp only; rw [reduceNotDone_set_startAt _ _ _ _ ht]; exact hr, bm,
      by simpa using br⟩
  · exact ⟨hm, hr, bm, br⟩
  · exact ⟨hm, hr, bm, br⟩

/-! ## The initial state -/

theorem initMapTasks_getElem? (files : List String) :
    ∀ (k i : Nat), (initMapTasks k files)[i]? =
      (files[i]?).map fun f => MapTask.mk ((k + i : Nat) : Int) f 0 false := by
  induction files with
  | nil => intro k i; simp [initMapTasks]
  | cons f rest ih =>
    intro k i
    cases i with
    | zero => simp [initMapTasks]
    | succ j =>
      simp only [initMapTasks, List.getElem?_cons_succ, ih (k + 1) j]
      have e : k + 1 + j = k + (j + 1) := by omega
      rw [e]

theorem initMapTasks_length (files : List String) :
    ∀ k : Nat, (initMapTasks k files).length = files.length := by
  induction files with
  | nil => intro k; simp [initMapTasks]
  | cons f rest ih => intro k; simp [initMapTasks, ih]

theorem initMapTasks_notDone (files : List String) :
    ∀ k : Nat, mapNotDone (initMapTasks k files) = files.length := by
  induction files with
  | nil => intro k; simp [initMapTasks, mapNotDone]
  | cons f rest ih =>
    intro k
    have := ih (k + 1)
    simp only [mapNotDone] at this
    simp [initMapTasks, mapNotDone, this]

theorem initReduceTasks_getElem? (n : Nat) :
    ∀ (k i : Nat) (t : ReduceTask), (initReduceTasks k n)[i]? = some t →
      t = { id := ((k + i : Nat) : Int), files := [], startAt := 0, done := false } := by
  induction n with
  | zero => intro k i t h; simp [initReduceTasks] at h
  | succ m ih =>
    intro k i t h
    cases i with
    | zero =>
      simp only [initReduceTasks, List.getElem?_cons_zero, Option.some.injEq] at h
      rw [← h]; simp
    | succ j =>
      simp only [initReduceTasks, List.getElem?_cons_succ] at h
      have := ih (k + 1) j t h
      have e : k + 1 + j = k + (j + 1) := by omega
      rw [this, e]

theorem initReduceTasks_length (n : Nat) :
    ∀ k : Nat, (initReduceTasks k n).length = n := by
  induction n with
  | zero => intro k; simp [initReduceTasks]
  | succ m ih => intro k; simp [initReduceTasks, ih]

theorem initReduceTasks_notDone (n : Nat) :
    ∀ k : Nat, reduceNotDone (initReduceTasks k n) = n := by
  induction n with
  | zero => intro k; simp [initReduceTasks, reduceNotDone]
  | succ m ih =>
    intro k
    have := ih (k + 1)
    simp only [reduceNotDone] at this
    simp [initReduceTasks, reduceNotDone, this]

theorem MakeCoordinator_eq (files : List String) (nReduce : Int) (c0 : Coordinator)
    (h : MakeCoordinator files nReduce = some c0) :
    0 ≤ nReduce ∧ nReduce < 2 ^ 63 ∧ (files.length : Int) < 2 ^ 63 ∧
    c0 = { mapTasks := initMapTasks 0 files
           reduceTasks := initReduceTasks 0 nReduce.toNat
           mapRemain := files.length
           reduceRemain := nReduce } := by
  unfold MakeCoordinator at h
  by_cases hb : nReduce < 0 ∨ 2 ^ 63 ≤ nReduce ∨ 2 ^ 63 ≤ (files.length : Int)
  · rw [if_pos hb] at h
    cases h
  · rw [if_neg hb, Option.some.injEq] at h
    refine ⟨by omega, by omega, by omega, h.symm⟩

theorem MakeCoordinator_length (files : List String) (nReduce : Int) (c0 : Coordinator)
    (h : MakeCoordinator files nReduce = some c0) :
    c0.mapTasks.length = files.length ∧ c0.reduceTasks.length = nReduce.toNat := by
  obtain ⟨_, _, _, e⟩ := MakeCoordinator_eq files nReduce c0 h
  subst e
  exact ⟨initMapTasks_length _ _, initReduceTasks_length _ _⟩

theorem MakeCoordinator_ids (files : List String) (nReduce : Int) (c0 : Coordinator)
    (h : MakeCoordinator files nReduce = some c0) : IdsAreIndices c0 := by
  obtain ⟨_, _, _, e⟩ := MakeCoordinator_eq files nReduce c0 h
  subst e
  refine ⟨?_, ?_⟩
  · intro i t ht
    simp only [initMapTasks_getElem?] at ht
    cases hf : files[i]? with
    | none => simp [hf] at ht
    | some f =>
      simp only [hf, Option.map_some', Option.some.injEq] at ht
      rw [← ht]; simp
  · intro i t ht
    rw [initReduceTasks_getElem? _ _ _ _ ht]; simp

theorem MakeCoordinator_counters (files : List String) (nReduce : Int) (c0 : Coordinator)
    (h : MakeCoordinator files nReduce = some c0) : CountersExact c0 := by
  obtain ⟨h0, h1, h2, e⟩ := MakeCoordinator_eq files nReduce c0 h
  subst e
  refine ⟨?_, ?_, ?_, ?_⟩
  · simp [initMapTasks_notDone]
  · simp only [initReduceTasks_notDone]; omega
  · simpa [initMapTasks_length] using h2
  · simp only [initReduceTasks_length]; omega

/-! ## Executions -/

theorem GetTask_eq_some (c : Coordinator) (args : TaskArgs) (reply : TaskReply) (now : Time)
    (c2 : Coordinator) (r : TaskReply) :
    GetTask c args reply now = some (c2, r) ↔
      ∃ c1, applyReport c args = some c1 ∧ pickTask c1 reply now = (c2, r) := by
  unfold GetTask
  cases applyReport c args with
  | none => simp
  | some c1 => simp

theorem run_cons_eq_some (c : Coordinator) (call : Call) (rest : List Call)
    (c2 : Coordinator) (rs : List TaskReply) :
    run c (call :: rest) = some (c2, rs) ↔
      ∃ (c1 : Coordinator) (r : TaskReply) (rs1 : List TaskReply),
        GetTask c call.args call.reply call.now = some (c1, r) ∧
        run c1 rest = some (c2, rs1) ∧ rs = r :: rs1 := by
  simp only [run]
  cases hg : GetTask c call.args call.reply call.now with
  | none => simp
  | some q =>
    obtain ⟨c1, r⟩ := q
    cases hr : run c1 rest with
    | none => simp [hr]
    | some q2 =>
      obtain ⟨c3, rs1⟩ := q2
      simp only [hr, Option.some.injEq, Prod.mk.injEq]
      constructor
      · intro h
        exact ⟨c1, r, rs1, ⟨rfl, rfl⟩, by rw [hr, h.1], h.2.symm⟩
      · intro h
        obtain ⟨c1', r', rs1', h1, h2, h3⟩ := h
        rw [← h1.1, hr] at h2
        simp only [Option.some.injEq, Prod.mk.injEq] at h2
        exact ⟨h2.1, by rw [h3, h2.2, h1.2]⟩

theorem run_preserves (P : Coordinator → Prop)
    (hstep : ∀ (c : Coordinator) (args : TaskArgs) (reply : TaskReply) (now : Time)
      (c1 : Coordinator) (r : TaskReply),
      P c → GetTask c args reply now = some (c1, r) → P c1) :
    ∀ (calls : List Call) (c c2 : Coordinator) (rs : List TaskReply),
      P c → run c calls = some (c2, rs) → P c2 := by
  intro calls
  induction calls with
  | nil =>
    intro c c2 rs hp h
    simp only [run, Option.some.injEq, Prod.mk.injEq] at h
    rw [← h.1]; exact hp
  | cons call rest ih =>
    intro c c2 rs hp h
    obtain ⟨c1, r, rs1, hg, hr, _⟩ := (run_cons_eq_some c call rest c2 rs).mp h
    exact ih c1 c2 rs1 (hstep c _ _ _ c1 r hp hg) hr

theorem GetTask_counters (c : Coordinator) (args : TaskArgs) (reply : TaskReply) (now : Time)
    (c2 : Coordinator) (r : TaskReply) (hc : CountersExact c)
    (h : GetTask c args reply now = some (c2, r)) : CountersExact c2 := by
  obtain ⟨c1, h1, h2⟩ := (GetTask_eq_some c args reply now c2 r).mp h
  have := pickTask_counters c1 reply now (applyReport_counters c c1 args h1 hc)
  rw [h2] at this
  exact this

theorem GetTask_ids (c : Coordinator) (args : TaskArgs) (reply : TaskReply) (now : Time)
    (c2 : Coordinator) (r : TaskReply) (hc : IdsAreIndices c)
    (h : GetTask c args reply now = some (c2, r)) : IdsAreIndices c2 := by
  obtain ⟨c1, h1, h2⟩ := (GetTask_eq_some c args reply now c2 r).mp h
  have := pickTask_ids c1 reply now (applyReport_ids c c1 args h1 hc)
  rw [h2] at this
  exact this

theorem GetTask_length (c : Coordinator) (args : TaskArgs) (reply : TaskReply) (now : Time)
    (c2 : Coordinator) (r : TaskReply)
    (h : GetTask c args reply now = some (c2, r)) :
    c2.mapTasks.length = c.mapTasks.length ∧ c2.reduceTasks.length = c.reduceTasks.length := by
  obtain ⟨c1, h1, h2⟩ := (GetTask_eq_some c args reply now c2 r).mp h
  have a := applyReport_length c c1 args h1
  have b := pickTask_length c1 reply now
  rw [h2] at b
  exact ⟨b.1.trans a.1, b.2.trans a.2⟩

theorem applyReport_isSome (c : Coordinator) (args : TaskArgs)
    (hm : args.DoneType = TaskTypeMap →
      0 ≤ args.Id ∧ args.Id < c.mapTasks.length ∧ args.Files.length ≤ c.reduceTasks.length)
    (hr : args.DoneType = TaskTypeReduce → 0 ≤ args.Id ∧ args.Id < c.reduceTasks.length) :
    ∃ c1, applyReport c args = some c1 := by
  unfold applyReport
  cases hd : args.DoneType with
  | TaskTypeMap =>
    obtain ⟨h0, h1, h2⟩ := hm hd
    have hlt : args.Id.toNat < c.mapTasks.length := by omega
    have ht : c.mapTasks[args.Id.toNat]? = some c.mapTasks[args.Id.toNat] :=
      List.getElem?_eq_getElem hlt
    have hneg : ¬ args.Id < 0 := by omega
    simp only [hneg, if_false, ht]
    cases hdn : (c.mapTasks[args.Id.toNat]).done with
    | true => exact ⟨c, by simp⟩
    | false =>
      obtain ⟨rts, hrts⟩ := rangeFiles_isSome args.Files c.reduceTasks 0 (by
        intro j f hj _
        have := (List.getElem?_eq_some_iff.mp hj).1
        omega)
      simp only [Bool.not_false, if_true, hrts]
      exact ⟨_, rfl⟩
  | TaskTypeReduce =>
    obtain ⟨h0, h1⟩ := hr hd
    have hlt : args.Id.toNat < c.reduceTasks.length := by omega
    have ht : c.reduceTasks[args.Id.toNat]? = some c.reduceTasks[args.Id.toNat] :=
      List.getElem?_eq_getElem hlt
    have hneg : ¬ args.Id < 0 := by omega
    simp only [hneg, if_false, ht]
    cases hdn : (c.reduceTasks[args.Id.toNat]).done with
    | true => exact ⟨c, by simp⟩
    | false =>
      simp only [Bool.not_false, if_true]
      exact ⟨_, rfl⟩
  | TaskTypeNone => exact ⟨c, rfl⟩
  | TaskTypeSleep => exact ⟨c, rfl⟩
  | TaskTypeExit => exact ⟨c, rfl⟩

theorem run_isSome (M R : Nat) :
    ∀ (calls : List Call) (c : Coordinator),
      c.mapTasks.length = M → c.reduceTasks.length = R →
      (∀ call ∈ calls, InRange M R call.args) →
      ∃ (c2 : Coordinator) (rs : List TaskReply), run c calls = some (c2, rs) := by
  intro calls
  induction calls with
  | nil => intro c _ _ _; exact ⟨c, [], rfl⟩
  | cons call rest ih =>
    intro c hM hR hin
    have hc := hin call (List.mem_cons_self _ _)
    obtain ⟨c1, h1⟩ := applyReport_isSome c call.args
      (fun hd => by
        obtain ⟨a, b, d⟩ := hc.1 hd
        exact ⟨a, by rw [hM]; exact b, by omega⟩)
      (fun hd => by
        obtain ⟨a, b⟩ := hc.2 hd
        exact ⟨a, by rw [hR]; exact b⟩)
    cases hp : pickTask c1 call.reply call.now with
    | mk c2 r =>
      have hg : GetTask c call.args call.reply call.now = some (c2, r) :=
        (GetTask_eq_some _ _ _ _ _ _).mpr ⟨c1, h1, hp⟩
      have hl := GetTask_length c call.args call.reply call.now c2 r hg
      obtain ⟨c3, rs, h2⟩ := ih c2 (by rw [hl.1, hM]) (by rw [hl.2, hR])
        (fun x hx => hin x (List.mem_cons_of_mem _ hx))
      exact ⟨c3, r :: rs, (run_cons_eq_some _ _ _ _ _).mpr ⟨c2, r, rs, hg, h2, rfl⟩⟩

/-! ## Counters -/

/-- C1: in every state reached from `MakeCoordinator files nReduce` by `GetTask` calls whose
reports carry in-range ids and, for Map, `nReduce` files, the calls all return, `mapRemain` is
the number of map tasks with `done = false` and `reduceRemain` the number of reduce tasks
with `done = false`. -/
theorem GetTask_counter_invariant (files : List String) (nReduce : Int) (c0 : Coordinator)
    (calls : List Call)
    (hmk : MakeCoordinator files nReduce = some c0)
    (hin : ∀ call ∈ calls, InRange files.length nReduce.toNat call.args) :
    ∃ (c : Coordinator) (rs : List TaskReply), run c0 calls = some (c, rs) ∧
      c.mapRemain = (mapNotDone c.mapTasks : Int) ∧
      c.reduceRemain = (reduceNotDone c.reduceTasks : Int) := by
  obtain ⟨hM, hR⟩ := MakeCoordinator_length files nReduce c0 hmk
  obtain ⟨c, rs, hrun⟩ := run_isSome files.length nReduce.toNat calls c0 hM hR hin
  have hc := run_preserves CountersExact
    (fun c args reply now c1 r hp hg => GetTask_counters c args reply now c1 r hp hg)
    calls c0 c rs (MakeCoordinator_counters files nReduce c0 hmk) hrun
  exact ⟨c, rs, hrun, hc.1, hc.2.1⟩

theorem GetTask_counter_invariant_witness :
    MakeCoordinator ["x", "y"] 2 = some sampleStart ∧
    ∃ (c : Coordinator) (rs : List TaskReply), run sampleStart sampleCalls = some (c, rs) ∧
      c.mapRemain = (mapNotDone c.mapTasks : Int) ∧
      c.reduceRemain = (reduceNotDone c.reduceTasks : Int) :=
  ⟨by decide, GetTask_counter_invariant ["x", "y"] 2 sampleStart sampleCalls (by decide) (by
    intro call hc
    simp only [sampleCalls, List.mem_cons, List.mem_singleton, List.not_mem_nil, or_false] at hc
    rcases hc with rfl | rfl | rfl | rfl <;> simp [InRange])⟩

/-! ## Phases -/

theorem pickTask_reduce (c1 c2 : Coordinator) (reply r : TaskReply) (now : Time)
    (h : pickTask c1 reply now = (c2, r)) (hr : r.Type_ = TaskTypeReduce) :
    ¬ 0 < c1.mapRemain ∧ 0 < c1.reduceRemain ∧ ∃ (idx : Nat) (t : ReduceTask),
      scanTasks (ReduceTask.eligible (now + (-10 * Second))) c1.reduceTasks = some (idx, t) ∧
      c2 = { c1 with reduceTasks := c1.reduceTasks.set idx { t with startAt := now } } ∧
      r = { reply with Type_ := TaskTypeReduce, Id := t.id, Files := t.files } := by
  rcases pickTask_cases c1 reply now with ⟨_, _, _, _, e⟩ | ⟨_, _, e⟩ | ⟨hm, hp, idx, t, hs, e⟩ |
    ⟨_, _, _, e⟩ | ⟨_, _, e⟩ <;> rw [e] at h <;>
    simp only [Prod.mk.injEq] at h <;> obtain ⟨h1, h2⟩ := h
  · rw [← h2] at hr; cases hr
  · rw [← h2] at hr; cases hr
  · exact ⟨hm, hp, idx, t, hs, h1.symm, h2.symm⟩
  · rw [← h2] at hr; cases hr
  · rw [← h2] at hr; cases hr

theorem pickTask_map (c1 c2 : Coordinator) (reply r : TaskReply) (now : Time)
    (h : pickTask c1 reply now = (c2, r)) (hr : r.Type_ = TaskTypeMap) :
    0 < c1.mapRemain ∧ ∃ (idx : Nat) (t : MapTask),
      scanTasks (MapTask.eligible (now + (-10 * Second))) c1.mapTasks = some (idx, t) ∧
      c2 = { c1 with mapTasks := c1.mapTasks.set idx { t with startAt := now } } ∧
      r = { Type_ := TaskTypeMap, Id := t.id, Files := [t.file],
            NReduce := c1.reduceTasks.length } := by
  rcases pickTask_cases c1 reply now with ⟨hm, idx, t, hs, e⟩ | ⟨_, _, e⟩ | ⟨_, _, _, _, _, e⟩ |
    ⟨_, _, _, e⟩ | ⟨_, _, e⟩ <;> rw [e] at h <;>
    simp only [Prod.mk.injEq] at h <;> obtain ⟨h1, h2⟩ := h
  · exact ⟨hm, idx, t, hs, h1.symm, h2.symm⟩
  · rw [← h2] at hr; cases hr
  · rw [← h2] at hr; cases hr
  · rw [← h2] at hr; cases hr
  · rw [← h2] at hr; cases hr

theorem run_counters (files : List String) (nReduce : Int) (c0 c : Coordinator)
    (calls : List Call) (rs : List TaskReply)
    (hmk : MakeCoordinator files nReduce = some c0) (hrun : run c0 calls = some (c, rs)) :
    CountersExact c :=
  run_preserves CountersExact
    (fun c args reply now c1 r hp hg => GetTask_counters c args reply now c1 r hp hg)
    calls c0 c rs (MakeCoordinator_counters files nReduce c0 hmk) hrun

theorem run_ids (files : List String) (nReduce : Int) (c0 c : Coordinator)
    (calls : List Call) (rs : List TaskReply)
    (hmk : MakeCoordinator files nReduce = some c0) (hrun : run c0 calls = some (c, rs)) :
    IdsAreIndices c :=
  run_preserves IdsAreIndices
    (fun c args reply now c1 r hp hg => GetTask_ids c args reply now c1 r hp hg)
    calls c0 c rs (MakeCoordinator_ids files nReduce c0 hmk) hrun

theorem all_done_of_mapRemain (c : Coordinator) (hc : CountersExact c)
    (h : ¬ 0 < c.mapRemain) : ∀ t ∈ c.mapTasks, t.done = true := by
  intro t ht
  have h0 : mapNotDone c.mapTasks = 0 := by
    have := hc.1
    omega
  have := countP_eq_zero_of_all _ _ h0 t ht
  simpa using this

theorem all_done_of_reduceRemain (c : Coordinator) (hc : CountersExact c)
    (h : ¬ 0 < c.reduceRemain) : ∀ t ∈ c.reduceTasks, t.done = true := by
  intro t ht
  have h0 : reduceNotDone c.reduceTasks = 0 := by
    have := hc.2.1
    omega
  have := countP_eq_zero_of_all _ _ h0 t ht
  simpa using this

/-- C2: no reduce task is assigned while a map task is outstanding.  If `GetTask` replies
with type Reduce, then `mapRemain` is not greater than 0 in the state `c1` left by the report
(and the call leaves `mapRemain` and the map tasks as the report left them); and if the call is
made in a state reached from `MakeCoordinator`, every map task has `done = true`. -/
theorem GetTask_reduce_only_after_maps (c c2 : Coordinator) (args : TaskArgs)
    (reply r : TaskReply) (now : Time)
    (h : GetTask c args reply now = some (c2, r)) (hr : r.Type_ = TaskTypeReduce) :
    (∃ c1, applyReport c args = some c1 ∧ ¬ 0 < c1.mapRemain ∧
      c2.mapRemain = c1.mapRemain ∧ c2.mapTasks = c1.mapTasks) ∧
    (∀ (files : List String) (nReduce : Int) (c0 : Coordinator) (calls : List Call)
      (rs : List TaskReply),
      MakeCoordinator files nReduce = some c0 → run c0 calls = some (c, rs) →
      ∀ t ∈ c2.mapTasks, t.done = true) := by
  obtain ⟨c1, h1, h2⟩ := (GetTask_eq_some c args reply now c2 r).mp h
  obtain ⟨hm, _, idx, t, _, e, _⟩ := pickTask_reduce c1 c2 reply r now h2 hr
  refine ⟨⟨c1, h1, hm, by rw [e], by rw [e]⟩, ?_⟩
  intro files nReduce c0 calls rs hmk hrun
  have hc := applyReport_counters c c1 args h1 (run_counters files nReduce c0 c calls rs hmk hrun)
  have := all_done_of_mapRemain c1 hc hm
  rw [e]
  exact this

theorem GetTask_reduce_only_after_maps_witness :
    MakeCoordinator ["x", "y"] 2 = some sampleStart ∧
    run sampleStart sampleMapReports =
      some (sampleReducePhase,
        [{ Type_ := TaskTypeMap, Id := 1, Files := ["y"], NReduce := 2 },
         { Type_ := TaskTypeReduce, Id := 0, Files := ["mr-0-0", "mr-1-0"], NReduce := 0 }]) ∧
    GetTask sampleReducePhase { DoneType := TaskTypeNone, Id := 0, Files := [] } zeroReply
        (103 * Second) =
      some (sampleReduceAssigned,
        { Type_ := TaskTypeReduce, Id := 1, Files := ["mr-1-1"], NReduce := 0 }) ∧
    (∃ c1, applyReport sampleReducePhase { DoneType := TaskTypeNone, Id := 0, Files := [] } =
        some c1 ∧ ¬ 0 < c1.mapRemain ∧
      sampleReduceAssigned.mapRemain = c1.mapRemain ∧
      sampleReduceAssigned.mapTasks = c1.mapTasks) ∧
    ∀ t ∈ sampleReduceAssigned.mapTasks, t.done = true :=
  have h := GetTask_reduce_only_after_maps sampleReducePhase sampleReduceAssigned
    { DoneType := TaskTypeNone, Id := 0, Files := [] } zeroReply
    { Type_ := TaskTypeReduce, Id := 1, Files := ["mr-1-1"], NReduce := 0 } (103 * Second)
    (by decide) (by decide)
  ⟨by decide, by decide, by decide, h.1,
   h.2 ["x", "y"] 2 sampleStart sampleMapReports
     [{ Type_ := TaskTypeMap, Id := 1, Files := ["y"], NReduce := 2 },
      { Type_ := TaskTypeReduce, Id := 0, Files := ["mr-0-0", "mr-1-0"], NReduce := 0 }]
     (by decide) (by decide)⟩

/-! ## Duplicate completions -/

theorem applyReport_map_done (c : Coordinator) (id : Int) (files : List String) (t : MapTask)
    (h0 : 0 ≤ id) (ht : c.mapTasks[id.toNat]? = some t) (hd : t.done = true) :
    applyReport c { DoneType := TaskTypeMap, Id := id, Files := files } = some c := by
  have hneg : ¬ id < 0 := by omega
  simp only [applyReport, hneg, if_false, ht, hd, Bool.not_true, Bool.false_eq_true]

theorem applyReport_reduce_done (c : Coordinator) (id : Int) (files : List String)
    (t : ReduceTask)
    (h0 : 0 ≤ id) (ht : c.reduceTasks[id.toNat]? = some t) (hd : t.done = true) :
    applyReport c { DoneType := TaskTypeReduce, Id := id, Files := files } = some c := by
  have hneg : ¬ id < 0 := by omega
  simp only [applyReport, hneg, if_false, ht, hd, Bool.not_true, Bool.false_eq_true]

theorem applyReport_map_fresh (c : Coordinator) (id : Int) (files : List String) (t : MapTask)
    (rts : List ReduceTask)
    (h0 : 0 ≤ id) (ht : c.mapTasks[id.toNat]? = some t) (hd : t.done = false)
    (hr : rangeFiles c.reduceTasks 0 files = some rts) :
    applyReport c { DoneType := TaskTypeMap, Id := id, Files := files } =
      some { c with
        mapTasks := c.mapTasks.set id.toNat { t with done := true }
        reduceTasks := rts
        mapRemain := wrapInt64 (c.mapRemain - 1) } := by
  have hneg : ¬ id < 0 := by omega
  simp only [applyReport, hneg, if_false, ht, hd, Bool.not_false, if_true, hr]

theorem applyReport_reduce_fresh (c : Coordinator) (id : Int) (files : List String)
    (t : ReduceTask)
    (h0 : 0 ≤ id) (ht : c.reduceTasks[id.toNat]? = some t) (hd : t.done = false) :
    applyReport c { DoneType := TaskTypeReduce, Id := id, Files := files } =
      some { c with
        reduceTasks := c.reduceTasks.set id.toNat { t with done := true }
        reduceRemain := wrapInt64 (c.reduceRemain - 1) } := by
  have hneg : ¬ id < 0 := by omega
  simp only [applyReport, hneg, if_false, ht, hd, Bool.not_false, if_true]

/-- C3: a completion report for a task that is already done is a no-op of the report step.
If `mapTasks[id].done` is true, a `{Map, id, files}` report leaves the whole coordinator
state as it is (every done flag, every `reduceTasks[r].files`, `mapRemain`, `reduceRemain`);
likewise a `{Reduce, id}` report for a reduce task whose `done` is true.  The call then
answers as a call without a report does. -/
theorem applyReport_done_is_noop (c : Coordinator) (id : Int) (files : List String)
    (reply : TaskReply) (now : Time) (h0 : 0 ≤ id) :
    (∀ t : MapTask, c.mapTasks[id.toNat]? = some t → t.done = true →
      applyReport c { DoneType := TaskTypeMap, Id := id, Files := files } = some c ∧
      GetTask c { DoneType := TaskTypeMap, Id := id, Files := files } reply now =
        GetTask c { DoneType := TaskTypeNone, Id := id, Files := files } reply now) ∧
    (∀ t : ReduceTask, c.reduceTasks[id.toNat]? = some t → t.done = true →
      applyReport c { DoneType := TaskTypeReduce, Id := id, Files := files } = some c ∧
      GetTask c { DoneType := TaskTypeReduce, Id := id, Files := files } reply now =
        GetTask c { DoneType := TaskTypeNone, Id := id, Files := files } reply now) := by
  refine ⟨?_, ?_⟩
  · intro t ht hd
    have h := applyReport_map_done c id files t h0 ht hd
    refine ⟨h, ?_⟩
    simp only [GetTask, h]
    rfl
  · intro t ht hd
    have h := applyReport_reduce_done c id files t h0 ht hd
    refine ⟨h, ?_⟩
    simp only [GetTask, h]
    rfl

theorem applyReport_done_is_noop_witness :
    (sampleAfterMap0.mapTasks[(0 : Int).toNat]? =
        some { id := 0, file := "x", startAt := 0, done := true } ∧
      applyReport sampleAfterMap0 { DoneType := TaskTypeMap, Id := 0, Files := ["mr-0-0", "late"] } =
        some sampleAfterMap0) ∧
    (sampleReduceDone.reduceTasks[(1 : Int).toNat]? =
        some { id := 1, files := [], startAt := 0, done := true } ∧
      applyReport sampleReduceDone { DoneType := TaskTypeReduce, Id := 1, Files := ["mr-out-1"] } =
        some sampleReduceDone) :=
  ⟨⟨by decide,
    ((applyReport_done_is_noop sampleAfterMap0 0 ["mr-0-0", "late"] zeroReply (200 * Second)
      (by decide)).1 { id := 0, file := "x", startAt := 0, done := true } (by decide) rfl).1⟩,
   ⟨by decide,
    ((applyReport_done_is_noop sampleReduceDone 1 ["mr-out-1"] zeroReply (200 * Second)
      (by decide)).2 { id := 1, files := [], startAt := 0, done := true } (by decide) rfl).1⟩⟩

theorem appended_zero_of_getElem? (files : List String) (r : Nat) (f : String)
    (hf : files[r]? = some f) (hne : 0 < f.length) : appended files 0 r = [f] := by
  simp [appended, hf, hne]

/-- C4: completion is idempotent.  For a report `{Map, id, files}` with `0 ≤ id < M` and
`len(files) = R`, the report step returns, and applying the report a second time gives the
same coordinator state `c1` as applying it once.  When the map task was not yet done, `c1`
has every non-empty `files[r]` appended to `reduceTasks[r].files` exactly once. -/
theorem applyReport_map_idempotent (c : Coordinator) (id : Int) (files : List String)
    (h0 : 0 ≤ id) (h1 : id < c.mapTasks.length) (h2 : files.length = c.reduceTasks.length) :
    ∃ c1 : Coordinator,
      applyReport c { DoneType := TaskTypeMap, Id := id, Files := files } = some c1 ∧
      applyReport c1 { DoneType := TaskTypeMap, Id := id, Files := files } = some c1 ∧
      ∀ t : MapTask, c.mapTasks[id.toNat]? = some t → t.done = false →
        ∀ (r : Nat) (f : String) (rt : ReduceTask), files[r]? = some f → 0 < f.length →
          c.reduceTasks[r]? = some rt →
          c1.reduceTasks[r]? = some { rt with files := rt.files ++ [f] } := by
  have hlt : id.toNat < c.mapTasks.length := by omega
  have ht : c.mapTasks[id.toNat]? = some c.mapTasks[id.toNat] := List.getElem?_eq_getElem hlt
  cases hd : (c.mapTasks[id.toNat]).done with
  | true =>
    have h := applyReport_map_done c id files _ h0 ht hd
    refine ⟨c, h, h, ?_⟩
    intro t ht' hd'
    rw [ht] at ht'
    simp only [Option.some.injEq] at ht'
    rw [ht'] at hd
    rw [hd] at hd'
    cases hd'
  | false =>
    obtain ⟨rts, hrts⟩ := rangeFiles_isSome files c.reduceTasks 0 (by
      intro j f hj _
      have := (List.getElem?_eq_some_iff.mp hj).1
      omega)
    have h := applyReport_map_fresh c id files _ rts h0 ht hd hrts
    refine ⟨_, h, ?_, ?_⟩
    · apply applyReport_map_done _ id files
        { c.mapTasks[id.toNat] with done := true } h0
      · simp only
        rw [List.getElem?_set]
        simp [hlt]
      · rfl
    · intro t _ _ r f rt hf hne hrt
      simp only
      rw [rangeFiles_getElem? files c.reduceTasks 0 rts hrts r, hrt,
        appended_zero_of_getElem? files r f hf hne]
      rfl

theorem applyReport_map_idempotent_witness :
    applyReport sampleStart { DoneType := TaskTypeMap, Id := 0, Files := ["mr-0-0", ""] } =
      some sampleAfterMap0 ∧
    applyReport sampleAfterMap0 { DoneType := TaskTypeMap, Id := 0, Files := ["mr-0-0", ""] } =
      some sampleAfterMap0 ∧
    sampleAfterMap0.reduceTasks[0]? =
      some { id := 0, files := [] ++ ["mr-0-0"], startAt := 0, done := false } := by
  obtain ⟨c1, h1, h2, h3⟩ :=
    applyReport_map_idempotent sampleStart 0 ["mr-0-0", ""] (by decide) (by decide) (by decide)
  have e : c1 = sampleAfterMap0 := by
    have h : applyReport sampleStart { DoneType := TaskTypeMap, Id := 0, Files := ["mr-0-0", ""] } =
        some sampleAfterMap0 := by decide
    rw [h] at h1
    exact (Option.some.inj h1).symm
  subst e
  exact ⟨h1, h2, h3 { id := 0, file := "x", startAt := 0, done := false } (by decide) rfl 0
    "mr-0-0" { id := 0, files := [], startAt := 0, done := false } (by decide) (by decide)
    (by decide)⟩

/-! ## Selection of the next task -/

theorem mapEligible_iff (now : Time) (t : MapTask) :
    t.eligible (now + (-10 * Second)) = true ↔ t.done = false ∧ t.startAt < now - 10 * Second := by
  have e : now + (-10 * Second) = now - 10 * Second := by ring
  simp only [MapTask.eligible, e, Bool.and_eq_true, Bool.not_eq_true', decide_eq_true_eq]

theorem reduceEligible_iff (now : Time) (t : ReduceTask) :
    t.eligible (now + (-10 * Second)) = true ↔ t.done = false ∧ t.startAt < now - 10 * Second := by
  have e : now + (-10 * Second) = now - 10 * Second := by ring
  simp only [ReduceTask.eligible, e, Bool.and_eq_true, Bool.not_eq_true', decide_eq_true_eq]

theorem mapEligible_false_iff (now : Time) (t : MapTask) :
    t.eligible (now + (-10 * Second)) = false ↔
      ¬ (t.done = false ∧ t.startAt < now - 10 * Second) := by
  rw [← mapEligible_iff]
  simp

theorem reduceEligible_false_iff (now : Time) (t : ReduceTask) :
    t.eligible (now + (-10 * Second)) = false ↔
      ¬ (t.done = false ∧ t.startAt < now - 10 * Second) := by
  rw [← reduceEligible_iff]
  simp

/-- C5: map-phase selection, in a state whose task ids are their indices (the data model's
`id`; every state reached from `MakeCoordinator` is such a state).  Let `c1` be the state
after the report.  If `mapRemain > 0` in `c1` and some map task is eligible (`done = false`
and `startAt` strictly before `now - 10s`), then `GetTask` replies
`{Map, i, [mapTasks[i].file], nReduce = number of reduce tasks}` for the lowest index `i` of
an eligible map task and sets `mapTasks[i].startAt = now`, leaving all else as in `c1`.
Conversely a Map reply always names an eligible task. -/
theorem GetTask_map_selection (c c1 : Coordinator) (args : TaskArgs) (reply : TaskReply)
    (now : Time) (hid : IdsAreIndices c) (h1 : applyReport c args = some c1) :
    (0 < c1.mapRemain →
      ∀ (k : Nat) (u : MapTask), c1.mapTasks[k]? = some u → u.done = false →
        u.startAt < now - 10 * Second →
        ∃ (i : Nat) (t : MapTask), c1.mapTasks[i]? = some t ∧
          t.done = false ∧ t.startAt < now - 10 * Second ∧
          (∀ (j : Nat) (v : MapTask), j < i → c1.mapTasks[j]? = some v →
            ¬ (v.done = false ∧ v.startAt < now - 10 * Second)) ∧
          GetTask c args reply now =
            some ({ c1 with mapTasks := c1.mapTasks.set i { t with startAt := now } },
                  { Type_ := TaskTypeMap, Id := (i : Int), Files := [t.file],
                    NReduce := (c1.reduceTasks.length : Int) })) ∧
    (∀ (c2 : Coordinator) (r : TaskReply), GetTask c args reply now = some (c2, r) →
      r.Type_ = TaskTypeMap →
      ∃ (i : Nat) (t : MapTask), c1.mapTasks[i]? = some t ∧
        t.done = false ∧ t.startAt < now - 10 * Second ∧ r.Id = (i : Int) ∧
        c2 = { c1 with mapTasks := c1.mapTasks.set i { t with startAt := now } }) := by
  have hid1 := applyReport_ids c c1 args h1 hid
  refine ⟨?_, ?_⟩
  · intro hm k u hk hd hs
    obtain ⟨i, t, hscan, _⟩ := scanTasks_of_eligible (MapTask.eligible (now + (-10 * Second)))
      c1.mapTasks k u hk ((mapEligible_iff now u).mpr ⟨hd, hs⟩)
    obtain ⟨hi, he, hlow⟩ := scanTasks_some _ _ _ _ hscan
    obtain ⟨hd', hs'⟩ := (mapEligible_iff now t).mp he
    refine ⟨i, t, hi, hd', hs', ?_, ?_⟩
    · intro j v hj hv
      exact (mapEligible_false_iff now v).mp (hlow j v hj hv)
    · have hp : pickTask c1 reply now =
          ({ c1 with mapTasks := c1.mapTasks.set i { t with startAt := now } },
           { Type_ := TaskTypeMap, Id := t.id, Files := [t.file],
             NReduce := (c1.reduceTasks.length : Int) }) := by
        simp only [pickTask, gt_iff_lt, hm, if_true, hscan]
      simp only [GetTask, h1, hp]
      rw [hid1.1 i t hi]
  · intro c2 r hg hr
    obtain ⟨c1', h1', h2⟩ := (GetTask_eq_some c args reply now c2 r).mp hg
    rw [h1] at h1'
    simp only [Option.some.injEq] at h1'
    subst h1'
    obtain ⟨_, i, t, hscan, e, er⟩ := pickTask_map c1 c2 reply r now h2 hr
    obtain ⟨hi, he, _⟩ := scanTasks_some _ _ _ _ hscan
    obtain ⟨hd', hs'⟩ := (mapEligible_iff now t).mp he
    exact ⟨i, t, hi, hd', hs', by rw [er]; exact hid1.1 i t hi, e⟩

theorem GetTask_map_selection_witness :
    applyReport sampleStart { DoneType := TaskTypeMap, Id := 0, Files := ["mr-0-0", ""] } =
      some sampleAfterMap0 ∧
    0 < sampleAfterMap0.mapRemain ∧
    ∃ (i : Nat) (t : MapTask), sampleAfterMap0.mapTasks[i]? = some t ∧
      t.done = false ∧ t.startAt < 101 * Second - 10 * Second ∧
      (∀ (j : Nat) (v : MapTask), j < i → sampleAfterMap0.mapTasks[j]? = some v →
        ¬ (v.done = false ∧ v.startAt < 101 * Second - 10 * Second)) ∧
      GetTask sampleStart { DoneType := TaskTypeMap, Id := 0, Files := ["mr-0-0", ""] }
          zeroReply (101 * Second) =
        some ({ sampleAfterMap0 with
                mapTasks := sampleAfterMap0.mapTasks.set i { t with startAt := 101 * Second } },
              { Type_ := TaskTypeMap, Id := (i : Int), Files := [t.file],
                NReduce := (sampleAfterMap0.reduceTasks.length : Int) }) :=
  ⟨by decide, by decide,
   (GetTask_map_selection sampleStart sampleAfterMap0
      { DoneType := TaskTypeMap, Id := 0, Files := ["mr-0-0", ""] } zeroReply (101 * Second)
      (MakeCoordinator_ids ["x", "y"] 2 sampleStart (by decide)) (by decide)).1 (by decide) 1
      { id := 1, file := "y", startAt := 0, done := false } (by decide) rfl (by decide)⟩

/-! ## Timeouts -/

theorem getElem?_set_same {α : Type} (l : List α) (i : Nat) (a b : α) (h : l[i]? = some a) :
    (l.set i b)[i]? = some b := by
  have hlt : i < l.length := (List.getElem?_eq_some_iff.mp h).1
  rw [List.getElem?_set]
  simp [hlt]

theorem applyReport_mapTask_other (c c1 : Coordinator) (args : TaskArgs) (i : Nat)
    (h : applyReport c args = some c1)
    (ho : ¬ (args.DoneType = TaskTypeMap ∧ args.Id = (i : Int))) :
    c1.mapTasks[i]? = c.mapTasks[i]? := by
  rcases applyReport_cases c c1 args h with h | ⟨hd, h0, t, rts, _, _, _, h⟩ | ⟨_, _, t, _, _, h⟩
  · rw [h]
  · subst h
    have hne : args.Id.toNat ≠ i := by
      intro e
      apply ho
      exact ⟨hd, by omega⟩
    simp only
    rw [List.getElem?_set_ne hne]
  · subst h; rfl

theorem applyReport_reduceTask_other (c c1 : Coordinator) (args : TaskArgs) (i : Nat)
    (u : ReduceTask) (h : applyReport c args = some c1)
    (ho : ¬ (args.DoneType = TaskTypeReduce ∧ args.Id = (i : Int)))
    (hu : c.reduceTasks[i]? = some u) :
    ∃ u1 : ReduceTask, c1.reduceTasks[i]? = some u1 ∧ u1.done = u.done ∧
      u1.startAt = u.startAt ∧ u1.id = u.id := by
  rcases applyReport_cases c c1 args h with h | ⟨_, _, t, rts, _, _, hr, h⟩ | ⟨hd, h0, t, _, _, h⟩
  · rw [h]; exact ⟨u, hu, rfl, rfl, rfl⟩
  · subst h
    simp only
    rw [rangeFiles_getElem? _ _ _ _ hr i, hu]
    exact ⟨_, rfl, rfl, rfl, rfl⟩
  · subst h
    have hne : args.Id.toNat ≠ i := by
      intro e
      apply ho
      exact ⟨hd, by omega⟩
    simp only
    rw [List.getElem?_set_ne hne]
    exact ⟨u, hu, rfl, rfl, rfl⟩

theorem applyReport_mapNotDone_le (c c1 : Coordinator) (args : TaskArgs)
    (h : applyReport c args = some c1) : mapNotDone c1.mapTasks ≤ mapNotDone c.mapTasks := by
  rcases applyReport_cases c c1 args h with h | ⟨_, _, t, rts, ht, hd, _, h⟩ | ⟨_, _, t, _, _, h⟩
  · rw [h]
  · subst h
    have := mapNotDone_set_done _ _ _ ht hd
    simp only
    omega
  · subst h; exact Nat.le_refl _

theorem mapRemain_pos_of_notDone (c : Coordinator) (hc : CountersExact c) (i : Nat)
    (u : MapTask) (hu : c.mapTasks[i]? = some u) (hd : u.done = false) : 0 < c.mapRemain := by
  have := countP_pos_of_getElem? (fun t : MapTask => !t.done) c.mapTasks i u hu (by simp [hd])
  have e := hc.1
  unfold mapNotDone at e
  omega

theorem reduceRemain_pos_of_notDone (c : Coordinator) (hc : CountersExact c) (i : Nat)
    (u : ReduceTask) (hu : c.reduceTasks[i]? = some u) (hd : u.done = false) :
    0 < c.reduceRemain := by
  have := countP_pos_of_getElem? (fun t : ReduceTask => !t.done) c.reduceTasks i u hu
    (by simp [hd])
  have e := hc.2.1
  unfold reduceNotDone at e
  omega

theorem applyReport_mapRemain_not_pos (c c1 : Coordinator) (args : TaskArgs)
    (hc : CountersExact c) (h : applyReport c args = some c1) (hm : ¬ 0 < c.mapRemain) :
    ¬ 0 < c1.mapRemain := by
  have h1 := (applyReport_counters c c1 args h hc).1
  have h2 := applyReport_mapNotDone_le c c1 args h
  have h3 := hc.1
  omega

/-- What an assignment of map task `i` leaves behind: the task is not done and was started
at the time of the call. -/
theorem GetTask_map_assigned (c c2 : Coordinator) (args : TaskArgs) (reply r : TaskReply)
    (now : Time) (i : Nat) (hid : IdsAreIndices c)
    (h : GetTask c args reply now = some (c2, r)) (hr : r.Type_ = TaskTypeMap)
    (hi : r.Id = (i : Int)) :
    ∃ u : MapTask, c2.mapTasks[i]? = some u ∧ u.done = false ∧ u.startAt = now := by
  obtain ⟨c1, h1, h2⟩ := (GetTask_eq_some c args reply now c2 r).mp h
  obtain ⟨_, idx, t, hscan, e, er⟩ := pickTask_map c1 c2 reply r now h2 hr
  obtain ⟨hidx, he, _⟩ := scanTasks_some _ _ _ _ hscan
  have hidt := (applyReport_ids c c1 args h1 hid).1 idx t hidx
  have hii : idx = i := by
    rw [er] at hi
    simp only at hi
    omega
  subst hii
  refine ⟨{ t with startAt := now }, ?_, ((mapEligible_iff now t).mp he).1, rfl⟩
  rw [e]
  exact getElem?_set_same _ _ t _ hidx

/-- What an assignment of reduce task `i` leaves behind: the task is not done and was
started at the time of the call, and `mapRemain` is not positive. -/
theorem GetTask_reduce_assigned (c c2 : Coordinator) (args : TaskArgs) (reply r : TaskReply)
    (now : Time) (i : Nat) (hid : IdsAreIndices c)
    (h : GetTask c args reply now = some (c2, r)) (hr : r.Type_ = TaskTypeReduce)
    (hi : r.Id = (i : Int)) :
    ¬ 0 < c2.mapRemain ∧
    ∃ u : ReduceTask, c2.reduceTasks[i]? = some u ∧ u.done = false ∧ u.startAt = now := by
  obtain ⟨c1, h1, h2⟩ := (GetTask_eq_some c args reply now c2 r).mp h
  obtain ⟨hm, _, idx, t, hscan, e, er⟩ := pickTask_reduce c1 c2 reply r now h2 hr
  obtain ⟨hidx, he, _⟩ := scanTasks_some _ _ _ _ hscan
  have hidt := (applyReport_ids c c1 args h1 hid).2 idx t hidx
  have hii : idx = i := by
    rw [er] at hi
    simp only at hi
    omega
  subst hii
  refine ⟨by rw [e]; exact hm, { t with startAt := now }, ?_,
    ((reduceEligible_iff now t).mp he).1, rfl⟩
  rw [e]
  exact getElem?_set_same _ _ t _ hidx

theorem pickTask_map_again (c1 : Coordinator) (reply : TaskReply) (t : Time) (i : Nat)
    (u : MapTask) (hid : IdsAreIndices c1) (hcnt : CountersExact c1)
    (hu : c1.mapTasks[i]? = some u) (hd : u.done = false) (hs : u.startAt < t - 10 * Second) :
    (∃ (j : Nat) (tj : MapTask), j ≤ i ∧ c1.mapTasks[j]? = some tj ∧
      pickTask c1 reply t =
        ({ c1 with mapTasks := c1.mapTasks.set j { tj with startAt := t } },
         { Type_ := TaskTypeMap, Id := (j : Int), Files := [tj.file],
           NReduce := (c1.reduceTasks.length : Int) })) ∧
    ((∀ (k : Nat) (v : MapTask), k < i → c1.mapTasks[k]? = some v →
        ¬ (v.done = false ∧ v.startAt < t - 10 * Second)) →
      pickTask c1 reply t =
        ({ c1 with mapTasks := c1.mapTasks.set i { u with startAt := t } },
         { Type_ := TaskTypeMap, Id := (i : Int), Files := [u.file],
           NReduce := (c1.reduceTasks.length : Int) })) := by
  have hm := mapRemain_pos_of_notDone c1 hcnt i u hu hd
  obtain ⟨j, tj, hscan, hji⟩ := scanTasks_of_eligible (MapTask.eligible (t + (-10 * Second)))
    c1.mapTasks i u hu ((mapEligible_iff t u).mpr ⟨hd, hs⟩)
  obtain ⟨hj, he, _⟩ := scanTasks_some _ _ _ _ hscan
  have hp : pickTask c1 reply t =
      ({ c1 with mapTasks := c1.mapTasks.set j { tj with startAt := t } },
       { Type_ := TaskTypeMap, Id := (j : Int), Files := [tj.file],
         NReduce := (c1.reduceTasks.length : Int) }) := by
    simp only [pickTask, gt_iff_lt, hm, if_true, hscan]
    rw [hid.1 j tj hj]
  refine ⟨⟨j, tj, hji, hj, hp⟩, ?_⟩
  intro hlow
  have hji' : j = i := by
    by_contra hne
    exact hlow j tj (by omega) hj ((mapEligible_iff t tj).mp he)
  subst hji'
  rw [hj] at hu
  simp only [Option.some.injEq] at hu
  subst hu
  exact hp

theorem pickTask_reduce_again (c1 : Coordinator) (reply : TaskReply) (t : Time) (i : Nat)
    (u : ReduceTask) (hid : IdsAreIndices c1) (hcnt : CountersExact c1)
    (hm : ¬ 0 < c1.mapRemain)
    (hu : c1.reduceTasks[i]? = some u) (hd : u.done = false)
    (hs : u.startAt < t - 10 * Second) :
    (∃ (j : Nat) (tj : ReduceTask), j ≤ i ∧ c1.reduceTasks[j]? = some tj ∧
      pickTask c1 reply t =
        ({ c1 with reduceTasks := c1.reduceTasks.set j { tj with startAt := t } },
         { reply with Type_ := TaskTypeReduce, Id := (j : Int), Files := tj.files })) ∧
    ((∀ (k : Nat) (v : ReduceTask), k < i → c1.reduceTasks[k]? = some v →
        ¬ (v.done = false ∧ v.startAt < t - 10 * Second)) →
      pickTask c1 reply t =
        ({ c1 with reduceTasks := c1.reduceTasks.set i { u with startAt := t } },
         { reply with Type_ := TaskTypeReduce, Id := (i : Int), Files := u.files })) := by
  have hr := reduceRemain_pos_of_notDone c1 hcnt i u hu hd
  obtain ⟨j, tj, hscan, hji⟩ := scanTasks_of_eligible
    (ReduceTask.eligible (t + (-10 * Second))) c1.reduceTasks i u hu
    ((reduceEligible_iff t u).mpr ⟨hd, hs⟩)
  obtain ⟨hj, he, _⟩ := scanTasks_some _ _ _ _ hscan
  have hp : pickTask c1 reply t =
      ({ c1 with reduceTasks := c1.reduceTasks.set j { tj with startAt := t } },
       { reply with Type_ := TaskTypeReduce, Id := (j : Int), Files := tj.files }) := by
    simp only [pickTask, gt_iff_lt, hm, hr, if_true, if_false, hscan]
    rw [hid.2 j tj hj]
  refine ⟨⟨j, tj, hji, hj, hp⟩, ?_⟩
  intro hlow
  have hji' : j = i := by
    by_contra hne
    exact hlow j tj (by omega) hj ((reduceEligible_iff t tj).mp he)
  subst hji'
  rw [hj] at hu
  simp only [Option.some.injEq] at hu
  subst hu
  exact hp

/-- C6, as the code has it: the timeout is strict and the scan takes the lowest index.  In a
state with exact counters and ids equal to indices (every state reached from
`MakeCoordinator`), let `GetTask` assign task `i` at `t0`, and let the next call come at a
time `t` with `t0 + 10s < t`, carrying a report that applies and is not a completion of that
task.  Then that call finds the task eligible (not done, `startAt = t0 < t - 10s`) and
replies with a task of the same type and of index `j ≤ i`, whose `startAt` it sets to `t`;
when no task of that type with a lower index is eligible, it is that same task `i`. -/
theorem GetTask_timeout_reassignment (c c' c1 : Coordinator) (a0 a1 : TaskArgs)
    (reply0 reply1 r0 : TaskReply) (t0 t : Time) (i : Nat)
    (hid : IdsAreIndices c) (hcnt : CountersExact c)
    (hassign : GetTask c a0 reply0 t0 = some (c', r0)) (hi : r0.Id = (i : Int))
    (hlate : t0 + 10 * Second < t)
    (hother : ¬ (a1.DoneType = r0.Type_ ∧ a1.Id = (i : Int)))
    (hrep : applyReport c' a1 = some c1) :
    (r0.Type_ = TaskTypeMap →
      ∃ u : MapTask, c1.mapTasks[i]? = some u ∧ u.done = false ∧ u.startAt = t0 ∧
        u.startAt < t - 10 * Second ∧
        (∃ (j : Nat) (tj : MapTask), j ≤ i ∧ c1.mapTasks[j]? = some tj ∧
          GetTask c' a1 reply1 t =
            some ({ c1 with mapTasks := c1.mapTasks.set j { tj with startAt := t } },
                  { Type_ := TaskTypeMap, Id := (j : Int), Files := [tj.file],
                    NReduce := (c1.reduceTasks.length : Int) })) ∧
        ((∀ (k : Nat) (v : MapTask), k < i → c1.mapTasks[k]? = some v →
            ¬ (v.done = false ∧ v.startAt < t - 10 * Second)) →
          GetTask c' a1 reply1 t =
            some ({ c1 with mapTasks := c1.mapTasks.set i { u with startAt := t } },
                  { Type_ := TaskTypeMap, Id := (i : Int), Files := [u.file],
                    NReduce := (c1.reduceTasks.length : Int) }))) ∧
    (r0.Type_ = TaskTypeReduce →
      ∃ u : ReduceTask, c1.reduceTasks[i]? = some u ∧ u.done = false ∧ u.startAt = t0 ∧
        u.startAt < t - 10 * Second ∧
        (∃ (j : Nat) (tj : ReduceTask), j ≤ i ∧ c1.reduceTasks[j]? = some tj ∧
          GetTask c' a1 reply1 t =
            some ({ c1 with reduceTasks := c1.reduceTasks.set j { tj with startAt := t } },
                  { reply1 with Type_ := TaskTypeReduce, Id := (j : Int),
                                Files := tj.files })) ∧
        ((∀ (k : Nat) (v : ReduceTask), k < i → c1.reduceTasks[k]? = some v →
            ¬ (v.done = false ∧ v.startAt < t - 10 * Second)) →
          GetTask c' a1 reply1 t =
            some ({ c1 with reduceTasks := c1.reduceTasks.set i { u with startAt := t } },
                  { reply1 with Type_ := TaskTypeReduce, Id := (i : Int),
                                Files := u.files }))) := by
  have hid' := GetTask_ids c a0 reply0 t0 c' r0 hid hassign
  have hcnt' := GetTask_counters c a0 reply0 t0 c' r0 hcnt hassign
  have hid1 := applyReport_ids c' c1 a1 hrep hid'
  have hcnt1 := applyReport_counters c' c1 a1 hrep hcnt'
  have hg : GetTask c' a1 reply1 t = some (pickTask c1 reply1 t) := by
    simp only [GetTask, hrep]
  refine ⟨?_, ?_⟩
  · intro hty
    obtain ⟨u, hu, hd, hs⟩ := GetTask_map_assigned c c' a0 reply0 r0 t0 i hid hassign hty hi
    have hu1 : c1.mapTasks[i]? = some u := by
      rw [applyReport_mapTask_other c' c1 a1 i hrep (by rw [← hty]; exact hother)]
      exact hu
    have hs' : u.startAt < t - 10 * Second := by rw [hs]; linarith
    obtain ⟨⟨j, tj, hji, hj, hp⟩, hsame⟩ :=
      pickTask_map_again c1 reply1 t i u hid1 hcnt1 hu1 hd hs'
    refine ⟨u, hu1, hd, hs, hs', ⟨j, tj, hji, hj, by rw [hg, hp]⟩, ?_⟩
    intro hlow
    rw [hg, hsame hlow]
  · intro hty
    obtain ⟨hm, u, hu, hd, hs⟩ :=
      GetTask_reduce_assigned c c' a0 reply0 r0 t0 i hid hassign hty hi
    obtain ⟨u1, hu1, hd1, hs1, _⟩ := applyReport_reduceTask_other c' c1 a1 i u hrep
      (by rw [← hty]; exact hother) hu
    have hm1 := applyReport_mapRemain_not_pos c' c1 a1 hcnt' hrep hm
    have hdd : u1.done = false := by rw [hd1]; exact hd
    have hst : u1.startAt = t0 := by rw [hs1]; exact hs
    have hs' : u1.startAt < t - 10 * Second := by rw [hst]; linarith
    obtain ⟨⟨j, tj, hji, hj, hp⟩, hsame⟩ :=
      pickTask_reduce_again c1 reply1 t i u1 hid1 hcnt1 hm1 hu1 hdd hs'
    refine ⟨u1, hu1, hdd, hst, hs', ⟨j, tj, hji, hj, by rw [hg, hp]⟩, ?_⟩
    intro hlow
    rw [hg, hsame hlow]

theorem GetTask_timeout_reassignment_witness :
    GetTask soloStart firstContact zeroReply (100 * Second) =
      some (soloAssigned, { Type_ := TaskTypeMap, Id := 0, Files := ["x"], NReduce := 1 }) ∧
    100 * Second + 10 * Second < 110 * Second + 1 ∧
    GetTask soloAssigned firstContact zeroReply (110 * Second + 1) =
      some ({ soloAssigned with
              mapTasks := soloAssigned.mapTasks.set 0
                { id := 0, file := "x", startAt := 110 * Second + 1, done := false } },
            { Type_ := TaskTypeMap, Id := 0, Files := ["x"], NReduce := 1 }) := by
  have h := (GetTask_timeout_reassignment soloStart soloAssigned soloAssigned firstContact
    firstContact zeroReply zeroReply
    { Type_ := TaskTypeMap, Id := 0, Files := ["x"], NReduce := 1 } (100 * Second)
    (110 * Second + 1) 0
    (MakeCoordinator_ids ["x"] 1 soloStart (by decide))
    (MakeCoordinator_counters ["x"] 1 soloStart (by decide))
    (by decide) (by decide) (by decide) (by decide) (by decide)).1 rfl
  obtain ⟨u, hu, _, _, _, _, hsame⟩ := h
  have e : u = { id := 0, file := "x", startAt := 100 * Second, done := false } := by
    have h0 : soloAssigned.mapTasks[0]? =
        some { id := 0, file := "x", startAt := 100 * Second, done := false } := by decide
    rw [h0] at hu
    exact (Option.some.inj hu).symm
  subst e
  exact ⟨by decide, by decide, hsame (fun k v hk => absurd hk (Nat.not_lt_zero k))⟩

/-- C6 as stated fails on the code in two ways.  At the boundary: the only map task of
`soloStart` is assigned at `t0 = 100s`, nothing is reported, and the next call, at
`t = t0 + 10s`, is answered Sleep.  By the scan order: map 1 of the sample job is assigned
at `t0 = 105s`, nothing is reported, and the next call, at `116s > t0 + 10s`, is answered
with map 0. -/
theorem GetTask_timeout_reassignment_counterexample :
    (MakeCoordinator ["x"] 1 = some soloStart ∧
      GetTask soloStart firstContact zeroReply (100 * Second) =
        some (soloAssigned, { Type_ := TaskTypeMap, Id := 0, Files := ["x"], NReduce := 1 }) ∧
      100 * Second + 10 * Second ≤ 110 * Second ∧
      GetTask soloAssigned firstContact zeroReply (110 * Second) =
        some (soloAssigned, { zeroReply with Type_ := TaskTypeSleep })) ∧
    (MakeCoordinator ["x", "y"] 2 = some sampleStart ∧
      GetTask sampleStart firstContact zeroReply (100 * Second) =
        some (sampleMap0Assigned,
          { Type_ := TaskTypeMap, Id := 0, Files := ["x"], NReduce := 2 }) ∧
      GetTask sampleMap0Assigned firstContact zeroReply (105 * Second) =
        some (sampleBothAssigned,
          { Type_ := TaskTypeMap, Id := 1, Files := ["y"], NReduce := 2 }) ∧
      105 * Second + 10 * Second ≤ 116 * Second ∧
      GetTask sampleBothAssigned firstContact zeroReply (116 * Second) =
        some (sampleMap0Again,
          { Type_ := TaskTypeMap, Id := 0, Files := ["x"], NReduce := 2 })) := by
  refine ⟨⟨by decide, by decide, by decide, by decide⟩, by decide, by decide, by decide,
    by decide, by decide⟩

theorem map_set_of_eq {α β : Type} (f : α → β) (l : List α) (i : Nat) (a b : α)
    (h : l[i]? = some a) (hf : f b = f a) : (l.set i b).map f = l.map f := by
  apply List.ext_getElem?
  intro n
  rw [List.getElem?_map, List.getElem?_map]
  by_cases hn : i = n
  · subst hn
    rw [getElem?_set_same l i a b h, h]
    simp [hf]
  · rw [List.getElem?_set_ne hn]

theorem rangeFiles_startAt (fs : List String) (rts : List ReduceTask) (k : Nat)
    (rts' : List ReduceTask) (h : rangeFiles rts k fs = some rts') :
    rts'.map (fun t => t.startAt) = rts.map (fun t => t.startAt) := by
  apply List.ext_getElem?
  intro r
  rw [List.getElem?_map, List.getElem?_map, rangeFiles_getElem? fs rts k rts' h r]
  cases rts[r]? <;> simp

theorem applyReport_startAt (c c1 : Coordinator) (args : TaskArgs)
    (h : applyReport c args = some c1) :
    c1.mapTasks.map (fun t => t.startAt) = c.mapTasks.map (fun t => t.startAt) ∧
    c1.reduceTasks.map (fun t => t.startAt) = c.reduceTasks.map (fun t => t.startAt) := by
  rcases applyReport_cases c c1 args h with h | ⟨_, _, t, rts, ht, _, hr, h⟩ | ⟨_, _, t, ht, _, h⟩
  · rw [h]; exact ⟨rfl, rfl⟩
  · subst h
    exact ⟨map_set_of_eq _ _ _ t _ ht rfl, rangeFiles_startAt _ _ _ _ hr⟩
  · subst h
    exact ⟨rfl, map_set_of_eq _ _ _ t _ ht rfl⟩

theorem getElem?_of_map_eq {α β : Type} (f : α → β) (l1 l2 : List α) (i : Nat) (a : α)
    (h : l1.map f = l2.map f) (ha : l2[i]? = some a) :
    ∃ b, l1[i]? = some b ∧ f b = f a := by
  have e : (l1.map f)[i]? = (l2.map f)[i]? := by rw [h]
  rw [List.getElem?_map, List.getElem?_map, ha] at e
  cases hb : l1[i]? with
  | none => simp [hb] at e
  | some b =>
    simp only [hb, Option.map_some', Option.some.injEq] at e
    exact ⟨b, rfl, e⟩

/-- One call made no later than `T + 10s`, in a state where map task `i` was started at or
after `T`: the call does not hand out map task `i`, and the task keeps its `startAt`. -/
theorem GetTask_map_in_window (c c2 : Coordinator) (args : TaskArgs) (reply r : TaskReply)
    (now T : Time) (i : Nat) (u : MapTask) (hid : IdsAreIndices c)
    (hu : c.mapTasks[i]? = some u) (hs : T ≤ u.startAt) (hnow : now ≤ T + 10 * Second)
    (h : GetTask c args reply now = some (c2, r)) :
    ¬ (r.Type_ = TaskTypeMap ∧ r.Id = (i : Int)) ∧
    ∃ u2 : MapTask, c2.mapTasks[i]? = some u2 ∧ T ≤ u2.startAt := by
  obtain ⟨c1, h1, h2⟩ := (GetTask_eq_some c args reply now c2 r).mp h
  have hid1 := applyReport_ids c c1 args h1 hid
  obtain ⟨u1, hu1, hst⟩ := getElem?_of_map_eq (fun t : MapTask => t.startAt) c1.mapTasks
    c.mapTasks i u (applyReport_startAt c c1 args h1).1 hu
  have hne : ∀ (idx : Nat) (t : MapTask),
      scanTasks (MapTask.eligible (now + (-10 * Second))) c1.mapTasks = some (idx, t) →
      idx ≠ i := by
    intro idx t hscan e
    subst e
    obtain ⟨hidx, he, _⟩ := scanTasks_some _ _ _ _ hscan
    rw [hu1] at hidx
    simp only [Option.some.injEq] at hidx
    subst hidx
    have := ((mapEligible_iff now u1).mp he).2
    rw [hst] at this
    linarith
  rcases pickTask_cases c1 reply now with ⟨_, idx, t, hs', e⟩ | ⟨_, _, e⟩ | ⟨_, _, idx, t, _, e⟩ |
    ⟨_, _, _, e⟩ | ⟨_, _, e⟩ <;> rw [e] at h2 <;>
    simp only [Prod.mk.injEq] at h2 <;> obtain ⟨e1, e2⟩ := h2 <;> subst e1 <;> subst e2
  · have hidx := (scanTasks_some _ _ _ _ hs').1
    have hn := hne idx t hs'
    refine ⟨?_, u1, ?_, by rw [hst]; exact hs⟩
    · rintro ⟨_, hi⟩
      simp only at hi
      rw [hid1.1 idx t hidx] at hi
      omega
    · simp only
      rw [List.getElem?_set_ne hn]
      exact hu1
  · exact ⟨(by rintro ⟨hty, _⟩; cases hty), u1, hu1, (by rw [hst]; exact hs)⟩
  · exact ⟨(by rintro ⟨hty, _⟩; cases hty), u1, hu1, (by rw [hst]; exact hs)⟩
  · exact ⟨(by rintro ⟨hty, _⟩; cases hty), u1, hu1, (by rw [hst]; exact hs)⟩
  · exact ⟨(by rintro ⟨hty, _⟩; cases hty), u1, hu1, (by rw [hst]; exact hs)⟩

/-- The reduce-task twin of `GetTask_map_in_window`. -/
theorem GetTask_reduce_in_window (c c2 : Coordinator) (args : TaskArgs) (reply r : TaskReply)
    (now T : Time) (i : Nat) (u : ReduceTask) (hid : IdsAreIndices c)
    (hu : c.reduceTasks[i]? = some u) (hs : T ≤ u.startAt) (hnow : now ≤ T + 10 * Second)
    (h : GetTask c args reply now = some (c2, r)) :
    ¬ (r.Type_ = TaskTypeReduce ∧ r.Id = (i : Int)) ∧
    ∃ u2 : ReduceTask, c2.reduceTasks[i]? = some u2 ∧ T ≤ u2.startAt := by
  obtain ⟨c1, h1, h2⟩ := (GetTask_eq_some c args reply now c2 r).mp h
  have hid1 := applyReport_ids c c1 args h1 hid
  obtain ⟨u1, hu1, hst⟩ := getElem?_of_map_eq (fun t : ReduceTask => t.startAt) c1.reduceTasks
    c.reduceTasks i u (applyReport_startAt c c1 args h1).2 hu
  have hne : ∀ (idx : Nat) (t : ReduceTask),
      scanTasks (ReduceTask.eligible (now + (-10 * Second))) c1.reduceTasks = some (idx, t) →
      idx ≠ i := by
    intro idx t hscan e
    subst e
    obtain ⟨hidx, he, _⟩ := scanTasks_some _ _ _ _ hscan
    rw [hu1] at hidx
    simp only [Option.some.injEq] at hidx
    subst hidx
    have := ((reduceEligible_iff now u1).mp he).2
    rw [hst] at this
    linarith
  rcases pickTask_cases c1 reply now with ⟨_, idx, t, _, e⟩ | ⟨_, _, e⟩ | ⟨_, _, idx, t, hs', e⟩ |
    ⟨_, _, _, e⟩ | ⟨_, _, e⟩ <;> rw [e] at h2 <;>
    simp only [Prod.mk.injEq] at h2 <;> obtain ⟨e1, e2⟩ := h2 <;> subst e1 <;> subst e2
  · exact ⟨(by rintro ⟨hty, _⟩; cases hty), u1, hu1, (by rw [hst]; exact hs)⟩
  · exact ⟨(by rintro ⟨hty, _⟩; cases hty), u1, hu1, (by rw [hst]; exact hs)⟩
  · have hidx := (scanTasks_some _ _ _ _ hs').1
    have hn := hne idx t hs'
    refine ⟨?_, u1, ?_, by rw [hst]; exact hs⟩
    · rintro ⟨_, hi⟩
      simp only at hi
      rw [hid1.2 idx t hidx] at hi
      omega
    · simp only
      rw [List.getElem?_set_ne hn]
      exact hu1
  · exact ⟨(by rintro ⟨hty, _⟩; cases hty), u1, hu1, (by rw [hst]; exact hs)⟩
  · exact ⟨(by rintro ⟨hty, _⟩; cases hty), u1, hu1, (by rw [hst]; exact hs)⟩

theorem run_map_in_window (T : Time) (i : Nat) :
    ∀ (calls : List Call) (c c3 : Coordinator) (rs : List TaskReply) (u : MapTask),
      IdsAreIndices c → c.mapTasks[i]? = some u → T ≤ u.startAt →
      (∀ call ∈ calls, call.now ≤ T + 10 * Second) →
      run c calls = some (c3, rs) →
      ∀ r ∈ rs, ¬ (r.Type_ = TaskTypeMap ∧ r.Id = (i : Int)) := by
  intro calls
  induction calls with
  | nil =>
    intro c c3 rs u _ _ _ _ h r hr
    simp only [run, Option.some.injEq, Prod.mk.injEq] at h
    rw [← h.2] at hr
    cases hr
  | cons call rest ih =>
    intro c c3 rs u hid hu hs hnow h r hr
    obtain ⟨c2, r0, rs1, hg, hrun, e⟩ := (run_cons_eq_some c call rest c3 rs).mp h
    obtain ⟨hnot, u2, hu2, hs2⟩ := GetTask_map_in_window c c2 call.args call.reply r0 call.now T
      i u hid hu hs (hnow call (List.mem_cons_self _ _)) hg
    rw [e] at hr
    rcases List.mem_cons.mp hr with hr | hr
    · rw [hr]; exact hnot
    · exact ih c2 c3 rs1 u2 (GetTask_ids c _ _ _ c2 r0 hid hg) hu2 hs2
        (fun x hx => hnow x (List.mem_cons_of_mem _ hx)) hrun r hr

theorem run_reduce_in_window (T : Time) (i : Nat) :
    ∀ (calls : List Call) (c c3 : Coordinator) (rs : List TaskReply) (u : ReduceTask),
      IdsAreIndices c → c.reduceTasks[i]? = some u → T ≤ u.startAt →
      (∀ call ∈ calls, call.now ≤ T + 10 * Second) →
      run c calls = some (c3, rs) →
      ∀ r ∈ rs, ¬ (r.Type_ = TaskTypeReduce ∧ r.Id = (i : Int)) := by
  intro calls
  induction calls with
  | nil =>
    intro c c3 rs u _ _ _ _ h r hr
    simp only [run, Option.some.injEq, Prod.mk.injEq] at h
    rw [← h.2] at hr
    cases hr
  | cons call rest ih =>
    intro c c3 rs u hid hu hs hnow h r hr
    obtain ⟨c2, r0, rs1, hg, hrun, e⟩ := (run_cons_eq_some c call rest c3 rs).mp h
    obtain ⟨hnot, u2, hu2, hs2⟩ := GetTask_reduce_in_window c c2 call.args call.reply r0
      call.now T i u hid hu hs (hnow call (List.mem_cons_self _ _)) hg
    rw [e] at hr
    rcases List.mem_cons.mp hr with hr | hr
    · rw [hr]; exact hnot
    · exact ih c2 c3 rs1 u2 (GetTask_ids c _ _ _ c2 r0 hid hg) hu2 hs2
        (fun x hx => hnow x (List.mem_cons_of_mem _ hx)) hrun r hr

/-- C7: no reassignment inside the timeout window.  Let `c1` be the state after the report,
which changes no task's `startAt`.  If `mapRemain > 0` in `c1` and every not-done map task
has `startAt ≥ now - 10s` (respectively `mapRemain = 0`, `reduceRemain > 0` and every
not-done reduce task has `startAt ≥ now - 10s`), then `GetTask` replies Sleep and returns
`c1`, so no `startAt` changes.  Hence, with ids equal to indices, a task assigned by a call
at `now` is not assigned again by any later call of a sequence whose calls are all made at
times `≤ now + 10s` (under a non-decreasing clock: the calls up to a call at such a time). -/
theorem GetTask_no_reassignment_in_window (c c1 : Coordinator) (args : TaskArgs)
    (reply : TaskReply) (now : Time) (h1 : applyReport c args = some c1) :
    (c1.mapTasks.map (fun t => t.startAt) = c.mapTasks.map (fun t => t.startAt) ∧
      c1.reduceTasks.map (fun t => t.startAt) = c.reduceTasks.map (fun t => t.startAt)) ∧
    (0 < c1.mapRemain →
      (∀ t ∈ c1.mapTasks, t.done = false → now - 10 * Second ≤ t.startAt) →
      GetTask c args reply now = some (c1, { reply with Type_ := TaskTypeSleep })) ∧
    (c1.mapRemain = 0 → 0 < c1.reduceRemain →
      (∀ t ∈ c1.reduceTasks, t.done = false → now - 10 * Second ≤ t.startAt) →
      GetTask c args reply now = some (c1, { reply with Type_ := TaskTypeSleep })) ∧
    (∀ (c2 c3 : Coordinator) (r : TaskReply) (calls : List Call) (rs : List TaskReply),
      IdsAreIndices c → GetTask c args reply now = some (c2, r) →
      r.Type_ = TaskTypeMap ∨ r.Type_ = TaskTypeReduce →
      (∀ call ∈ calls, call.now ≤ now + 10 * Second) →
      run c2 calls = some (c3, rs) →
      ∀ r' ∈ rs, ¬ (r'.Type_ = r.Type_ ∧ r'.Id = r.Id)) := by
  refine ⟨applyReport_startAt c c1 args h1, ?_, ?_, ?_⟩
  · intro hm hall
    have hscan : scanTasks (MapTask.eligible (now + (-10 * Second))) c1.mapTasks = none := by
      rw [scanTasks_none]
      intro t ht
      rw [mapEligible_false_iff]
      rintro ⟨hd, hs⟩
      have := hall t ht hd
      linarith
    simp only [GetTask, h1, pickTask, gt_iff_lt, hm, if_true, hscan]
  · intro hm hr hall
    have hscan : scanTasks (ReduceTask.eligible (now + (-10 * Second))) c1.reduceTasks =
        none := by
      rw [scanTasks_none]
      intro t ht
      rw [reduceEligible_false_iff]
      rintro ⟨hd, hs⟩
      have := hall t ht hd
      linarith
    have hm' : ¬ 0 < c1.mapRemain := by omega
    simp only [GetTask, h1, pickTask, gt_iff_lt, hm', hr, if_true, if_false, hscan]
  · intro c2 c3 r calls rs hid hg hty hnow hrun r' hr'
    have hid2 := GetTask_ids c args reply now c2 r hid hg
    obtain ⟨c1', h1', h2⟩ := (GetTask_eq_some c args reply now c2 r).mp hg
    have hid1 := applyReport_ids c c1' args h1' hid
    rcases hty with hty | hty
    · obtain ⟨_, idx, t, hscan, _, er⟩ := pickTask_map c1' c2 reply r now h2 hty
      have hidx := hid1.1 idx t (scanTasks_some _ _ _ _ hscan).1
      have hi : r.Id = (idx : Int) := by rw [er]; exact hidx
      obtain ⟨u, hu, _, hs⟩ := GetTask_map_assigned c c2 args reply r now idx hid hg hty hi
      rw [hty, hi]
      exact run_map_in_window now idx calls c2 c3 rs u hid2 hu (by rw [hs]) hnow hrun r' hr'
    · obtain ⟨_, _, idx, t, hscan, _, er⟩ := pickTask_reduce c1' c2 reply r now h2 hty
      have hidx := hid1.2 idx t (scanTasks_some _ _ _ _ hscan).1
      have hi : r.Id = (idx : Int) := by rw [er]; exact hidx
      obtain ⟨_, u, hu, _, hs⟩ :=
        GetTask_reduce_assigned c c2 args reply r now idx hid hg hty hi
      rw [hty, hi]
      exact run_reduce_in_window now idx calls c2 c3 rs u hid2 hu (by rw [hs]) hnow hrun r' hr'

theorem GetTask_no_reassignment_in_window_witness :
    GetTask soloAssigned firstContact zeroReply (110 * Second) =
      some (soloAssigned, { zeroReply with Type_ := TaskTypeSleep }) ∧
    GetTask sampleReduceAssigned firstContact zeroReply (104 * Second) =
      some (sampleReduceAssigned, { zeroReply with Type_ := TaskTypeSleep }) ∧
    (GetTask soloStart firstContact zeroReply (100 * Second) =
        some (soloAssigned, { Type_ := TaskTypeMap, Id := 0, Files := ["x"], NReduce := 1 }) ∧
      run soloAssigned soloWindowCalls =
        some (soloAssigned, [{ zeroReply with Type_ := TaskTypeSleep },
                             { zeroReply with Type_ := TaskTypeSleep }]) ∧
      ∀ r' ∈ [({ zeroReply with Type_ := TaskTypeSleep } : TaskReply),
              { zeroReply with Type_ := TaskTypeSleep }],
        ¬ (r'.Type_ = TaskTypeMap ∧ r'.Id = 0)) :=
  ⟨(GetTask_no_reassignment_in_window soloAssigned soloAssigned firstContact zeroReply
      (110 * Second) (by decide)).2.1 (by decide) (by decide),
   (GetTask_no_reassignment_in_window sampleReduceAssigned sampleReduceAssigned firstContact
      zeroReply (104 * Second) (by decide)).2.2.1 (by decide) (by decide) (by decide),
   by decide, by decide,
   (GetTask_no_reassignment_in_window soloStart soloStart firstContact zeroReply
      (100 * Second) (by decide)).2.2.2 soloAssigned soloAssigned
      { Type_ := TaskTypeMap, Id := 0, Files := ["x"], NReduce := 1 } soloWindowCalls
      [{ zeroReply with Type_ := TaskTypeSleep }, { zeroReply with Type_ := TaskTypeSleep }]
      (MakeCoordinator_ids ["x"] 1 soloStart (by decide)) (by decide) (Or.inl rfl)
      (by decide) (by decide)⟩

/-! ## The end of the job -/

/-- C8, as the code has it: the test `mapRemain > 0` comes first.  For every coordinator
state and every report that applies, if after the report `reduceRemain = 0` and `mapRemain`
is not greater than 0, the assignment returned by `GetTask` is Exit and the state is the one
the report left. -/
theorem GetTask_exit_when_done (c c1 : Coordinator) (args : TaskArgs) (reply : TaskReply)
    (now : Time) (h1 : applyReport c args = some c1) (hr : c1.reduceRemain = 0)
    (hm : ¬ 0 < c1.mapRemain) :
    GetTask c args reply now = some (c1, { reply with Type_ := TaskTypeExit }) := by
  have hr' : ¬ 0 < c1.reduceRemain := by omega
  simp only [GetTask, h1, pickTask, gt_iff_lt, hm, hr', if_false]

theorem GetTask_exit_when_done_witness :
    applyReport soloFinished firstContact = some soloFinished ∧
    soloFinished.reduceRemain = 0 ∧ ¬ 0 < soloFinished.mapRemain ∧
    GetTask soloFinished firstContact zeroReply (200 * Second) =
      some (soloFinished, { zeroReply with Type_ := TaskTypeExit }) :=
  ⟨by decide, by decide, by decide,
   GetTask_exit_when_done soloFinished soloFinished firstContact zeroReply (200 * Second)
     (by decide) (by decide) (by decide)⟩

/-- C8 as stated fails on the code: in the state made by `MakeCoordinator ["x"] 1`, the
report `{Reduce, 0}` leaves `reduceRemain = 0`, and the assignment returned by that call is
the map task 0, not Exit. -/
theorem GetTask_exit_when_done_counterexample :
    MakeCoordinator ["x"] 1 = some soloStart ∧
    applyReport soloStart { DoneType := TaskTypeReduce, Id := 0, Files := ["mr-out-0"] } =
      some soloReduceReported ∧
    soloReduceReported.reduceRemain = 0 ∧
    GetTask soloStart { DoneType := TaskTypeReduce, Id := 0, Files := ["mr-out-0"] } zeroReply
        (100 * Second) =
      some ({ soloReduceReported with
              mapTasks := [{ id := 0, file := "x", startAt := 100 * Second, done := false }] },
            { Type_ := TaskTypeMap, Id := 0, Files := ["x"], NReduce := 1 }) ∧
    TaskTypeMap ≠ TaskTypeExit := by
  refine ⟨by decide, by decide, by decide, by decide, by decide⟩

/-! ## Done flags along an execution -/

theorem pickTask_done (c : Coordinator) (reply : TaskReply) (now : Time) :
    (pickTask c reply now).1.mapTasks.map (fun t => t.done) = c.mapTasks.map (fun t => t.done) ∧
    (pickTask c reply now).1.reduceTasks.map (fun t => t.done) =
      c.reduceTasks.map (fun t => t.done) := by
  rcases pickTask_cases c reply now with ⟨_, idx, t, hs, h⟩ | ⟨_, _, h⟩ | ⟨_, _, idx, t, hs, h⟩ |
    ⟨_, _, _, h⟩ | ⟨_, _, h⟩ <;> rw [h]
  · exact ⟨map_set_of_eq _ _ _ t _ (scanTasks_some _ _ _ _ hs).1 rfl, rfl⟩
  · exact ⟨rfl, rfl⟩
  · exact ⟨rfl, map_set_of_eq _ _ _ t _ (scanTasks_some _ _ _ _ hs).1 rfl⟩
  · exact ⟨rfl, rfl⟩
  · exact ⟨rfl, rfl⟩

theorem applyReport_map_done_at (c c1 : Coordinator) (args : TaskArgs) (i : Nat) (u : MapTask)
    (h : applyReport c args = some c1) (hu : c.mapTasks[i]? = some u) :
    ∃ u1 : MapTask, c1.mapTasks[i]? = some u1 ∧ (u.done = true → u1.done = true) ∧
      (¬ (args.DoneType = TaskTypeMap ∧ args.Id = (i : Int)) → u1.done = u.done) ∧
      (args.DoneType = TaskTypeMap ∧ args.Id = (i : Int) → u1.done = true) := by
  rcases applyReport_cases c c1 args h with h | ⟨hd, h0, t, rts, ht, _, _, h⟩ |
    ⟨hd, _, t, _, _, h⟩
  · subst h
    refine ⟨u, hu, fun x => x, fun _ => rfl, ?_⟩
    rintro ⟨hty, hid⟩
    have hneg : ¬ args.Id < 0 := by omega
    have hi : args.Id.toNat = i := by omega
    cases hdn : u.done with
    | true => rfl
    | false =>
      exfalso
      unfold applyReport at h
      simp only [hty, hneg, if_false, hi, hu, hdn, Bool.not_false, if_true] at h
      cases hr : rangeFiles c1.reduceTasks 0 args.Files with
      | none => simp [hr] at h
      | some rts =>
        simp only [hr, Option.some.injEq] at h
        have e := congrArg (fun x : Coordinator => x.mapTasks[i]?) h
        simp only at e
        rw [getElem?_set_same _ _ u _ hu, hu] at e
        simp only [Option.some.injEq] at e
        have := congrArg MapTask.done e
        simp [hdn] at this
  · subst h
    by_cases hi : args.Id.toNat = i
    · subst hi
      rw [hu] at ht
      simp only [Option.some.injEq] at ht
      subst ht
      refine ⟨{ u with done := true }, getElem?_set_same _ _ u _ hu, fun _ => rfl, ?_,
        fun _ => rfl⟩
      intro hn
      exact absurd ⟨hd, by omega⟩ hn
    · refine ⟨u, ?_, fun x => x, fun _ => rfl, ?_⟩
      · simp only
        rw [List.getElem?_set_ne hi]
        exact hu
      · rintro ⟨_, hid⟩
        exact absurd (by omega) hi
  · subst h
    refine ⟨u, hu, fun x => x, fun _ => rfl, ?_⟩
    rintro ⟨hty, _⟩
    rw [hd] at hty
    cases hty

theorem applyReport_reduce_done_at (c c1 : Coordinator) (args : TaskArgs) (i : Nat)
    (u : ReduceTask) (h : applyReport c args = some c1) (hu : c.reduceTasks[i]? = some u) :
    ∃ u1 : ReduceTask, c1.reduceTasks[i]? = some u1 ∧ (u.done = true → u1.done = true) ∧
      (¬ (args.DoneType = TaskTypeReduce ∧ args.Id = (i : Int)) → u1.done = u.done) ∧
      (args.DoneType = TaskTypeReduce ∧ args.Id = (i : Int) → u1.done = true) := by
  rcases applyReport_cases c c1 args h with h | ⟨hd, _, t, rts, _, _, hr, h⟩ |
    ⟨hd, h0, t, ht, _, h⟩
  · subst h
    refine ⟨u, hu, fun x => x, fun _ => rfl, ?_⟩
    rintro ⟨hty, hid⟩
    have hneg : ¬ args.Id < 0 := by omega
    have hi : args.Id.toNat = i := by omega
    cases hdn : u.done with
    | true => rfl
    | false =>
      exfalso
      unfold applyReport at h
      simp only [hty, hneg, if_false, hi, hu, hdn, Bool.not_false, if_true,
        Option.some.injEq] at h
      have e := congrArg (fun x : Coordinator => x.reduceTasks[i]?) h
      simp only at e
      rw [getElem?_set_same _ _ u _ hu, hu] at e
      simp only [Option.some.injEq] at e
      have := congrArg ReduceTask.done e
      simp [hdn] at this
  · subst h
    refine ⟨{ u with files := u.files ++ appended args.Files 0 i }, ?_, fun x => x,
      fun _ => rfl, ?_⟩
    · simp only
      rw [rangeFiles_getElem? _ _ _ _ hr i, hu]
      rfl
    · rintro ⟨hty, _⟩
      rw [hd] at hty
      cases hty
  · subst h
    by_cases hi : args.Id.toNat = i
    · subst hi
      rw [hu] at ht
      simp only [Option.some.injEq] at ht
      subst ht
      refine ⟨{ u with done := true }, getElem?_set_same _ _ u _ hu, fun _ => rfl, ?_,
        fun _ => rfl⟩
      intro hn
      exact absurd ⟨hd, by omega⟩ hn
    · refine ⟨u, ?_, fun x => x, fun _ => rfl, ?_⟩
      · simp only
        rw [List.getElem?_set_ne hi]
        exact hu
      · rintro ⟨_, hid⟩
        exact absurd (by omega) hi

theorem GetTask_map_done_at (c c2 : Coordinator) (args : TaskArgs) (reply r : TaskReply)
    (now : Time) (i : Nat) (u : MapTask)
    (h : GetTask c args reply now = some (c2, r)) (hu : c.mapTasks[i]? = some u) :
    ∃ u2 : MapTask, c2.mapTasks[i]? = some u2 ∧ (u.done = true → u2.done = true) ∧
      (¬ (args.DoneType = TaskTypeMap ∧ args.Id = (i : Int)) → u2.done = u.done) ∧
      (args.DoneType = TaskTypeMap ∧ args.Id = (i : Int) → u2.done = true) := by
  obtain ⟨c1, h1, h2⟩ := (GetTask_eq_some c args reply now c2 r).mp h
  obtain ⟨u1, hu1, a, b, d⟩ := applyReport_map_done_at c c1 args i u h1 hu
  have hp := (pickTask_done c1 reply now).1
  rw [h2] at hp
  obtain ⟨u2, hu2, e⟩ := getElem?_of_map_eq (fun t : MapTask => t.done) c2.mapTasks
    c1.mapTasks i u1 hp hu1
  exact ⟨u2, hu2, fun x => e.trans (a x), fun x => e.trans (b x), fun x => e.trans (d x)⟩

theorem GetTask_reduce_done_at (c c2 : Coordinator) (args : TaskArgs) (reply r : TaskReply)
    (now : Time) (i : Nat) (u : ReduceTask)
    (h : GetTask c args reply now = some (c2, r)) (hu : c.reduceTasks[i]? = some u) :
    ∃ u2 : ReduceTask, c2.reduceTasks[i]? = some u2 ∧ (u.done = true → u2.done = true) ∧
      (¬ (args.DoneType = TaskTypeReduce ∧ args.Id = (i : Int)) → u2.done = u.done) ∧
      (args.DoneType = TaskTypeReduce ∧ args.Id = (i : Int) → u2.done = true) := by
  obtain ⟨c1, h1, h2⟩ := (GetTask_eq_some c args reply now c2 r).mp h
  obtain ⟨u1, hu1, a, b, d⟩ := applyReport_reduce_done_at c c1 args i u h1 hu
  have hp := (pickTask_done c1 reply now).2
  rw [h2] at hp
  obtain ⟨u2, hu2, e⟩ := getElem?_of_map_eq (fun t : ReduceTask => t.done) c2.reduceTasks
    c1.reduceTasks i u1 hp hu1
  exact ⟨u2, hu2, fun x => e.trans (a x), fun x => e.trans (b x), fun x => e.trans (d x)⟩

/-- Along an execution, map task `i` ends done if it was done or some call reported it, and
ends with its initial flag if no call reported it. -/
theorem run_map_done_at (i : Nat) :
    ∀ (calls : List Call) (c c3 : Coordinator) (rs : List TaskReply) (u : MapTask),
      run c calls = some (c3, rs) → c.mapTasks[i]? = some u →
      ∃ u3 : MapTask, c3.mapTasks[i]? = some u3 ∧
        (u.done = true ∨ (∃ call ∈ calls, call.args.DoneType = TaskTypeMap ∧
            call.args.Id = (i : Int)) → u3.done = true) ∧
        ((∀ call ∈ calls, ¬ (call.args.DoneType = TaskTypeMap ∧ call.args.Id = (i : Int))) →
          u3.done = u.done) := by
  intro calls
  induction calls with
  | nil =>
    intro c c3 rs u h hu
    simp only [run, Option.some.injEq, Prod.mk.injEq] at h
    rw [← h.1]
    refine ⟨u, hu, ?_, fun _ => rfl⟩
    rintro (hd | ⟨call, hc, _⟩)
    · exact hd
    · cases hc
  | cons call rest ih =>
    intro c c3 rs u h hu
    obtain ⟨c2, r0, rs1, hg, hrun, _⟩ := (run_cons_eq_some c call rest c3 rs).mp h
    obtain ⟨u2, hu2, a, b, d⟩ := GetTask_map_done_at c c2 call.args call.reply r0 call.now i u
      hg hu
    obtain ⟨u3, hu3, p, q⟩ := ih c2 c3 rs1 u2 hrun hu2
    refine ⟨u3, hu3, ?_, ?_⟩
    · rintro (hd | ⟨x, hx, hxr⟩)
      · exact p (Or.inl (a hd))
      · rcases List.mem_cons.mp hx with e | hx
        · subst e
          exact p (Or.inl (d hxr))
        · exact p (Or.inr ⟨x, hx, hxr⟩)
    · intro hno
      rw [q (fun x hx => hno x (List.mem_cons_of_mem _ hx))]
      exact b (hno call (List.mem_cons_self _ _))

/-- The reduce-task twin of `run_map_done_at`. -/
theorem run_reduce_done_at (i : Nat) :
    ∀ (calls : List Call) (c c3 : Coordinator) (rs : List TaskReply) (u : ReduceTask),
      run c calls = some (c3, rs) → c.reduceTasks[i]? = some u →
      ∃ u3 : ReduceTask, c3.reduceTasks[i]? = some u3 ∧
        (u.done = true ∨ (∃ call ∈ calls, call.args.DoneType = TaskTypeReduce ∧
            call.args.Id = (i : Int)) → u3.done = true) ∧
        ((∀ call ∈ calls,
            ¬ (call.args.DoneType = TaskTypeReduce ∧ call.args.Id = (i : Int))) →
          u3.done = u.done) := by
  intro calls
  induction calls with
  | nil =>
    intro c c3 rs u h hu
    simp only [run, Option.some.injEq, Prod.mk.injEq] at h
    rw [← h.1]
    refine ⟨u, hu, ?_, fun _ => rfl⟩
    rintro (hd | ⟨call, hc, _⟩)
    · exact hd
    · cases hc
  | cons call rest ih =>
    intro c c3 rs u h hu
    obtain ⟨c2, r0, rs1, hg, hrun, _⟩ := (run_cons_eq_some c call rest c3 rs).mp h
    obtain ⟨u2, hu2, a, b, d⟩ := GetTask_reduce_done_at c c2 call.args call.reply r0 call.now
      i u hg hu
    obtain ⟨u3, hu3, p, q⟩ := ih c2 c3 rs1 u2 hrun hu2
    refine ⟨u3, hu3, ?_, ?_⟩
    · rintro (hd | ⟨x, hx, hxr⟩)
      · exact p (Or.inl (a hd))
      · rcases List.mem_cons.mp hx with e | hx
        · subst e
          exact p (Or.inl (d hxr))
        · exact p (Or.inr ⟨x, hx, hxr⟩)
    · intro hno
      rw [q (fun x hx => hno x (List.mem_cons_of_mem _ hx))]
      exact b (hno call (List.mem_cons_self _ _))

theorem run_length :
    ∀ (calls : List Call) (c c3 : Coordinator) (rs : List TaskReply),
      run c calls = some (c3, rs) →
      c3.mapTasks.length = c.mapTasks.length ∧ c3.reduceTasks.length = c.reduceTasks.length := by
  intro calls c c3 rs h
  exact run_preserves
    (fun x => x.mapTasks.length = c.mapTasks.length ∧
      x.reduceTasks.length = c.reduceTasks.length)
    (fun x args reply now x1 r hp hg => by
      have := GetTask_length x args reply now x1 r hg
      exact ⟨this.1.trans hp.1, this.2.trans hp.2⟩)
    calls c c3 rs ⟨rfl, rfl⟩ h

theorem MakeCoordinator_fresh (files : List String) (nReduce : Int) (c0 : Coordinator)
    (h : MakeCoordinator files nReduce = some c0) :
    (∀ t ∈ c0.mapTasks, t.done = false ∧ t.startAt = 0) ∧
    (∀ t ∈ c0.reduceTasks, t.done = false ∧ t.startAt = 0 ∧ t.files = []) := by
  obtain ⟨_, _, _, e⟩ := MakeCoordinator_eq files nReduce c0 h
  subst e
  refine ⟨?_, ?_⟩
  · intro t ht
    obtain ⟨i, hi⟩ := List.mem_iff_getElem?.mp ht
    simp only [initMapTasks_getElem?] at hi
    cases hf : files[i]? with
    | none => simp [hf] at hi
    | some f =>
      simp only [hf, Option.map_some', Option.some.injEq] at hi
      rw [← hi]
      exact ⟨rfl, rfl⟩
  · intro t ht
    obtain ⟨i, hi⟩ := List.mem_iff_getElem?.mp ht
    rw [initReduceTasks_getElem? _ _ _ _ hi]
    exact ⟨rfl, rfl, rfl⟩

theorem applyReport_all_done (c c1 : Coordinator) (args : TaskArgs)
    (hm : ∀ t ∈ c.mapTasks, t.done = true) (hr : ∀ t ∈ c.reduceTasks, t.done = true)
    (h : applyReport c args = some c1) : c1 = c := by
  rcases applyReport_cases c c1 args h with h | ⟨_, _, t, rts, ht, hd, _, _⟩ |
    ⟨_, _, t, ht, hd, _⟩
  · exact h
  · have := hm t (List.getElem?_mem ht)
    rw [hd] at this
    cases this
  · have := hr t (List.getElem?_mem ht)
    rw [hd] at this
    cases this

theorem Done_iff (c : Coordinator) : Done c = true ↔ c.mapRemain = 0 ∧ c.reduceRemain = 0 := by
  simp [Done]

theorem GetTask_finished (c c2 : Coordinator) (args : TaskArgs) (reply r : TaskReply)
    (now : Time) (hcnt : CountersExact c) (hd : Done c = true)
    (h : GetTask c args reply now = some (c2, r)) :
    c2 = c ∧ r = { reply with Type_ := TaskTypeExit } := by
  obtain ⟨hm, hr⟩ := (Done_iff c).mp hd
  obtain ⟨c1, h1, h2⟩ := (GetTask_eq_some c args reply now c2 r).mp h
  have e := applyReport_all_done c c1 args
    (all_done_of_mapRemain c hcnt (by omega)) (all_done_of_reduceRemain c hcnt (by omega)) h1
  subst e
  have hm' : ¬ 0 < c1.mapRemain := by omega
  have hr' : ¬ 0 < c1.reduceRemain := by omega
  simp only [pickTask, gt_iff_lt, hm', hr', if_false, Prod.mk.injEq] at h2
  exact ⟨h2.1.symm, h2.2.symm⟩

theorem run_finished :
    ∀ (later : List Call) (c c4 : Coordinator) (rs4 : List TaskReply),
      CountersExact c → Done c = true → run c later = some (c4, rs4) →
      c4 = c ∧ ∀ r ∈ rs4, r.Type_ = TaskTypeExit := by
  intro later
  induction later with
  | nil =>
    intro c c4 rs4 _ _ h
    simp only [run, Option.some.injEq, Prod.mk.injEq] at h
    refine ⟨h.1.symm, ?_⟩
    intro r hr
    rw [← h.2] at hr
    cases hr
  | cons call rest ih =>
    intro c c4 rs4 hcnt hd h
    obtain ⟨c2, r0, rs1, hg, hrun, e⟩ := (run_cons_eq_some c call rest c4 rs4).mp h
    obtain ⟨e2, er⟩ := GetTask_finished c c2 call.args call.reply r0 call.now hcnt hd hg
    subst e2
    obtain ⟨e4, hall⟩ := ih c2 c4 rs1 hcnt hd hrun
    refine ⟨e4, ?_⟩
    intro r hr
    rw [e] at hr
    rcases List.mem_cons.mp hr with hr | hr
    · rw [hr, er]
    · exact hall r hr

theorem GetTask_finished_isSome (c : Coordinator) (args : TaskArgs) (reply : TaskReply)
    (now : Time) (hcnt : CountersExact c) (hd : Done c = true)
    (hm : args.DoneType = TaskTypeMap → 0 ≤ args.Id ∧ args.Id < c.mapTasks.length)
    (hr : args.DoneType = TaskTypeReduce → 0 ≤ args.Id ∧ args.Id < c.reduceTasks.length) :
    GetTask c args reply now = some (c, { reply with Type_ := TaskTypeExit }) := by
  obtain ⟨c1, h1⟩ : ∃ c1, applyReport c args = some c1 := by
    obtain ⟨ty, id, fs⟩ := args
    obtain ⟨hm0, hr0⟩ := (Done_iff c).mp hd
    cases ty with
    | TaskTypeMap =>
      obtain ⟨a, b⟩ := hm rfl
      simp only at a b
      have hlt : id.toNat < c.mapTasks.length := by omega
      have ht := List.getElem?_eq_getElem hlt
      exact ⟨c, applyReport_map_done c id fs _ a ht
        (all_done_of_mapRemain c hcnt (by omega) _ (List.getElem?_mem ht))⟩
    | TaskTypeReduce =>
      obtain ⟨a, b⟩ := hr rfl
      simp only at a b
      have hlt : id.toNat < c.reduceTasks.length := by omega
      have ht := List.getElem?_eq_getElem hlt
      exact ⟨c, applyReport_reduce_done c id fs _ a ht
        (all_done_of_reduceRemain c hcnt (by omega) _ (List.getElem?_mem ht))⟩
    | TaskTypeNone => exact ⟨c, rfl⟩
    | TaskTypeSleep => exact ⟨c, rfl⟩
    | TaskTypeExit => exact ⟨c, rfl⟩
  cases hp : pickTask c1 reply now with
  | mk c2 r =>
    have hg : GetTask c args reply now = some (c2, r) :=
      (GetTask_eq_some _ _ _ _ _ _).mpr ⟨c1, h1, hp⟩
    obtain ⟨e2, er⟩ := GetTask_finished c c2 args reply r now hcnt hd hg
    rw [hg, e2, er]

theorem countP_eq_zero_of_getElem? {α : Type} (p : α → Bool) (l : List α)
    (h : ∀ (i : Nat) (a : α), l[i]? = some a → p a = false) : l.countP p = 0 := by
  rw [List.countP_eq_zero]
  intro a ha
  obtain ⟨i, hi⟩ := List.mem_iff_getElem?.mp ha
  simp [h i a hi]

/-- C9: job completion.  `Done()` returns true exactly when `mapRemain = 0` and
`reduceRemain = 0`.  Starting from `MakeCoordinator files nReduce`, after any sequence of
`GetTask` calls in which every map id in `[0, M)` has been reported as a Map completion and
every reduce id in `[0, R)` as a Reduce completion, `Done()` returns true, every later call
with in-range ids returns Exit and leaves the state alone, and every reply of any later
execution is Exit.  If some map task or some reduce task has never been reported, `Done()`
returns false. -/
theorem Done_after_all_reports (files : List String) (nReduce : Int) (c0 c : Coordinator)
    (calls : List Call) (rs : List TaskReply)
    (hmk : MakeCoordinator files nReduce = some c0) (hrun : run c0 calls = some (c, rs)) :
    (∀ x : Coordinator, Done x = true ↔ x.mapRemain = 0 ∧ x.reduceRemain = 0) ∧
    ((∀ i : Nat, i < files.length →
        ∃ call ∈ calls, call.args.DoneType = TaskTypeMap ∧ call.args.Id = (i : Int)) →
      (∀ j : Nat, (j : Int) < nReduce →
        ∃ call ∈ calls, call.args.DoneType = TaskTypeReduce ∧ call.args.Id = (j : Int)) →
      Done c = true ∧
      (∀ (args : TaskArgs) (reply : TaskReply) (now : Time),
        (args.DoneType = TaskTypeMap → 0 ≤ args.Id ∧ args.Id < files.length) →
        (args.DoneType = TaskTypeReduce → 0 ≤ args.Id ∧ args.Id < nReduce) →
        GetTask c args reply now = some (c, { reply with Type_ := TaskTypeExit })) ∧
      (∀ (later : List Call) (c4 : Coordinator) (rs4 : List TaskReply),
        run c later = some (c4, rs4) → c4 = c ∧ ∀ r ∈ rs4, r.Type_ = TaskTypeExit)) ∧
    ((∃ i : Nat, i < files.length ∧
        ∀ call ∈ calls, ¬ (call.args.DoneType = TaskTypeMap ∧ call.args.Id = (i : Int))) ∨
      (∃ j : Nat, (j : Int) < nReduce ∧
        ∀ call ∈ calls, ¬ (call.args.DoneType = TaskTypeReduce ∧ call.args.Id = (j : Int))) →
      Done c = false) := by
  have hcnt := run_counters files nReduce c0 c calls rs hmk hrun
  obtain ⟨hM0, hR0⟩ := MakeCoordinator_length files nReduce c0 hmk
  obtain ⟨hM, hR⟩ := run_length calls c0 c rs hrun
  obtain ⟨hfm, hfr⟩ := MakeCoordinator_fresh files nReduce c0 hmk
  obtain ⟨hn0, _, _, _⟩ := MakeCoordinator_eq files nReduce c0 hmk
  refine ⟨Done_iff, ?_, ?_⟩
  · intro hallm hallr
    have hm0 : mapNotDone c.mapTasks = 0 := by
      apply countP_eq_zero_of_getElem?
      intro i a hi
      have hlt : i < c0.mapTasks.length := by
        rw [← hM]; exact (List.getElem?_eq_some_iff.mp hi).1
      obtain ⟨u3, hu3, p, _⟩ := run_map_done_at i calls c0 c rs _ hrun
        (List.getElem?_eq_getElem hlt)
      rw [hi] at hu3
      simp only [Option.some.injEq] at hu3
      subst hu3
      simp [p (Or.inr (hallm i (by omega)))]
    have hr0 : reduceNotDone c.reduceTasks = 0 := by
      apply countP_eq_zero_of_getElem?
      intro i a hi
      have hlt : i < c0.reduceTasks.length := by
        rw [← hR]; exact (List.getElem?_eq_some_iff.mp hi).1
      obtain ⟨u3, hu3, p, _⟩ := run_reduce_done_at i calls c0 c rs _ hrun
        (List.getElem?_eq_getElem hlt)
      rw [hi] at hu3
      simp only [Option.some.injEq] at hu3
      subst hu3
      simp [p (Or.inr (hallr i (by omega)))]
    have hd : Done c = true := by
      rw [Done_iff, hcnt.1, hcnt.2.1, hm0, hr0]
      exact ⟨rfl, rfl⟩
    refine ⟨hd, ?_, ?_⟩
    · intro args reply now ha hb
      apply GetTask_finished_isSome c args reply now hcnt hd
      · intro h
        obtain ⟨x, y⟩ := ha h
        exact ⟨x, by omega⟩
      · intro h
        obtain ⟨x, y⟩ := hb h
        exact ⟨x, by omega⟩
    · intro later c4 rs4 hl
      exact run_finished later c c4 rs4 hcnt hd hl
  · intro hsome
    have hnot : ¬ (c.mapRemain = 0 ∧ c.reduceRemain = 0) := by
      rcases hsome with ⟨i, hi, hno⟩ | ⟨j, hj, hno⟩
      · have hlt : i < c0.mapTasks.length := by omega
        obtain ⟨u3, hu3, _, q⟩ := run_map_done_at i calls c0 c rs _ hrun
          (List.getElem?_eq_getElem hlt)
        have hnd : u3.done = false := by
          rw [q hno]
          exact (hfm _ (List.getElem_mem _)).1
        have := mapRemain_pos_of_notDone c hcnt i u3 hu3 hnd
        omega
      · have hlt : j < c0.reduceTasks.length := by omega
        obtain ⟨u3, hu3, _, q⟩ := run_reduce_done_at j calls c0 c rs _ hrun
          (List.getElem?_eq_getElem hlt)
        have hnd : u3.done = false := by
          rw [q hno]
          exact (hfr _ (List.getElem_mem _)).1
        have := reduceRemain_pos_of_notDone c hcnt j u3 hu3 hnd
        omega
    cases hdd : Done c with
    | false => rfl
    | true => exact absurd ((Done_iff c).mp hdd) hnot

theorem Done_after_all_reports_witness :
    MakeCoordinator ["x"] 1 = some soloStart ∧
    run soloStart soloCalls = some (soloFinished, soloReplies) ∧
    Done soloFinished = true ∧
    GetTask soloFinished firstContact zeroReply (200 * Second) =
      some (soloFinished, { zeroReply with Type_ := TaskTypeExit }) ∧
    run soloStart [{ args := firstContact, reply := zeroReply, now := 100 * Second }] =
      some (soloAssigned, [{ Type_ := TaskTypeMap, Id := 0, Files := ["x"], NReduce := 1 }]) ∧
    Done soloAssigned = false := by
  have h := (Done_after_all_reports ["x"] 1 soloStart soloFinished soloCalls soloReplies
    (by decide) (by decide)).2.1
    (fun i hi => ⟨{ args := { DoneType := TaskTypeMap, Id := 0, Files := ["mr-0-0"] },
                    reply := zeroReply, now := 101 * Second }, by decide, rfl,
                  by simp only [List.length_singleton] at hi; simp; omega⟩)
    (fun j hj => ⟨{ args := { DoneType := TaskTypeReduce, Id := 0, Files := ["mr-out-0"] },
                    reply := zeroReply, now := 102 * Second }, by decide, rfl,
                  by simp; omega⟩)
  have h' := (Done_after_all_reports ["x"] 1 soloStart soloAssigned
    [{ args := firstContact, reply := zeroReply, now := 100 * Second }]
    [{ Type_ := TaskTypeMap, Id := 0, Files := ["x"], NReduce := 1 }]
    (by decide) (by decide)).2.2
    (Or.inl ⟨0, by decide, by decide⟩)
  exact ⟨by decide, by decide, h.1,
    h.2.1 firstContact zeroReply (200 * Second) (by decide) (by decide), by decide, h'⟩

/-! ## The shuffle -/

theorem mem_appended (fs : List String) (r : Nat) (p : String) (h : p ∈ appended fs 0 r) :
    fs[r]? = some p ∧ 0 < p.length := by
  unfold appended at h
  simp only [Nat.zero_le, if_true, Nat.sub_zero] at h
  cases hf : fs[r]? with
  | none => simp [hf] at h
  | some f =>
    simp only [hf] at h
    by_cases hl : 0 < f.length
    · simp only [hl, if_true, List.mem_singleton] at h
      subst h
      exact ⟨rfl, hl⟩
    · simp [hl] at h

theorem pickTask_files (c : Coordinator) (reply : TaskReply) (now : Time) :
    (pickTask c reply now).1.reduceTasks.map (fun t => t.files) =
      c.reduceTasks.map (fun t => t.files) := by
  rcases pickTask_cases c reply now with ⟨_, idx, t, hs, h⟩ | ⟨_, _, h⟩ | ⟨_, _, idx, t, hs, h⟩ |
    ⟨_, _, _, h⟩ | ⟨_, _, h⟩ <;> rw [h]
  exact map_set_of_eq _ _ _ t _ (scanTasks_some _ _ _ _ hs).1 rfl

theorem applyReport_files (c c1 : Coordinator) (args : TaskArgs) (r : Nat) (rt1 : ReduceTask)
    (p : String) (h : applyReport c args = some c1) (hrt : c1.reduceTasks[r]? = some rt1)
    (hp : p ∈ rt1.files) :
    (∃ rt : ReduceTask, c.reduceTasks[r]? = some rt ∧ p ∈ rt.files) ∨
    (args.DoneType = TaskTypeMap ∧ args.Files[r]? = some p ∧ 0 < p.length) := by
  rcases applyReport_cases c c1 args h with h | ⟨hd, _, t, rts, _, _, hr, h⟩ |
    ⟨_, _, t, ht, _, h⟩
  · subst h
    exact Or.inl ⟨rt1, hrt, hp⟩
  · subst h
    simp only at hrt
    rw [rangeFiles_getElem? _ _ _ _ hr r] at hrt
    cases hc : c.reduceTasks[r]? with
    | none => simp [hc] at hrt
    | some rt =>
      simp only [hc, Option.map_some', Option.some.injEq] at hrt
      subst hrt
      simp only [List.mem_append] at hp
      rcases hp with hp | hp
      · exact Or.inl ⟨rt, rfl, hp⟩
      · exact Or.inr ⟨hd, mem_appended _ _ _ hp⟩
  · subst h
    simp only at hrt
    obtain ⟨rt, hrt0, e⟩ := getElem?_of_map_eq (fun t : ReduceTask => t.files) c.reduceTasks
      (c.reduceTasks.set args.Id.toNat { t with done := true }) r rt1
      (map_set_of_eq (fun t : ReduceTask => t.files) c.reduceTasks args.Id.toNat t
        { t with done := true } ht rfl).symm hrt
    exact Or.inl ⟨rt, hrt0, by rw [e]; exact hp⟩

theorem GetTask_files (c c2 : Coordinator) (args : TaskArgs) (reply r0 : TaskReply)
    (now : Time) (r : Nat) (rt2 : ReduceTask) (p : String)
    (h : GetTask c args reply now = some (c2, r0)) (hrt : c2.reduceTasks[r]? = some rt2)
    (hp : p ∈ rt2.files) :
    (∃ rt : ReduceTask, c.reduceTasks[r]? = some rt ∧ p ∈ rt.files) ∨
    (args.DoneType = TaskTypeMap ∧ args.Files[r]? = some p ∧ 0 < p.length) := by
  obtain ⟨c1, h1, h2⟩ := (GetTask_eq_some c args reply now c2 r0).mp h
  have hf := pickTask_files c1 reply now
  rw [h2] at hf
  obtain ⟨rt1, hrt1, e⟩ := getElem?_of_map_eq (fun t : ReduceTask => t.files) c1.reduceTasks
    c2.reduceTasks r rt2 hf.symm hrt
  exact applyReport_files c c1 args r rt1 p h1 hrt1 (by rw [e]; exact hp)

theorem run_files (r : Nat) (p : String) :
    ∀ (calls : List Call) (c c3 : Coordinator) (rs : List TaskReply) (rt3 : ReduceTask),
      run c calls = some (c3, rs) → c3.reduceTasks[r]? = some rt3 → p ∈ rt3.files →
      (∃ rt : ReduceTask, c.reduceTasks[r]? = some rt ∧ p ∈ rt.files) ∨
      (∃ call ∈ calls, call.args.DoneType = TaskTypeMap ∧ call.args.Files[r]? = some p ∧
        0 < p.length) := by
  intro calls
  induction calls with
  | nil =>
    intro c c3 rs rt3 h hrt hp
    simp only [run, Option.some.injEq, Prod.mk.injEq] at h
    rw [← h.1] at hrt
    exact Or.inl ⟨rt3, hrt, hp⟩
  | cons call rest ih =>
    intro c c3 rs rt3 h hrt hp
    obtain ⟨c2, r0, rs1, hg, hrun, _⟩ := (run_cons_eq_some c call rest c3 rs).mp h
    rcases ih c2 c3 rs1 rt3 hrun hrt hp with ⟨rt2, hrt2, hp2⟩ | ⟨x, hx, hxr⟩
    · rcases GetTask_files c c2 call.args call.reply r0 call.now r rt2 p hg hrt2 hp2 with
        hold | hnew
      · exact Or.inl hold
      · exact Or.inr ⟨call, List.mem_cons_self _ _, hnew⟩
    · exact Or.inr ⟨x, List.mem_cons_of_mem _ hx, hxr⟩

/-- C10: shuffle provenance.  In every state reached from `MakeCoordinator` by `GetTask`
calls, for every reduce index `r` and every path `p` in `reduceTasks[r].files`, one of the
calls made so far carried a report `{Map, id, files}` with `files[r] = p`, and `p` is not
empty. -/
theorem reduce_files_provenance (files : List String) (nReduce : Int) (c0 c : Coordinator)
    (calls : List Call) (rs : List TaskReply)
    (hmk : MakeCoordinator files nReduce = some c0) (hrun : run c0 calls = some (c, rs))
    (r : Nat) (rt : ReduceTask) (p : String)
    (hrt : c.reduceTasks[r]? = some rt) (hp : p ∈ rt.files) :
    ∃ call ∈ calls, call.args.DoneType = TaskTypeMap ∧ call.args.Files[r]? = some p ∧
      p ≠ "" := by
  rcases run_files r p calls c0 c rs rt hrun hrt hp with ⟨rt0, hrt0, hp0⟩ | ⟨x, hx, a, b, d⟩
  · have := ((MakeCoordinator_fresh files nReduce c0 hmk).2 rt0 (List.getElem?_mem hrt0)).2.2
    rw [this] at hp0
    cases hp0
  · refine ⟨x, hx, a, b, ?_⟩
    intro e
    subst e
    simp at d

theorem reduce_files_provenance_witness :
    MakeCoordinator ["x", "y"] 2 = some sampleStart ∧
    sampleReducePhase.reduceTasks[0]? =
      some { id := 0, files := ["mr-0-0", "mr-1-0"], startAt := 102 * Second, done := false } ∧
    ∃ call ∈ sampleMapReports, call.args.DoneType = TaskTypeMap ∧
      call.args.Files[0]? = some "mr-1-0" ∧ "mr-1-0" ≠ "" :=
  ⟨by decide, by decide,
   reduce_files_provenance ["x", "y"] 2 sampleStart sampleReducePhase sampleMapReports
     [{ Type_ := TaskTypeMap, Id := 1, Files := ["y"], NReduce := 2 },
      { Type_ := TaskTypeReduce, Id := 0, Files := ["mr-0-0", "mr-1-0"], NReduce := 0 }]
     (by decide) (by decide) 0
     { id := 0, files := ["mr-0-0", "mr-1-0"], startAt := 102 * Second, done := false }
     "mr-1-0" (by decide) (by decide)⟩

/-! ## The complete shuffle -/

theorem pendingShuffle_congr (d d' : Nat → Bool) (calls calls' : List Call) (r : Nat) :
    ∀ M : Nat, (∀ m, m < M → d m = d' m) →
      (∀ m, m < M → d m = false → firstMapReport m calls = firstMapReport m calls') →
      pendingShuffle d calls r M = pendingShuffle d' calls' r M := by
  intro M
  induction M with
  | zero => intro _ _; rfl
  | succ M ih =>
    intro hd hf
    simp only [pendingShuffle]
    rw [ih (fun m hm => hd m (by omega)) (fun m hm => hf m (by omega)), ← hd M (by omega)]
    cases hdm : d M with
    | true => rfl
    | false => simp only [Bool.false_eq_true, if_false]; rw [hf M (by omega) hdm]

theorem pendingShuffle_false (calls : List Call) (r : Nat) :
    ∀ M : Nat, pendingShuffle (fun _ => false) calls r M = expectedShuffle calls r M := by
  intro M
  induction M with
  | zero => rfl
  | succ M ih => simp [pendingShuffle, expectedShuffle, ih]

theorem firstMapReport_cons_of_ne (m : Nat) (call : Call) (rest : List Call)
    (h : ¬ (call.args.DoneType = TaskTypeMap ∧ call.args.Id = (m : Int))) :
    firstMapReport m (call :: rest) = firstMapReport m rest := by
  simp only [firstMapReport, h, if_false]

theorem firstMapReport_cons_of_eq (m : Nat) (call : Call) (rest : List Call)
    (h : call.args.DoneType = TaskTypeMap ∧ call.args.Id = (m : Int)) :
    firstMapReport m (call :: rest) = some call.args.Files := by
  simp only [firstMapReport, h, and_self, if_true]

theorem pendingShuffle_accept (d : Nat → Bool) (call : Call) (rest : List Call) (r m0 : Nat)
    (hty : call.args.DoneType = TaskTypeMap) (hid : call.args.Id = (m0 : Int))
    (hd : d m0 = false) :
    ∀ M : Nat,
      (M ≤ m0 → pendingShuffle d (call :: rest) r M =
        pendingShuffle (fun m => if m = m0 then true else d m) rest r M) ∧
      (m0 < M → List.Perm (pendingShuffle d (call :: rest) r M)
        (appended call.args.Files 0 r ++
          pendingShuffle (fun m => if m = m0 then true else d m) rest r M)) := by
  intro M
  induction M with
  | zero =>
    exact ⟨fun _ => rfl, fun h => absurd h (Nat.not_lt_zero _)⟩
  | succ M ih =>
    obtain ⟨ih1, ih2⟩ := ih
    refine ⟨?_, ?_⟩
    · intro hle
      have hne : M ≠ m0 := by omega
      have hne' : ¬ (call.args.DoneType = TaskTypeMap ∧ call.args.Id = (M : Int)) := by
        rintro ⟨_, e⟩
        rw [hid] at e
        omega
      simp only [pendingShuffle, hne, if_false]
      rw [ih1 (by omega), firstMapReport_cons_of_ne M call rest hne']
    · intro hlt
      by_cases hM : M = m0
      · subst hM
        simp only [pendingShuffle, if_true, hd, Bool.false_eq_true, if_false,
          List.append_nil]
        rw [ih1 (Nat.le_refl _), firstMapReport_cons_of_eq M call rest ⟨hty, hid⟩]
        exact List.perm_append_comm
      · have hne' : ¬ (call.args.DoneType = TaskTypeMap ∧ call.args.Id = (M : Int)) := by
          rintro ⟨_, e⟩
          rw [hid] at e
          omega
        simp only [pendingShuffle, hM, if_false]
        rw [firstMapReport_cons_of_ne M call rest hne', ← List.append_assoc]
        exact List.Perm.append_right _ (ih2 (by omega))

theorem applyReport_map_inRange (c c1 : Coordinator) (args : TaskArgs)
    (h : applyReport c args = some c1) (hty : args.DoneType = TaskTypeMap) :
    0 ≤ args.Id ∧ ∃ t : MapTask, c.mapTasks[args.Id.toNat]? = some t := by
  unfold applyReport at h
  simp only [hty] at h
  by_cases hneg : args.Id < 0
  · simp [hneg] at h
  · cases ht : c.mapTasks[args.Id.toNat]? with
    | none => simp [hneg, ht] at h
    | some t => exact ⟨by omega, t, rfl⟩

theorem applyReport_shuffle_step (c c1 : Coordinator) (args : TaskArgs) (r : Nat)
    (rt : ReduceTask) (h : applyReport c args = some c1) (hrt : c.reduceTasks[r]? = some rt) :
    ∃ rt1 : ReduceTask, c1.reduceTasks[r]? = some rt1 ∧
      ((∃ m0 : Nat, args.DoneType = TaskTypeMap ∧ args.Id = (m0 : Int) ∧
          m0 < c.mapTasks.length ∧ mapDoneAt c m0 = false ∧
          rt1.files = rt.files ++ appended args.Files 0 r ∧
          ∀ m, mapDoneAt c1 m = if m = m0 then true else mapDoneAt c m) ∨
       (rt1.files = rt.files ∧ (∀ m, mapDoneAt c1 m = mapDoneAt c m) ∧
          ∀ m : Nat, args.DoneType = TaskTypeMap → args.Id = (m : Int) →
            mapDoneAt c m = true)) := by
  rcases applyReport_cases c c1 args h with e | ⟨hd, h0, t, rts, ht, hdn, hr, e⟩ |
    ⟨hd, _, t, ht, _, e⟩
  · subst e
    refine ⟨rt, hrt, Or.inr ⟨rfl, fun _ => rfl, ?_⟩⟩
    intro m hty hid
    obtain ⟨h0, t, ht⟩ := applyReport_map_inRange c1 c1 args h hty
    have hm : args.Id.toNat = m := by omega
    rw [hm] at ht
    obtain ⟨u1, hu1, _, _, d⟩ := applyReport_map_done_at c1 c1 args m t h ht
    rw [ht] at hu1
    simp only [Option.some.injEq] at hu1
    subst hu1
    simp only [mapDoneAt, ht]
    exact d ⟨hty, hid⟩
  · subst e
    refine ⟨{ rt with files := rt.files ++ appended args.Files 0 r }, ?_, Or.inl
      ⟨args.Id.toNat, hd, by omega, (List.getElem?_eq_some_iff.mp ht).1, ?_, rfl, ?_⟩⟩
    · simp only
      rw [rangeFiles_getElem? _ _ _ _ hr r, hrt]
      rfl
    · simp only [mapDoneAt, ht]
      exact hdn
    · intro m
      simp only [mapDoneAt]
      by_cases hm : m = args.Id.toNat
      · subst hm
        rw [getElem?_set_same _ _ t _ ht]
        simp
      · rw [List.getElem?_set_ne (fun e => hm e.symm)]
        simp [hm]
  · subst e
    obtain ⟨rt1, hrt1, e⟩ := getElem?_of_map_eq (fun t : ReduceTask => t.files)
      (c.reduceTasks.set args.Id.toNat { t with done := true }) c.reduceTasks r rt
      (map_set_of_eq (fun t : ReduceTask => t.files) c.reduceTasks args.Id.toNat t
        { t with done := true } ht rfl) hrt
    refine ⟨rt1, hrt1, Or.inr ⟨e, fun _ => rfl, ?_⟩⟩
    intro m hty _
    rw [hd] at hty
    cases hty

theorem mapDoneAt_of_map_eq (c c' : Coordinator)
    (h : c'.mapTasks.map (fun t => t.done) = c.mapTasks.map (fun t => t.done)) (m : Nat) :
    mapDoneAt c' m = mapDoneAt c m := by
  have e : (c'.mapTasks.map (fun t => t.done))[m]? = (c.mapTasks.map (fun t => t.done))[m]? := by
    rw [h]
  rw [List.getElem?_map, List.getElem?_map] at e
  unfold mapDoneAt
  cases h1 : c'.mapTasks[m]? <;> cases h2 : c.mapTasks[m]? <;> simp [h1, h2] at e ⊢
  exact e

theorem GetTask_shuffle_step (c c2 : Coordinator) (call : Call) (r0 : TaskReply) (r : Nat)
    (rt : ReduceTask) (hg : GetTask c call.args call.reply call.now = some (c2, r0))
    (hrt : c.reduceTasks[r]? = some rt) :
    ∃ rt2 : ReduceTask, c2.reduceTasks[r]? = some rt2 ∧
      ((∃ m0 : Nat, call.args.DoneType = TaskTypeMap ∧ call.args.Id = (m0 : Int) ∧
          m0 < c.mapTasks.length ∧ mapDoneAt c m0 = false ∧
          rt2.files = rt.files ++ appended call.args.Files 0 r ∧
          ∀ m, mapDoneAt c2 m = if m = m0 then true else mapDoneAt c m) ∨
       (rt2.files = rt.files ∧ (∀ m, mapDoneAt c2 m = mapDoneAt c m) ∧
          ∀ m : Nat, call.args.DoneType = TaskTypeMap → call.args.Id = (m : Int) →
            mapDoneAt c m = true)) := by
  obtain ⟨c1, h1, h2⟩ := (GetTask_eq_some c call.args call.reply call.now c2 r0).mp hg
  obtain ⟨rt1, hrt1, hcase⟩ := applyReport_shuffle_step c c1 call.args r rt h1 hrt
  have hf := pickTask_files c1 call.reply call.now
  have hdn := (pickTask_done c1 call.reply call.now).1
  rw [h2] at hf hdn
  obtain ⟨rt2, hrt2, e⟩ := getElem?_of_map_eq (fun t : ReduceTask => t.files) c2.reduceTasks
    c1.reduceTasks r rt1 hf hrt1
  have hd2 := mapDoneAt_of_map_eq c1 c2 hdn
  refine ⟨rt2, hrt2, ?_⟩
  rcases hcase with ⟨m0, a, b, d, f, g, k⟩ | ⟨a, b, d⟩
  · exact Or.inl ⟨m0, a, b, d, f, e.trans g, fun m => (hd2 m).trans (k m)⟩
  · exact Or.inr ⟨e.trans a, fun m => (hd2 m).trans (b m), d⟩

theorem run_shuffle (r : Nat) :
    ∀ (calls : List Call) (c c3 : Coordinator) (rs : List TaskReply) (rt rt3 : ReduceTask),
      run c calls = some (c3, rs) → c.reduceTasks[r]? = some rt →
      c3.reduceTasks[r]? = some rt3 →
      List.Perm rt3.files
        (rt.files ++ pendingShuffle (mapDoneAt c) calls r c.mapTasks.length) := by
  intro calls
  induction calls with
  | nil =>
    intro c c3 rs rt rt3 h hrt hrt3
    simp only [run, Option.some.injEq, Prod.mk.injEq] at h
    rw [← h.1, hrt] at hrt3
    simp only [Option.some.injEq] at hrt3
    subst hrt3
    have e : pendingShuffle (mapDoneAt c) [] r c.mapTasks.length = [] := by
      generalize c.mapTasks.length = M
      induction M with
      | zero => rfl
      | succ M ih =>
        simp only [pendingShuffle, ih, firstMapReport, partitionEntry, List.nil_append]
        split <;> rfl
    rw [e, List.append_nil]
  | cons call rest ih =>
    intro c c3 rs rt rt3 h hrt hrt3
    obtain ⟨c2, r0, rs1, hg, hrun, _⟩ := (run_cons_eq_some c call rest c3 rs).mp h
    obtain ⟨rt2, hrt2, hcase⟩ := GetTask_shuffle_step c c2 call r0 r rt hg hrt
    have hlen := (GetTask_length c call.args call.reply call.now c2 r0 hg).1
    have hih := ih c2 c3 rs1 rt2 rt3 hrun hrt2 hrt3
    rw [hlen] at hih
    rcases hcase with ⟨m0, hty, hid, hlt, hd, hfiles, hdone⟩ | ⟨hfiles, hdone, hdup⟩
    · have hp := (pendingShuffle_accept (mapDoneAt c) call rest r m0 hty hid hd
        c.mapTasks.length).2 hlt
      have hd2 : pendingShuffle (mapDoneAt c2) rest r c.mapTasks.length =
          pendingShuffle (fun m => if m = m0 then true else mapDoneAt c m) rest r
            c.mapTasks.length :=
        pendingShuffle_congr _ _ rest rest r _ (fun m _ => hdone m) (fun _ _ _ => rfl)
      rw [hd2, hfiles, List.append_assoc] at hih
      exact hih.trans (List.Perm.append_left _ hp.symm)
    · have hd2 : pendingShuffle (mapDoneAt c2) rest r c.mapTasks.length =
          pendingShuffle (mapDoneAt c) (call :: rest) r c.mapTasks.length := by
        apply pendingShuffle_congr
        · intro m _; exact hdone m
        · intro m _ hm
          rw [hdone m] at hm
          rw [firstMapReport_cons_of_ne m call rest]
          rintro ⟨hty, hid⟩
          rw [hdup m hty hid] at hm
          cases hm
      rw [hd2, hfiles] at hih
      exact hih

theorem run_snoc :
    ∀ (calls : List Call) (c c2 c3 : Coordinator) (rs : List TaskReply) (call : Call)
      (r : TaskReply),
      run c calls = some (c2, rs) →
      GetTask c2 call.args call.reply call.now = some (c3, r) →
      run c (calls ++ [call]) = some (c3, rs ++ [r]) := by
  intro calls
  induction calls with
  | nil =>
    intro c c2 c3 rs call r h hg
    simp only [run, Option.some.injEq, Prod.mk.injEq] at h
    rw [← h.1] at hg
    rw [← h.2]
    exact (run_cons_eq_some _ _ _ _ _).mpr ⟨c3, r, [], hg, rfl, rfl⟩
  | cons x rest ih =>
    intro c c2 c3 rs call r h hg
    obtain ⟨c1, r1, rs1, hg1, hrun, e⟩ := (run_cons_eq_some c x rest c2 rs).mp h
    have := ih c1 c2 c3 rs1 call r hrun hg
    rw [e]
    exact (run_cons_eq_some _ _ _ _ _).mpr ⟨c1, r1, rs1 ++ [r], hg1, this, rfl⟩

theorem firstMapReport_isSome (m : Nat) :
    ∀ calls : List Call,
      (∃ call ∈ calls, call.args.DoneType = TaskTypeMap ∧ call.args.Id = (m : Int)) →
      ∃ fs, firstMapReport m calls = some fs := by
  intro calls
  induction calls with
  | nil => rintro ⟨x, hx, _⟩; cases hx
  | cons call rest ih =>
    rintro ⟨x, hx, hxr⟩
    by_cases hc : call.args.DoneType = TaskTypeMap ∧ call.args.Id = (m : Int)
    · exact ⟨_, firstMapReport_cons_of_eq m call rest hc⟩
    · rw [firstMapReport_cons_of_ne m call rest hc]
      rcases List.mem_cons.mp hx with e | hx
      · subst e; exact absurd hxr hc
      · exact ih ⟨x, hx, hxr⟩

theorem string_eq_empty_of_length (p : String) (h : p.length = 0) : p = "" := by
  cases p with
  | mk data =>
    simp only [String.length, List.length_eq_zero] at h
    subst h
    rfl

theorem mem_expectedShuffle (calls : List Call) (r : Nat) (p : String) :
    ∀ (M m : Nat) (fs : List String), m < M → firstMapReport m calls = some fs →
      fs[r]? = some p → p ≠ "" → p ∈ expectedShuffle calls r M := by
  intro M
  induction M with
  | zero => intro m _ hm; exact absurd hm (Nat.not_lt_zero _)
  | succ M ih =>
    intro m fs hm hfs hp hne
    simp only [expectedShuffle, List.mem_append]
    by_cases e : m = M
    · subst e
      right
      have hl : 0 < p.length := by
        rcases Nat.eq_zero_or_pos p.length with h0 | h0
        · exact absurd (string_eq_empty_of_length p h0) hne
        · exact h0
      rw [hfs]
      simp only [partitionEntry]
      rw [appended_zero_of_getElem? fs r p hp hl]
      exact List.mem_singleton.mpr rfl
    · left
      exact ih m fs (by omega) hfs hp hne

/-- C11: the complete shuffle at a reduce assignment.  In an execution from
`MakeCoordinator` with `M` input files, whenever a call of `GetTask` replies
`{Reduce, id = r, files}`, `files` is `reduceTasks[r].files`; every one of the `M` map tasks
has a first (accepted) completion report among the calls made so far, this one included; and
`files` is, up to order, the list that holds for each map task the non-empty `files[r]` of
that first report: one entry per map task that reported a non-empty path for partition `r`,
none missing. -/
theorem reduce_reply_complete_shuffle (files : List String) (nReduce : Int)
    (c0 c c2 : Coordinator) (calls : List Call) (rs : List TaskReply) (call : Call)
    (r : TaskReply) (j : Nat)
    (hmk : MakeCoordinator files nReduce = some c0) (hrun : run c0 calls = some (c, rs))
    (hg : GetTask c call.args call.reply call.now = some (c2, r))
    (hty : r.Type_ = TaskTypeReduce) (hj : r.Id = (j : Int)) :
    (∃ rt : ReduceTask, c2.reduceTasks[j]? = some rt ∧ r.Files = rt.files) ∧
    (∀ m : Nat, m < files.length → ∃ fs, firstMapReport m (calls ++ [call]) = some fs) ∧
    List.Perm r.Files (expectedShuffle (calls ++ [call]) j files.length) ∧
    (∀ (m : Nat) (fs : List String) (p : String), m < files.length →
      firstMapReport m (calls ++ [call]) = some fs → fs[j]? = some p → p ≠ "" →
      p ∈ r.Files) := by
  have hrun2 := run_snoc calls c0 c c2 rs call r hrun hg
  have hid := run_ids files nReduce c0 c calls rs hmk hrun
  have hcnt2 := run_counters files nReduce c0 c2 (calls ++ [call]) (rs ++ [r]) hmk hrun2
  obtain ⟨hM0, _⟩ := MakeCoordinator_length files nReduce c0 hmk
  obtain ⟨hfm, hfr⟩ := MakeCoordinator_fresh files nReduce c0 hmk
  -- the reply and the reduce task it names
  obtain ⟨hm2, u, hu, _, _⟩ := GetTask_reduce_assigned c c2 call.args call.reply r call.now j
    hid hg hty hj
  obtain ⟨c1, h1, h2⟩ := (GetTask_eq_some c call.args call.reply call.now c2 r).mp hg
  obtain ⟨_, _, idx, t, hscan, e2, er⟩ := pickTask_reduce c1 c2 call.reply r call.now h2 hty
  have hidx := (scanTasks_some _ _ _ _ hscan).1
  have hij : idx = j := by
    have := (applyReport_ids c c1 call.args h1 hid).2 idx t hidx
    rw [er] at hj
    simp only at hj
    omega
  subst hij
  have hfiles : r.Files = u.files := by
    rw [e2] at hu
    simp only at hu
    rw [getElem?_set_same _ _ t _ hidx] at hu
    simp only [Option.some.injEq] at hu
    rw [er, ← hu]
  -- the shuffle
  have hlt0 : idx < c0.reduceTasks.length := by
    rw [← (run_length _ _ _ _ hrun2).2]
    exact (List.getElem?_eq_some_iff.mp hu).1
  have hperm := run_shuffle idx (calls ++ [call]) c0 c2 (rs ++ [r]) _ u hrun2
    (List.getElem?_eq_getElem hlt0) hu
  have hnil : (c0.reduceTasks[idx]).files = [] := (hfr _ (List.getElem_mem _)).2.2
  have hpend : pendingShuffle (mapDoneAt c0) (calls ++ [call]) idx c0.mapTasks.length =
      expectedShuffle (calls ++ [call]) idx files.length := by
    rw [← pendingShuffle_false, hM0]
    apply pendingShuffle_congr
    · intro m _
      unfold mapDoneAt
      cases hm : c0.mapTasks[m]? with
      | none => rfl
      | some t0 => exact (hfm t0 (List.getElem?_mem hm)).1
    · intro _ _ _; rfl
  rw [hnil, List.nil_append, hpend, ← hfiles] at hperm
  -- every map task has been reported
  have hall : ∀ m : Nat, m < files.length →
      ∃ fs, firstMapReport m (calls ++ [call]) = some fs := by
    intro m hm
    apply firstMapReport_isSome
    by_contra hno
    have hlt : m < c0.mapTasks.length := by omega
    obtain ⟨u3, hu3, _, q⟩ := run_map_done_at m (calls ++ [call]) c0 c2 (rs ++ [r]) _ hrun2
      (List.getElem?_eq_getElem hlt)
    have hnd : u3.done = false := by
      rw [q (fun x hx hxr => hno ⟨x, hx, hxr⟩)]
      exact (hfm _ (List.getElem_mem _)).1
    have := all_done_of_mapRemain c2 hcnt2 hm2 u3 (List.getElem?_mem hu3)
    rw [hnd] at this
    cases this
  refine ⟨⟨u, hu, hfiles⟩, hall, hperm, ?_⟩
  intro m fs p hm hfs hp hne
  exact hperm.symm.subset (mem_expectedShuffle _ _ _ _ m fs hm hfs hp hne)

theorem reduce_reply_complete_shuffle_witness :
    MakeCoordinator ["x", "y"] 2 = some sampleStart ∧
    run sampleStart sampleMapReports =
      some (sampleReducePhase,
        [{ Type_ := TaskTypeMap, Id := 1, Files := ["y"], NReduce := 2 },
         { Type_ := TaskTypeReduce, Id := 0, Files := ["mr-0-0", "mr-1-0"], NReduce := 0 }]) ∧
    GetTask sampleReducePhase firstContact zeroReply (103 * Second) =
      some (sampleReduceAssigned,
        { Type_ := TaskTypeReduce, Id := 1, Files := ["mr-1-1"], NReduce := 0 }) ∧
    List.Perm ["mr-1-1"]
      (expectedShuffle
        (sampleMapReports ++ [{ args := firstContact, reply := zeroReply, now := 103 * Second }])
        1 2) :=
  ⟨by decide, by decide, by decide,
   (reduce_reply_complete_shuffle ["x", "y"] 2 sampleStart sampleReducePhase
      sampleReduceAssigned sampleMapReports
      [{ Type_ := TaskTypeMap, Id := 1, Files := ["y"], NReduce := 2 },
       { Type_ := TaskTypeReduce, Id := 0, Files := ["mr-0-0", "mr-1-0"], NReduce := 0 }]
      { args := firstContact, reply := zeroReply, now := 103 * Second }
      { Type_ := TaskTypeReduce, Id := 1, Files := ["mr-1-1"], NReduce := 0 } 1
      (by decide) (by decide) (by decide) rfl rfl).2.2.1⟩

/-! ## `ihash` -/

theorem fnvWrite_eq_foldl (data : List UInt8) :
    ∀ h : Nat, fnvWrite h data =
      data.foldl (fun h b => ((h ^^^ b.toNat) * 16777619) % 2 ^ 32) h := by
  induction data with
  | nil => intro h; rfl
  | cons c rest ih => intro h; simp only [fnvWrite, List.foldl_cons, ih]

theorem ihash_nonneg (key : String) : 0 ≤ ihash key := by
  unfold ihash
  exact Int.ofNat_nonneg _

theorem ihash_lt (key : String) : ihash key < 2 ^ 31 := by
  unfold ihash
  have h : (fnvSum32 (fnvWrite fnvNew32a (keyBytes key)) &&& 0x7fffffff) < 2 ^ 31 :=
    Nat.and_lt_two_pow _ (by norm_num)
  exact_mod_cast h

theorem goMod_ihash (key : String) (n : Int) (hn : 1 ≤ n) :
    ∃ idx : Int, goMod (ihash key) n = some idx ∧ 0 ≤ idx ∧ idx < n ∧
      idx = ihash key % n := by
  have hne : ¬ n = 0 := by omega
  refine ⟨Int.tmod (ihash key) n, by simp only [goMod, hne, if_false],
    Int.tmod_nonneg n (ihash_nonneg key), Int.tmod_lt_of_pos _ (by omega),
    Int.tmod_eq_emod (ihash_nonneg key) (by omega)⟩

/-- C15: `ihash(key)` is the 32-bit FNV-1a hash of the key's bytes (offset basis 2166136261,
for each byte xor then multiply by 16777619 modulo 2^32), bitwise-ANDed with `0x7fffffff`;
hence `0 ≤ ihash(key) < 2^31`, and for every `n ≥ 1` Go's `ihash(key) % n` does not panic
and lies in `[0, n)`. -/
theorem ihash_is_masked_fnv1a (key : String) :
    ihash key = ((fnv1a32 (keyBytes key) &&& 0x7fffffff : Nat) : Int) ∧
    0 ≤ ihash key ∧ ihash key < 2 ^ 31 ∧
    ∀ n : Int, 1 ≤ n → ∃ idx : Int, goMod (ihash key) n = some idx ∧ 0 ≤ idx ∧ idx < n := by
  refine ⟨?_, ihash_nonneg key, ihash_lt key, ?_⟩
  · simp only [ihash, fnvSum32, fnvNew32a, fnv1a32, fnvWrite_eq_foldl]
  · intro n hn
    obtain ⟨idx, a, b, c, _⟩ := goMod_ihash key n hn
    exact ⟨idx, a, b, c⟩

theorem ihash_is_masked_fnv1a_witness :
    ihash "a" = 1678518572 ∧ (1 : Int) ≤ 10 ∧
    ∃ idx : Int, goMod (ihash "a") 10 = some idx ∧ 0 ≤ idx ∧ idx < 10 :=
  ⟨by decide, by decide, (ihash_is_masked_fnv1a "a").2.2.2 10 (by decide)⟩

/-! ## The buckets of a Map task -/

theorem Buckets.get_put (b : Buckets) (idx j : Int) (v : List KeyValue) :
    (b.put idx v).get j = if j = idx then v else b.get j := by
  induction b with
  | nil =>
    by_cases h : idx = j
    · subst h; simp [Buckets.put, Buckets.get]
    · have h' : ¬ j = idx := fun e => h e.symm
      simp [Buckets.put, Buckets.get, h, h']
  | cons x rest ih =>
    obtain ⟨k, old⟩ := x
    by_cases hk : k = idx
    · subst hk
      by_cases hj : j = k
      · subst hj; simp [Buckets.put, Buckets.get]
      · have hj' : ¬ k = j := fun e => hj e.symm
        simp [Buckets.put, Buckets.get, hj, hj']
    · by_cases hj : k = j
      · subst hj
        simp [Buckets.put, Buckets.get, hk]
      · simp only [Buckets.put, hk, if_false, Buckets.get, hj, ih]

theorem Buckets.mem_keys_put (b : Buckets) (idx k : Int) (v : List KeyValue) :
    k ∈ (b.put idx v).map Prod.fst ↔ k = idx ∨ k ∈ b.map Prod.fst := by
  induction b with
  | nil => simp [Buckets.put]
  | cons x rest ih =>
    obtain ⟨k0, old⟩ := x
    by_cases hk : k0 = idx
    · subst hk
      simp [Buckets.put]
    · simp only [Buckets.put, hk, if_false, List.map_cons, List.mem_cons, ih]
      tauto

theorem Buckets.nodup_put (b : Buckets) (idx : Int) (v : List KeyValue)
    (h : (b.map Prod.fst).Nodup) : ((b.put idx v).map Prod.fst).Nodup := by
  induction b with
  | nil => simp [Buckets.put]
  | cons x rest ih =>
    obtain ⟨k0, old⟩ := x
    simp only [List.map_cons, List.nodup_cons] at h
    by_cases hk : k0 = idx
    · subst hk
      simp only [Buckets.put, if_true, List.map_cons, List.nodup_cons]
      exact h
    · simp only [Buckets.put, hk, if_false, List.map_cons, List.nodup_cons]
      refine ⟨?_, ih h.2⟩
      rw [Buckets.mem_keys_put]
      rintro (e | e)
      · exact hk e
      · exact h.1 e

theorem Buckets.flat_put (b : Buckets) (idx : Int) (kv : KeyValue) :
    List.Perm ((b.put idx (b.get idx ++ [kv])).flatMap Prod.snd)
      (b.flatMap Prod.snd ++ [kv]) := by
  induction b with
  | nil => simp [Buckets.put, Buckets.get]
  | cons x rest ih =>
    obtain ⟨k0, old⟩ := x
    by_cases hk : k0 = idx
    · subst hk
      simp only [Buckets.put, Buckets.get, if_true, List.flatMap_cons, List.append_assoc]
      exact List.Perm.append_left _ List.perm_append_comm
    · simp only [Buckets.put, Buckets.get, hk, if_false, List.flatMap_cons,
        List.append_assoc]
      exact List.Perm.append_left _ ih

theorem Buckets.get_of_mem (b : Buckets) (idx : Int) (kvs : List KeyValue)
    (hn : (b.map Prod.fst).Nodup) (h : (idx, kvs) ∈ b) : b.get idx = kvs := by
  induction b with
  | nil => cases h
  | cons x rest ih =>
    obtain ⟨k0, old⟩ := x
    simp only [List.map_cons, List.nodup_cons] at hn
    rcases List.mem_cons.mp h with e | e
    · simp only [Prod.mk.injEq] at e
      obtain ⟨e1, e2⟩ := e
      subst e1; subst e2
      simp [Buckets.get]
    · have hne : ¬ k0 = idx := by
        intro e'
        subst e'
        exact hn.1 (List.mem_map.mpr ⟨(k0, kvs), e, rfl⟩)
      simp only [Buckets.get, hne, if_false]
      exact ih hn.2 e

theorem partitionLoop_spec (nReduce : Int) (hn : 1 ≤ nReduce) :
    ∀ (rest : List KeyValue) (b : Buckets),
      ∃ b' : Buckets, partitionLoop nReduce b rest = some b' ∧
        (∀ idx : Int, b'.get idx =
          b.get idx ++ rest.filter (fun kv => decide (ihash kv.Key % nReduce = idx))) ∧
        ((b.map Prod.fst).Nodup → (b'.map Prod.fst).Nodup) ∧
        (∀ k : Int, k ∈ b'.map Prod.fst ↔
          k ∈ b.map Prod.fst ∨ ∃ kv ∈ rest, ihash kv.Key % nReduce = k) ∧
        List.Perm (b'.flatMap Prod.snd) (b.flatMap Prod.snd ++ rest) := by
  intro rest
  induction rest with
  | nil =>
    intro b
    exact ⟨b, rfl, by simp, fun h => h, by simp, by simp⟩
  | cons kv rest ih =>
    intro b
    obtain ⟨idx, hmod, _, _, hidx⟩ := goMod_ihash kv.Key nReduce hn
    obtain ⟨b', hb', hget, hnd, hkeys, hperm⟩ := ih (b.put idx (b.get idx ++ [kv]))
    refine ⟨b', by simp only [partitionLoop, hmod, hb'], ?_, ?_, ?_, ?_⟩
    · intro j
      rw [hget j, Buckets.get_put]
      by_cases hj : j = idx
      · subst hj
        simp [List.filter_cons, hidx]
      · have hj' : ¬ ihash kv.Key % nReduce = j := by
          rw [← hidx]; exact fun e => hj e.symm
        simp [List.filter_cons, hj, hj']
    · intro h
      exact hnd (Buckets.nodup_put b idx _ h)
    · intro k
      rw [hkeys k, Buckets.mem_keys_put]
      constructor
      · rintro ((e | e) | ⟨x, hx, e⟩)
        · exact Or.inr ⟨kv, List.mem_cons_self _ _, by rw [e, hidx]⟩
        · exact Or.inl e
        · exact Or.inr ⟨x, List.mem_cons_of_mem _ hx, e⟩
      · rintro (e | ⟨x, hx, e⟩)
        · exact Or.inl (Or.inr e)
        · rcases List.mem_cons.mp hx with e' | e'
          · subst e'
            exact Or.inl (Or.inl (by rw [← e, hidx]))
          · exact Or.inr ⟨x, e', e⟩
    · refine hperm.trans ?_
      have := Buckets.flat_put b idx kv
      refine (List.Perm.append_right rest this).trans ?_
      simp

/-- C12: map partitioning.  For every map output and every `nReduce ≥ 1` the partition
loop returns buckets `b` with distinct indices such that: every bucket index lies in
`[0, nReduce)` and the bucket is not empty and holds only records whose
`ihash(key) mod nReduce` is that index; every emitted record is in the bucket
`ihash(key) mod nReduce`, which lies in `[0, nReduce)`; the bucket of an index is exactly
the sub-list of the records of that partition, in emission order; and the buckets together
are a permutation of the map output. -/
theorem partition_buckets (nReduce : Int) (intermediate : List KeyValue) (hn : 1 ≤ nReduce) :
    ∃ b : Buckets, partitionLoop nReduce [] intermediate = some b ∧
      (b.map Prod.fst).Nodup ∧
      (∀ (idx : Int) (kvs : List KeyValue), (idx, kvs) ∈ b →
        0 ≤ idx ∧ idx < nReduce ∧ kvs ≠ [] ∧ ∀ kv ∈ kvs, ihash kv.Key % nReduce = idx) ∧
      (∀ kv ∈ intermediate, kv ∈ b.get (ihash kv.Key % nReduce) ∧
        0 ≤ ihash kv.Key % nReduce ∧ ihash kv.Key % nReduce < nReduce) ∧
      (∀ idx : Int, b.get idx =
        intermediate.filter (fun kv => decide (ihash kv.Key % nReduce = idx))) ∧
      List.Perm (b.flatMap Prod.snd) intermediate := by
  obtain ⟨b, hb, hget, hnd, hkeys, hperm⟩ := partitionLoop_spec nReduce hn intermediate []
  have hnodup : (b.map Prod.fst).Nodup := hnd (by simp)
  have hget' : ∀ idx : Int, b.get idx =
      intermediate.filter (fun kv => decide (ihash kv.Key % nReduce = idx)) := by
    intro idx
    rw [hget idx]
    simp [Buckets.get]
  refine ⟨b, hb, hnodup, ?_, ?_, hget', by simpa using hperm⟩
  · intro idx kvs hmem
    have hk : idx ∈ b.map Prod.fst := List.mem_map.mpr ⟨(idx, kvs), hmem, rfl⟩
    obtain ⟨kv, hkv, e⟩ : ∃ kv ∈ intermediate, ihash kv.Key % nReduce = idx := by
      rcases (hkeys idx).mp hk with h | h
      · simp at h
      · exact h
    have hkvs : kvs = intermediate.filter (fun kv => decide (ihash kv.Key % nReduce = idx)) := by
      rw [← hget' idx, Buckets.get_of_mem b idx kvs hnodup hmem]
    refine ⟨by rw [← e]; exact Int.emod_nonneg _ (by omega),
      by rw [← e]; exact Int.emod_lt_of_pos _ (by omega), ?_, ?_⟩
    · intro hnil
      have : kv ∈ kvs := by
        rw [hkvs, List.mem_filter]
        exact ⟨hkv, by simpa using e⟩
      rw [hnil] at this
      cases this
    · intro x hx
      rw [hkvs, List.mem_filter] at hx
      simpa using hx.2
  · intro kv hkv
    refine ⟨?_, Int.emod_nonneg _ (by omega), Int.emod_lt_of_pos _ (by omega)⟩
    rw [hget', List.mem_filter]
    exact ⟨hkv, by simp⟩

theorem partition_buckets_witness :
    (1 : Int) ≤ 2 ∧
    partitionLoop 2 [] sampleIntermediate =
      some [(1, [{ Key := "cat", Value := "1" }, { Key := "dog", Value := "1" },
                 { Key := "cat", Value := "1" }]),
            (0, [{ Key := "a", Value := "1" }])] ∧
    ∃ b : Buckets, partitionLoop 2 [] sampleIntermediate = some b ∧
      List.Perm (b.flatMap Prod.snd) sampleIntermediate := by
  obtain ⟨b, hb, _, _, _, _, hperm⟩ := partition_buckets 2 sampleIntermediate (by decide)
  exact ⟨by decide, by decide, b, hb, hperm⟩

/-! ## The report of a Map task -/

theorem reportLoop_spec (id : Int) :
    ∀ (b : Buckets) (files : List String),
      (∀ k ∈ b.map Prod.fst, 0 ≤ k ∧ k < (files.length : Int)) →
      ∃ files' : List String, reportLoop id files b = some files' ∧
        files'.length = files.length ∧
        ∀ r : Nat, r < files.length →
          ((r : Int) ∈ b.map Prod.fst → files'[r]? = some (intermediateName id r)) ∧
          ((r : Int) ∉ b.map Prod.fst → files'[r]? = files[r]?) := by
  intro b
  induction b with
  | nil =>
    intro files _
    exact ⟨files, rfl, rfl, fun r _ => ⟨fun h => by simp at h, fun _ => rfl⟩⟩
  | cons x rest ih =>
    intro files hk
    obtain ⟨rid, kvs⟩ := x
    obtain ⟨h0, h1⟩ := hk rid (by simp)
    have hin : ¬ (rid < 0 ∨ (files.length : Int) ≤ rid) := by omega
    obtain ⟨files', hf, hlen, hspec⟩ := ih (files.set rid.toNat (intermediateName id rid))
      (by
        intro k hkm
        have := hk k (by simp only [List.map_cons, List.mem_cons]; exact Or.inr hkm)
        simpa using this)
    refine ⟨files', by simp only [reportLoop, hin, if_false, hf], by simpa using hlen, ?_⟩
    intro r hr
    obtain ⟨a, b'⟩ := hspec r (by simpa using hr)
    by_cases hmem : (r : Int) ∈ rest.map Prod.fst
    · exact ⟨fun _ => a hmem, fun hn => absurd
        (by simp only [List.map_cons, List.mem_cons]; exact Or.inr hmem) hn⟩
    · have hb := b' hmem
      by_cases hrid : rid = (r : Int)
      · subst hrid
        refine ⟨fun _ => ?_, fun hn => absurd (by simp) hn⟩
        rw [hb]
        simp only [Int.toNat_ofNat]
        rw [List.getElem?_set]
        simp [hr]
      · have hne : rid.toNat ≠ r := by omega
        refine ⟨fun hm => ?_, fun _ => ?_⟩
        · simp only [List.map_cons, List.mem_cons] at hm
          rcases hm with e | e
          · exact absurd e.symm hrid
          · exact absurd e hmem
        · rw [hb, List.getElem?_set_ne hne]

/-- C13, as the code has it: `make([]string, NReduce)` has an upper limit.  For every Map
assignment `{id, nReduce}` with `nReduce ≥ 1` and every map output: if `nReduce` is no
larger than `maxLen`, the longest `[]string` the runtime can make, the worker builds the
report `{Map, id, files}` where `files` has length exactly `nReduce` and, for every `r` in
`[0, nReduce)`, `files[r]` is the name `mr-<id>-<r>` if at least one emitted record has
`ihash(key) mod nReduce = r`, and the empty string otherwise; if `nReduce` is larger, the
worker panics and builds no report. -/
theorem workerMap_report_shape (maxLen : Nat) (id nReduce : Int)
    (intermediate : List KeyValue) (hn : 1 ≤ nReduce) :
    (nReduce ≤ (maxLen : Int) →
      ∃ files : List String,
        workerMap maxLen id nReduce intermediate =
          some { DoneType := TaskTypeMap, Id := id, Files := files } ∧
        (files.length : Int) = nReduce ∧
        ∀ r : Nat, (r : Int) < nReduce →
          ((∃ kv ∈ intermediate, ihash kv.Key % nReduce = (r : Int)) →
            files[r]? = some ("mr-" ++ toString id ++ "-" ++ toString (r : Int))) ∧
          ((¬ ∃ kv ∈ intermediate, ihash kv.Key % nReduce = (r : Int)) →
            files[r]? = some "")) ∧
    ((maxLen : Int) < nReduce → workerMap maxLen id nReduce intermediate = none) := by
  obtain ⟨b, hb, _, _, hkeys, _⟩ := partitionLoop_spec nReduce hn intermediate []
  refine ⟨?_, ?_⟩
  · intro hmax
    have hkeys' : ∀ k : Int, k ∈ b.map Prod.fst ↔
        ∃ kv ∈ intermediate, ihash kv.Key % nReduce = k := by
      intro k
      rw [hkeys k]
      simp
    have hlen0 : ((List.replicate nReduce.toNat "").length : Int) = nReduce := by
      simp only [List.length_replicate]
      omega
    obtain ⟨files, hf, hlen, hspec⟩ := reportLoop_spec id b (List.replicate nReduce.toNat "")
      (by
        intro k hk
        obtain ⟨kv, _, e⟩ := (hkeys' k).mp hk
        rw [hlen0, ← e]
        exact ⟨Int.emod_nonneg _ (by omega), Int.emod_lt_of_pos _ (by omega)⟩)
    have hneg : ¬ (nReduce < 0 ∨ (maxLen : Int) < nReduce) := by omega
    refine ⟨files, by simp only [workerMap, hb, hneg, if_false, hf],
      by rw [hlen]; exact hlen0, ?_⟩
    intro r hr
    have hr' : r < (List.replicate nReduce.toNat "").length := by
      simp only [List.length_replicate]
      omega
    obtain ⟨a, b'⟩ := hspec r hr'
    refine ⟨fun h => a ((hkeys' r).mpr h), fun h => ?_⟩
    rw [b' (fun hm => h ((hkeys' r).mp hm))]
    simp only [List.length_replicate] at hr'
    simp [List.getElem?_replicate, hr']
  · intro hmax
    have hbig : nReduce < 0 ∨ (maxLen : Int) < nReduce := Or.inr hmax
    simp only [workerMap, hb, hbig, if_true]

theorem workerMap_report_shape_witness :
    (1 : Int) ≤ 4 ∧ (4 : Int) ≤ (maxStringsLinux64 : Int) ∧
    workerMap maxStringsLinux64 3 4 sampleIntermediate =
      some { DoneType := TaskTypeMap, Id := 3, Files := ["mr-3-0", "mr-3-1", "", "mr-3-3"] } ∧
    ∃ files : List String,
      workerMap maxStringsLinux64 3 4 sampleIntermediate =
        some { DoneType := TaskTypeMap, Id := 3, Files := files } ∧
      (files.length : Int) = 4 := by
  obtain ⟨files, hf, hlen, _⟩ :=
    (workerMap_report_shape maxStringsLinux64 3 4 sampleIntermediate (by decide)).1 (by decide)
  exact ⟨by decide, by decide, by decide, files, hf, hlen⟩

/-- C13 as stated fails on the code: the Map assignment `{id = 3, nReduce = 2^62}` has
`nReduce ≥ 1`, and the worker, on 64-bit Linux, panics in `make([]string, NReduce)` and
builds no report. -/
theorem workerMap_report_shape_counterexample :
    (1 : Int) ≤ 2 ^ 62 ∧
    workerMap maxStringsLinux64 3 (2 ^ 62) sampleIntermediate = none := by
  refine ⟨by decide, ?_⟩
  obtain ⟨b, hb, _⟩ := partitionLoop_spec (2 ^ 62) (by decide) sampleIntermediate []
  have hbig : (2 ^ 62 : Int) < 0 ∨ (maxStringsLinux64 : Int) < 2 ^ 62 :=
    Or.inr (by decide)
  simp only [workerMap, hb, hbig, if_true]

/-! ## The output of a Reduce task -/

theorem reduceLoop_cons {β : Type} (f : String → List String → β) (kv : KeyValue)
    (rest : List KeyValue) :
    reduceLoop f (kv :: rest) =
      f kv.Key
          (kv.Value :: (rest.takeWhile fun x => decide (x.Key = kv.Key)).map fun x => x.Value) ::
        reduceLoop f (rest.dropWhile fun x => decide (x.Key = kv.Key)) := by
  rw [reduceLoop]

theorem reduceLoop_nil {β : Type} (f : String → List String → β) : reduceLoop f [] = [] := by
  rw [reduceLoop]

theorem reduceLoop_map {β : Type} (f : String → List String → β) :
    ∀ (n : Nat) (l : List KeyValue), l.length ≤ n →
      reduceLoop f l = (reduceLoop (fun k vs => (k, vs)) l).map fun g => f g.1 g.2 := by
  intro n
  induction n with
  | zero =>
    intro l hl
    have : l = [] := List.length_eq_zero.mp (by omega)
    subst this
    simp [reduceLoop_nil]
  | succ n ih =>
    intro l hl
    cases l with
    | nil => simp [reduceLoop_nil]
    | cons kv rest =>
      have hlen : (rest.dropWhile fun x => decide (x.Key = kv.Key)).length ≤ n := by
        have := (List.dropWhile_sublist (fun x : KeyValue => decide (x.Key = kv.Key))
          (l := rest)).length_le
        simp only [List.length_cons] at hl
        omega
      rw [reduceLoop_cons, reduceLoop_cons, List.map_cons, ← ih _ hlen]

theorem span_sorted (key : String) :
    ∀ rest : List KeyValue, (∀ x ∈ rest, key ≤ x.Key) →
      List.Pairwise (fun a b : KeyValue => a.Key ≤ b.Key) rest →
      (∀ x ∈ rest.takeWhile fun x => decide (x.Key = key), x.Key = key) ∧
      (∀ x ∈ rest.dropWhile fun x => decide (x.Key = key), key < x.Key) := by
  intro rest
  induction rest with
  | nil => intro _ _; simp
  | cons x xs ih =>
    intro hge hp
    rw [List.pairwise_cons] at hp
    by_cases hx : x.Key = key
    · obtain ⟨a, b⟩ := ih (fun y hy => hge y (List.mem_cons_of_mem _ hy)) hp.2
      simp only [List.takeWhile_cons, List.dropWhile_cons, hx, decide_True, if_true,
        List.mem_cons]
      refine ⟨?_, b⟩
      rintro y (e | e)
      · rw [e]; exact hx
      · exact a y e
    · simp only [List.takeWhile_cons, List.dropWhile_cons, hx, decide_False,
        Bool.false_eq_true, if_false]
      refine ⟨by simp, ?_⟩
      intro y hy
      have hxk : key < x.Key :=
        lt_of_le_of_ne (hge x (List.mem_cons_self _ _)) (fun e => hx e.symm)
      rcases List.mem_cons.mp hy with e | e
      · rw [e]; exact hxk
      · exact lt_of_lt_of_le hxk (hp.1 y e)

theorem filter_key_cons_sorted (kv : KeyValue) (rest : List KeyValue)
    (hge : ∀ x ∈ rest, kv.Key ≤ x.Key)
    (hp : List.Pairwise (fun a b : KeyValue => a.Key ≤ b.Key) rest) :
    (kv :: rest).filter (fun x => decide (x.Key = kv.Key)) =
      kv :: rest.takeWhile fun x => decide (x.Key = kv.Key) := by
  obtain ⟨a, b⟩ := span_sorted kv.Key rest hge hp
  have hsplit := List.takeWhile_append_dropWhile (fun x : KeyValue => decide (x.Key = kv.Key))
    rest
  have h1 : (rest.takeWhile fun x => decide (x.Key = kv.Key)).filter
      (fun x => decide (x.Key = kv.Key)) = rest.takeWhile fun x => decide (x.Key = kv.Key) := by
    rw [List.filter_eq_self]
    intro x hx
    simpa using a x hx
  have h2 : (rest.dropWhile fun x => decide (x.Key = kv.Key)).filter
      (fun x => decide (x.Key = kv.Key)) = [] := by
    rw [List.filter_eq_nil_iff]
    intro x hx
    have := b x hx
    simpa using ne_of_gt this
  have h3 : rest.filter (fun x => decide (x.Key = kv.Key)) =
      rest.takeWhile fun x => decide (x.Key = kv.Key) := by
    conv_lhs => rw [← hsplit]
    rw [List.filter_append, h1, h2, List.append_nil]
  rw [List.filter_cons]
  simp only [decide_True, if_true, h3]

theorem filter_key_of_lt (kv : KeyValue) (rest : List KeyValue) (k : String)
    (hge : ∀ x ∈ rest, kv.Key ≤ x.Key)
    (hp : List.Pairwise (fun a b : KeyValue => a.Key ≤ b.Key) rest) (hk : kv.Key < k) :
    (kv :: rest).filter (fun x => decide (x.Key = k)) =
      (rest.dropWhile fun x => decide (x.Key = kv.Key)).filter fun x => decide (x.Key = k) := by
  obtain ⟨a, _⟩ := span_sorted kv.Key rest hge hp
  have hsplit := List.takeWhile_append_dropWhile (fun x : KeyValue => decide (x.Key = kv.Key))
    rest
  have h1 : (rest.takeWhile fun x => decide (x.Key = kv.Key)).filter
      (fun x => decide (x.Key = k)) = [] := by
    rw [List.filter_eq_nil_iff]
    intro x hx
    have := a x hx
    rw [← this] at hk
    simpa using ne_of_lt hk
  have hne : ¬ kv.Key = k := ne_of_lt hk
  rw [List.filter_cons]
  simp only [hne, decide_False, Bool.false_eq_true, if_false]
  conv_lhs => rw [← hsplit]
  rw [List.filter_append, h1, List.nil_append]

theorem reduceLoop_spec :
    ∀ (n : Nat) (l : List KeyValue), l.length ≤ n →
      List.Pairwise (fun a b : KeyValue => a.Key ≤ b.Key) l →
      List.Pairwise (fun a b : String => a < b)
        ((reduceLoop (fun k vs => (k, vs)) l).map Prod.fst) ∧
      (∀ k : String, k ∈ (reduceLoop (fun k vs => (k, vs)) l).map Prod.fst ↔
        ∃ x ∈ l, x.Key = k) ∧
      (∀ g ∈ reduceLoop (fun k vs => (k, vs)) l,
        g.2 = (l.filter fun x => decide (x.Key = g.1)).map fun x => x.Value) := by
  intro n
  induction n with
  | zero =>
    intro l hl _
    have : l = [] := List.length_eq_zero.mp (by omega)
    subst this
    simp [reduceLoop_nil]
  | succ n ih =>
    intro l hl hp
    cases l with
    | nil => simp [reduceLoop_nil]
    | cons kv rest =>
      rw [List.pairwise_cons] at hp
      obtain ⟨hge, hpr⟩ := hp
      obtain ⟨hrun, hrem⟩ := span_sorted kv.Key rest hge hpr
      have hsub := List.dropWhile_sublist (fun x : KeyValue => decide (x.Key = kv.Key))
        (l := rest)
      have hlen : (rest.dropWhile fun x => decide (x.Key = kv.Key)).length ≤ n := by
        have := hsub.length_le
        simp only [List.length_cons] at hl
        omega
      obtain ⟨ih1, ih2, ih3⟩ := ih _ hlen (hpr.sublist hsub)
      have hsplit := List.takeWhile_append_dropWhile
        (fun x : KeyValue => decide (x.Key = kv.Key)) rest
      rw [reduceLoop_cons]
      refine ⟨?_, ?_, ?_⟩
      · simp only [List.map_cons, List.pairwise_cons]
        refine ⟨?_, ih1⟩
        intro k hk
        obtain ⟨x, hx, e⟩ := (ih2 k).mp hk
        rw [← e]
        exact hrem x hx
      · intro k
        simp only [List.map_cons, List.mem_cons]
        rw [ih2 k]
        constructor
        · rintro (e | ⟨x, hx, e⟩)
          · exact ⟨kv, Or.inl rfl, e.symm⟩
          · exact ⟨x, Or.inr (hsub.subset hx), e⟩
        · rintro ⟨x, hx | hx, e⟩
          · left; rw [← e, hx]
          · rw [← hsplit, List.mem_append] at hx
            rcases hx with hx | hx
            · left; rw [← e]; exact hrun x hx
            · right; exact ⟨x, hx, e⟩
      · intro g hg
        rcases List.mem_cons.mp hg with e | e
        · rw [e]
          simp only
          rw [filter_key_cons_sorted kv rest hge hpr, List.map_cons]
        · have hk : kv.Key < g.1 := by
            obtain ⟨x, hx, e'⟩ := (ih2 g.1).mp (List.mem_map.mpr ⟨g, e, rfl⟩)
            rw [← e']
            exact hrem x hx
          rw [filter_key_of_lt kv rest g.1 hge hpr hk]
          exact ih3 g e

/-- C14: the output of a Reduce task.  Let `sortByKey` meet the contract of `sort.Sort` on
the decoded records: its result is a permutation of them in which no record stands before
one that is `Less`.  Then the rounds of the worker are `calls`, the pairs `(key, values)`
handed to `reducef`, one call each, and: the lines written are, in order, one line
`"<key> <reducef(key, values)>\n"` per call; the keys of the calls are strictly ascending,
hence distinct; they are exactly the keys of the records; and the values of a call are a
permutation of the values of all the records with its key. -/
theorem reduce_output (sortByKey : List KeyValue → List KeyValue)
    (reducef : String → List String → String) (records : List KeyValue)
    (hperm : List.Perm (sortByKey records) records)
    (hsorted : List.Pairwise (fun a b => ByKey.Less b a = false) (sortByKey records)) :
    ∃ calls : List (String × List String),
      calls = reduceLoop (fun k vs => (k, vs)) (sortByKey records) ∧
      reduceLines reducef (sortByKey records) =
        calls.map (fun g => g.1 ++ " " ++ reducef g.1 g.2 ++ "\n") ∧
      List.Pairwise (fun a b : String => a < b) (calls.map Prod.fst) ∧
      (∀ k : String, k ∈ calls.map Prod.fst ↔ ∃ kv ∈ records, kv.Key = k) ∧
      (∀ g ∈ calls, List.Perm g.2
        ((records.filter fun kv => decide (kv.Key = g.1)).map fun kv => kv.Value)) := by
  have hs : List.Pairwise (fun a b : KeyValue => a.Key ≤ b.Key) (sortByKey records) := by
    refine hsorted.imp ?_
    intro a b h
    simp only [ByKey.Less, decide_eq_false_iff_not, not_lt] at h
    exact h
  obtain ⟨h1, h2, h3⟩ := reduceLoop_spec _ (sortByKey records) (Nat.le_refl _) hs
  refine ⟨_, rfl, ?_, h1, ?_, ?_⟩
  · unfold reduceLines
    exact reduceLoop_map _ _ (sortByKey records) (Nat.le_refl _)
  · intro k
    rw [h2 k]
    constructor
    · rintro ⟨x, hx, e⟩
      exact ⟨x, hperm.subset hx, e⟩
    · rintro ⟨x, hx, e⟩
      exact ⟨x, hperm.symm.subset hx, e⟩
  · intro g hg
    rw [h3 g hg]
    exact (hperm.filter _).map _

theorem insertionSortByKey_sorted (l : List KeyValue) :
    List.Pairwise (fun a b => ByKey.Less b a = false) (insertionSortByKey l) := by
  haveI : IsTotal KeyValue (fun a b => a.Key ≤ b.Key) := ⟨fun a b => le_total a.Key b.Key⟩
  haveI : IsTrans KeyValue (fun a b => a.Key ≤ b.Key) := ⟨fun _ _ _ => le_trans⟩
  have h : List.Pairwise (fun a b : KeyValue => a.Key ≤ b.Key) (insertionSortByKey l) :=
    List.sorted_insertionSort (fun a b : KeyValue => a.Key ≤ b.Key) l
  refine h.imp ?_
  intro a b hab
  simp only [ByKey.Less, decide_eq_false_iff_not, not_lt]
  exact hab

theorem reduce_output_witness :
    List.Perm (insertionSortByKey sampleIntermediate) sampleIntermediate ∧
    List.Pairwise (fun a b => ByKey.Less b a = false) (insertionSortByKey sampleIntermediate) ∧
    ∃ calls : List (String × List String),
      calls = reduceLoop (fun k vs => (k, vs)) (insertionSortByKey sampleIntermediate) ∧
      reduceLines countValues (insertionSortByKey sampleIntermediate) =
        calls.map (fun g => g.1 ++ " " ++ countValues g.1 g.2 ++ "\n") ∧
      List.Pairwise (fun a b : String => a < b) (calls.map Prod.fst) ∧
      (∀ k : String, k ∈ calls.map Prod.fst ↔ ∃ kv ∈ sampleIntermediate, kv.Key = k) ∧
      (∀ g ∈ calls, List.Perm g.2
        ((sampleIntermediate.filter fun kv => decide (kv.Key = g.1)).map fun kv => kv.Value)) :=
  have hp : List.Perm (insertionSortByKey sampleIntermediate) sampleIntermediate :=
    List.perm_insertionSort _ _
  have hs : List.Pairwise (fun a b => ByKey.Less b a = false)
      (insertionSortByKey sampleIntermediate) := insertionSortByKey_sorted _
  ⟨hp, hs, reduce_output insertionSortByKey countValues sampleIntermediate hp hs⟩

/-! ## Decode errors in a Reduce task -/

/-- C16: the code on a failing input.  The second `Decode` on the only assigned file,
`mr-0-0`, fails with an error that is not the end of the stream.  The decode loop leaves by
`break` as it does at the end of a stream: the worker does not end abnormally, it writes the
output line of the one record decoded before the error, drops the record behind it, and
builds the report `{Reduce, 0, [mr-out-0]}`.  A file that cannot be opened, by contrast, is
fatal. -/
theorem workerReduce_corrupt_record_not_fatal :
    sampleOpen "mr-0-0" =
      some [DecodeResult.record { Key := "b", Value := "1" }, DecodeResult.corrupt,
            DecodeResult.record { Key := "a", Value := "1" }] ∧
    workerReduce insertionSortByKey countValues sampleOpen 0 ["mr-0-0"] =
      some (["b 1\n"], { DoneType := TaskTypeReduce, Id := 0, Files := ["mr-out-0"] }) ∧
    workerReduce insertionSortByKey countValues sampleOpen 0 ["mr-1-0"] = none := by
  refine ⟨rfl, ?_, ?_⟩
  · have hread : readLoop sampleOpen [] ["mr-0-0"] = some [{ Key := "b", Value := "1" }] := by
      decide
    have hsort : insertionSortByKey [({ Key := "b", Value := "1" } : KeyValue)] =
        [{ Key := "b", Value := "1" }] := by
      decide
    simp only [workerReduce, hread, hsort, reduceLines, reduceLoop_cons, reduceLoop_nil,
      List.takeWhile_nil, List.dropWhile_nil, List.map_nil, countValues]
    decide
  · have hread : readLoop sampleOpen [] ["mr-1-0"] = none := by decide
    simp only [workerReduce, hread]

/-! ## Monotone flags, the frame of a report, index safety -/

/-- C17: `done` is monotone.  Every map task and every reduce task whose `done` flag is true
before a call of `GetTask` has `done = true` after it, and `Done()` leaves the state as it
is. -/
theorem GetTask_done_monotone (c c2 : Coordinator) (args : TaskArgs) (reply r : TaskReply)
    (now : Time) (h : GetTask c args reply now = some (c2, r)) :
    (∀ (i : Nat) (u : MapTask), c.mapTasks[i]? = some u → u.done = true →
      ∃ u2 : MapTask, c2.mapTasks[i]? = some u2 ∧ u2.done = true) ∧
    (∀ (i : Nat) (u : ReduceTask), c.reduceTasks[i]? = some u → u.done = true →
      ∃ u2 : ReduceTask, c2.reduceTasks[i]? = some u2 ∧ u2.done = true) ∧
    (DoneCall c).1 = c ∧ (DoneCall c).2 = Done c := by
  refine ⟨?_, ?_, rfl, rfl⟩
  · intro i u hu hd
    obtain ⟨u2, hu2, a, _, _⟩ := GetTask_map_done_at c c2 args reply r now i u h hu
    exact ⟨u2, hu2, a hd⟩
  · intro i u hu hd
    obtain ⟨u2, hu2, a, _, _⟩ := GetTask_reduce_done_at c c2 args reply r now i u h hu
    exact ⟨u2, hu2, a hd⟩

theorem GetTask_done_monotone_witness :
    GetTask sampleAfterMap0 firstContact zeroReply (101 * Second) =
      some ({ sampleAfterMap0 with
              mapTasks := [{ id := 0, file := "x", startAt := 0, done := true },
                           { id := 1, file := "y", startAt := 101 * Second, done := false }] },
            { Type_ := TaskTypeMap, Id := 1, Files := ["y"], NReduce := 2 }) ∧
    ∃ u2 : MapTask,
      ({ sampleAfterMap0 with
         mapTasks := [{ id := 0, file := "x", startAt := 0, done := true },
                      { id := 1, file := "y", startAt := 101 * Second, done := false }] }
        : Coordinator).mapTasks[0]? = some u2 ∧ u2.done = true :=
  ⟨by decide,
   (GetTask_done_monotone sampleAfterMap0 _ firstContact zeroReply
      { Type_ := TaskTypeMap, Id := 1, Files := ["y"], NReduce := 2 } (101 * Second)
      (by decide)).1 0 { id := 0, file := "x", startAt := 0, done := true } (by decide) rfl⟩

/-- C18: the frame of an accepted Map report.  Let `{Map, id, files}` be a report for a map
task that is not done, and let it apply.  Then for every reduce index `r`:
if `files[r]` is the empty string, or `files` has no entry `r`, `reduceTasks[r]` is unchanged;
if `files[r]` is a non-empty path `p`, `reduceTasks[r].files` gets `p` appended at its end and
nothing else about the task changes.  So a path goes to the list of its own index only. -/
theorem applyReport_partition_frame (c c1 : Coordinator) (id : Int) (files : List String)
    (t : MapTask) (h0 : 0 ≤ id) (ht : c.mapTasks[id.toNat]? = some t) (hd : t.done = false)
    (h : applyReport c { DoneType := TaskTypeMap, Id := id, Files := files } = some c1)
    (r : Nat) (rt : ReduceTask) (hrt : c.reduceTasks[r]? = some rt) :
    (files[r]? = some "" → c1.reduceTasks[r]? = some rt) ∧
    (files[r]? = none → c1.reduceTasks[r]? = some rt) ∧
    (∀ p : String, files[r]? = some p → p ≠ "" →
      c1.reduceTasks[r]? = some { rt with files := rt.files ++ [p] }) := by
  obtain ⟨rts, hr⟩ : ∃ rts, rangeFiles c.reduceTasks 0 files = some rts := by
    cases hr : rangeFiles c.reduceTasks 0 files with
    | none =>
      have hneg : ¬ id < 0 := by omega
      simp [applyReport, hneg, ht, hd, hr] at h
    | some rts => exact ⟨rts, rfl⟩
  rw [applyReport_map_fresh c id files t rts h0 ht hd hr] at h
  simp only [Option.some.injEq] at h
  subst h
  have hget := rangeFiles_getElem? files c.reduceTasks 0 rts hr r
  rw [hrt] at hget
  simp only [Option.map_some'] at hget
  refine ⟨?_, ?_, ?_⟩
  · intro hf
    simp only
    rw [hget]
    simp [appended, hf]
  · intro hf
    simp only
    rw [hget]
    simp [appended, hf]
  · intro p hf hne
    have hl : 0 < p.length := by
      rcases Nat.eq_zero_or_pos p.length with h0 | h0
      · exact absurd (string_eq_empty_of_length p h0) hne
      · exact h0
    simp only
    rw [hget, appended_zero_of_getElem? files r p hf hl]

theorem applyReport_partition_frame_witness :
    applyReport sampleStart { DoneType := TaskTypeMap, Id := 0, Files := ["mr-0-0", ""] } =
      some sampleAfterMap0 ∧
    sampleAfterMap0.reduceTasks[1]? =
      some { id := 1, files := [], startAt := 0, done := false } ∧
    sampleAfterMap0.reduceTasks[0]? =
      some { id := 0, files := [] ++ ["mr-0-0"], startAt := 0, done := false } :=
  ⟨by decide,
   (applyReport_partition_frame sampleStart sampleAfterMap0 0 ["mr-0-0", ""]
      { id := 0, file := "x", startAt := 0, done := false } (by decide) (by decide) rfl
      (by decide) 1 { id := 1, files := [], startAt := 0, done := false } (by decide)).1
      (by decide),
   (applyReport_partition_frame sampleStart sampleAfterMap0 0 ["mr-0-0", ""]
      { id := 0, file := "x", startAt := 0, done := false } (by decide) (by decide) rfl
      (by decide) 0 { id := 0, files := [], startAt := 0, done := false } (by decide)).2.2
      "mr-0-0" (by decide) (by decide)⟩

theorem rangeFiles_none (fs : List String) :
    ∀ (rts : List ReduceTask) (k : Nat),
      (∃ (j : Nat) (f : String), fs[j]? = some f ∧ 0 < f.length ∧ rts.length ≤ k + j) →
      rangeFiles rts k fs = none := by
  induction fs with
  | nil => rintro rts k ⟨j, f, hf, _⟩; simp at hf
  | cons g rest ih =>
    rintro rts k ⟨j, f, hf, hl, hj⟩
    unfold rangeFiles
    by_cases hg : 0 < g.length
    · simp only [hg, if_true]
      cases hk : rts[k]? with
      | none => rfl
      | some t =>
        have hlt : k < rts.length := (List.getElem?_eq_some_iff.mp hk).1
        cases j with
        | zero => omega
        | succ j' =>
          simp only [List.getElem?_cons_succ] at hf
          exact ih _ (k + 1) ⟨j', f, hf, hl, by rw [List.length_set]; omega⟩
    · simp only [hg, if_false]
      cases j with
      | zero =>
        simp only [List.getElem?_cons_zero, Option.some.injEq] at hf
        rw [hf] at hg
        exact absurd hl hg
      | succ j' =>
        simp only [List.getElem?_cons_succ] at hf
        exact ih rts (k + 1) ⟨j', f, hf, hl, by omega⟩

/-- C19: index safety of the report step.  With `M` map tasks and `R` reduce tasks,
`GetTask` returns (no out-of-range access) when the report is `{None}`, or `{Map, id, files}`
with `0 ≤ id < M` and `len(files) ≤ R`, or `{Reduce, id}` with `0 ≤ id < R`.  For a map id in
range whose task is not done, a Map report that has a non-empty entry at an index `≥ R`
makes `GetTask` panic on `reduceTasks`. -/
theorem GetTask_index_safety (c : Coordinator) (args : TaskArgs) (reply : TaskReply)
    (now : Time) :
    (args.DoneType = TaskTypeNone → ∃ res, GetTask c args reply now = some res) ∧
    (args.DoneType = TaskTypeMap → 0 ≤ args.Id → args.Id < c.mapTasks.length →
      args.Files.length ≤ c.reduceTasks.length →
      ∃ res, GetTask c args reply now = some res) ∧
    (args.DoneType = TaskTypeReduce → 0 ≤ args.Id → args.Id < c.reduceTasks.length →
      ∃ res, GetTask c args reply now = some res) ∧
    (args.DoneType = TaskTypeMap → 0 ≤ args.Id →
      ∀ t : MapTask, c.mapTasks[args.Id.toNat]? = some t → t.done = false →
      (∃ (j : Nat) (f : String), c.reduceTasks.length ≤ j ∧ args.Files[j]? = some f ∧
        f ≠ "") →
      GetTask c args reply now = none) := by
  have hsome : ∀ c1, applyReport c args = some c1 →
      ∃ res, GetTask c args reply now = some res := by
    intro c1 h1
    exact ⟨pickTask c1 reply now, by simp only [GetTask, h1]⟩
  refine ⟨?_, ?_, ?_, ?_⟩
  · intro hty
    obtain ⟨c1, h1⟩ := applyReport_isSome c args (fun h => by rw [hty] at h; cases h)
      (fun h => by rw [hty] at h; cases h)
    exact hsome c1 h1
  · intro hty h0 h1 h2
    obtain ⟨c1, h1⟩ := applyReport_isSome c args (fun _ => ⟨h0, h1, h2⟩)
      (fun h => by rw [hty] at h; cases h)
    exact hsome c1 h1
  · intro hty h0 h1
    obtain ⟨c1, h1⟩ := applyReport_isSome c args (fun h => by rw [hty] at h; cases h)
      (fun _ => ⟨h0, h1⟩)
    exact hsome c1 h1
  · rintro hty h0 t ht hd ⟨j, f, hj, hf, hne⟩
    have hl : 0 < f.length := by
      rcases Nat.eq_zero_or_pos f.length with h | h
      · exact absurd (string_eq_empty_of_length f h) hne
      · exact h
    have hr := rangeFiles_none args.Files c.reduceTasks 0 ⟨j, f, hf, hl, by omega⟩
    have hneg : ¬ args.Id < 0 := by omega
    simp only [GetTask, applyReport, hty, hneg, if_false, ht, hd, Bool.not_false, if_true, hr]

theorem GetTask_index_safety_witness :
    (∃ res, GetTask soloStart { DoneType := TaskTypeMap, Id := 0, Files := ["mr-0-0"] }
      zeroReply (100 * Second) = some res) ∧
    GetTask soloStart soloLongReport zeroReply (100 * Second) = none :=
  ⟨(GetTask_index_safety soloStart { DoneType := TaskTypeMap, Id := 0, Files := ["mr-0-0"] }
      zeroReply (100 * Second)).2.1 rfl (by decide) (by decide) (by decide),
   (GetTask_index_safety soloStart soloLongReport zeroReply (100 * Second)).2.2.2 rfl
      (by decide) { id := 0, file := "x", startAt := 0, done := false } (by decide) rfl
      ⟨1, "mr-0-1", by decide, by decide, by decide⟩⟩

/-! ## Reports for tasks that were never handed out -/

theorem Second_pos : (0 : Int) < Second := by decide

theorem pickTask_map_at (c1 : Coordinator) (reply : TaskReply) (now : Time) (i : Nat)
    (u : MapTask) (hu : c1.mapTasks[i]? = some u) :
    ∃ u2 : MapTask, (pickTask c1 reply now).1.mapTasks[i]? = some u2 ∧ u2.done = u.done ∧
      (u2.startAt = u.startAt ∨ u2.startAt = now) := by
  rcases pickTask_cases c1 reply now with ⟨_, idx, t, hs, h⟩ | ⟨_, _, h⟩ | ⟨_, _, idx, t, hs, h⟩ |
    ⟨_, _, _, h⟩ | ⟨_, _, h⟩ <;> rw [h]
  · have ht := (scanTasks_some _ _ _ _ hs).1
    by_cases e : idx = i
    · subst e
      rw [ht] at hu
      simp only [Option.some.injEq] at hu
      subst hu
      exact ⟨_, getElem?_set_same _ _ t _ ht, rfl, Or.inr rfl⟩
    · refine ⟨u, ?_, rfl, Or.inl rfl⟩
      simp only
      rw [List.getElem?_set_ne e]
      exact hu
  · exact ⟨u, hu, rfl, Or.inl rfl⟩
  · exact ⟨u, hu, rfl, Or.inl rfl⟩
  · exact ⟨u, hu, rfl, Or.inl rfl⟩
  · exact ⟨u, hu, rfl, Or.inl rfl⟩

theorem pickTask_reduce_at (c1 : Coordinator) (reply : TaskReply) (now : Time) (i : Nat)
    (u : ReduceTask) (hu : c1.reduceTasks[i]? = some u) :
    ∃ u2 : ReduceTask, (pickTask c1 reply now).1.reduceTasks[i]? = some u2 ∧
      u2.done = u.done ∧ (u2.startAt = u.startAt ∨ u2.startAt = now) := by
  rcases pickTask_cases c1 reply now with ⟨_, idx, t, hs, h⟩ | ⟨_, _, h⟩ | ⟨_, _, idx, t, hs, h⟩ |
    ⟨_, _, _, h⟩ | ⟨_, _, h⟩ <;> rw [h]
  · exact ⟨u, hu, rfl, Or.inl rfl⟩
  · exact ⟨u, hu, rfl, Or.inl rfl⟩
  · have ht := (scanTasks_some _ _ _ _ hs).1
    by_cases e : idx = i
    · subst e
      rw [ht] at hu
      simp only [Option.some.injEq] at hu
      subst hu
      exact ⟨_, getElem?_set_same _ _ t _ ht, rfl, Or.inr rfl⟩
    · refine ⟨u, ?_, rfl, Or.inl rfl⟩
      simp only
      rw [List.getElem?_set_ne e]
      exact hu
  · exact ⟨u, hu, rfl, Or.inl rfl⟩
  · exact ⟨u, hu, rfl, Or.inl rfl⟩

theorem applyReport_map_at (c c1 : Coordinator) (args : TaskArgs) (i : Nat) (u : MapTask)
    (h : applyReport c args = some c1) (hu : c.mapTasks[i]? = some u)
    (ho : ¬ (args.DoneType = TaskTypeMap ∧ args.Id = (i : Int))) :
    ∃ u1 : MapTask, c1.mapTasks[i]? = some u1 ∧ u1.done = u.done ∧
      u1.startAt = u.startAt := by
  obtain ⟨u1, hu1, _, b, _⟩ := applyReport_map_done_at c c1 args i u h hu
  obtain ⟨v, hv, e⟩ := getElem?_of_map_eq (fun t : MapTask => t.startAt) c1.mapTasks
    c.mapTasks i u (applyReport_startAt c c1 args h).1 hu
  rw [hu1] at hv
  simp only [Option.some.injEq] at hv
  subst hv
  exact ⟨u1, hu1, b ho, e⟩

theorem applyReport_reduce_at (c c1 : Coordinator) (args : TaskArgs) (i : Nat)
    (u : ReduceTask) (h : applyReport c args = some c1) (hu : c.reduceTasks[i]? = some u)
    (ho : ¬ (args.DoneType = TaskTypeReduce ∧ args.Id = (i : Int))) :
    ∃ u1 : ReduceTask, c1.reduceTasks[i]? = some u1 ∧ u1.done = u.done ∧
      u1.startAt = u.startAt := by
  obtain ⟨u1, hu1, hd, hs, _⟩ := applyReport_reduceTask_other c c1 args i u h ho hu
  exact ⟨u1, hu1, hd, hs⟩

/-- A report for a task whose `startAt` is zero leaves a handed-out, not-done task as it
is, and the assignment step can only move its `startAt` to `now`. -/
theorem GetTask_keeps_assignedPending (c c2 : Coordinator) (call : Call) (r : TaskReply)
    (hst : hasAssignedPending c)
    (hrep : (call.args.DoneType = TaskTypeMap ∧ ∃ t : MapTask, 0 ≤ call.args.Id ∧
        c.mapTasks[call.args.Id.toNat]? = some t ∧ t.startAt = 0) ∨
      (call.args.DoneType = TaskTypeReduce ∧ ∃ t : ReduceTask, 0 ≤ call.args.Id ∧
        c.reduceTasks[call.args.Id.toNat]? = some t ∧ t.startAt = 0))
    (hnow : 10 * Second < call.now)
    (hg : GetTask c call.args call.reply call.now = some (c2, r)) :
    hasAssignedPending c2 := by
  have hpos := Second_pos
  obtain ⟨c1, h1, h2⟩ := (GetTask_eq_some c call.args call.reply call.now c2 r).mp hg
  have hc2 : c2 = (pickTask c1 call.reply call.now).1 := by rw [h2]
  rcases hst with ⟨i, u, hu, hd, hs⟩ | ⟨i, u, hu, hd, hs⟩
  · have ho : ¬ (call.args.DoneType = TaskTypeMap ∧ call.args.Id = (i : Int)) := by
      rintro ⟨hty, hid⟩
      rcases hrep with ⟨_, t, h0, ht, hz⟩ | ⟨hty', _⟩
      · have e : call.args.Id.toNat = i := by omega
        rw [e, hu] at ht
        simp only [Option.some.injEq] at ht
        rw [ht, hz] at hs
        exact absurd hs (lt_irrefl _)
      · rw [hty] at hty'
        cases hty'
    obtain ⟨u1, hu1, hd1, hs1⟩ := applyReport_map_at c c1 call.args i u h1 hu ho
    obtain ⟨u2, hu2, hd2, hs2⟩ := pickTask_map_at c1 call.reply call.now i u1 hu1
    rw [← hc2] at hu2
    refine Or.inl ⟨i, u2, hu2, by rw [hd2, hd1, hd], ?_⟩
    rcases hs2 with e | e
    · rw [e, hs1]; exact hs
    · rw [e]; linarith
  · have ho : ¬ (call.args.DoneType = TaskTypeReduce ∧ call.args.Id = (i : Int)) := by
      rintro ⟨hty, hid⟩
      rcases hrep with ⟨hty', _⟩ | ⟨_, t, h0, ht, hz⟩
      · rw [hty] at hty'
        cases hty'
      · have e : call.args.Id.toNat = i := by omega
        rw [e, hu] at ht
        simp only [Option.some.injEq] at ht
        rw [ht, hz] at hs
        exact absurd hs (lt_irrefl _)
    obtain ⟨u1, hu1, hd1, hs1⟩ := applyReport_reduce_at c c1 call.args i u h1 hu ho
    obtain ⟨u2, hu2, hd2, hs2⟩ := pickTask_reduce_at c1 call.reply call.now i u1 hu1
    rw [← hc2] at hu2
    refine Or.inr ⟨i, u2, hu2, by rw [hd2, hd1, hd], ?_⟩
    rcases hs2 with e | e
    · rw [e, hs1]; exact hs
    · rw [e]; linarith

theorem run_keeps_assignedPending :
    ∀ (calls : List Call) (c c3 : Coordinator) (rs : List TaskReply),
      hasAssignedPending c → reportsUnassigned c calls →
      (∀ call ∈ calls, 10 * Second < call.now) →
      run c calls = some (c3, rs) → hasAssignedPending c3 := by
  intro calls
  induction calls with
  | nil =>
    intro c c3 rs hst _ _ h
    simp only [run, Option.some.injEq, Prod.mk.injEq] at h
    rw [← h.1]; exact hst
  | cons call rest ih =>
    intro c c3 rs hst hrep hnow h
    obtain ⟨c2, r0, rs1, hg, hrun, _⟩ := (run_cons_eq_some c call rest c3 rs).mp h
    simp only [reportsUnassigned, hg] at hrep
    exact ih c2 c3 rs1
      (GetTask_keeps_assignedPending c c2 call r0 hst hrep.1
        (hnow call (List.mem_cons_self _ _)) hg)
      hrep.2 (fun x hx => hnow x (List.mem_cons_of_mem _ hx)) hrun

/-- With a clock past 10 s, the assignment step on an unfinished job none of whose tasks
was ever handed out hands one out. -/
theorem pickTask_makes_assignedPending (c1 : Coordinator) (reply : TaskReply) (now : Time)
    (hcnt : CountersExact c1) (hnow : 10 * Second < now)
    (hm0 : ∀ t ∈ c1.mapTasks, t.startAt = 0) (hr0 : ∀ t ∈ c1.reduceTasks, t.startAt = 0)
    (hopen : 0 < c1.mapRemain ∨ 0 < c1.reduceRemain) :
    hasAssignedPending (pickTask c1 reply now).1 := by
  have hpos := Second_pos
  by_cases hm : 0 < c1.mapRemain
  · have hc : 0 < c1.mapTasks.countP (fun t => !t.done) := by
      have := hcnt.1
      unfold mapNotDone at this
      omega
    obtain ⟨t, ht, hnd⟩ := List.countP_pos_iff.mp hc
    obtain ⟨k, hk⟩ := List.mem_iff_getElem?.mp ht
    have hel : t.eligible (now + (-10 * Second)) = true := by
      rw [mapEligible_iff]
      refine ⟨by simpa using hnd, ?_⟩
      rw [hm0 t ht]
      linarith
    obtain ⟨j, tj, hscan, _⟩ := scanTasks_of_eligible _ c1.mapTasks k t hk hel
    obtain ⟨hj, hej, _⟩ := scanTasks_some _ _ _ _ hscan
    have hp : (pickTask c1 reply now).1 =
        { c1 with mapTasks := c1.mapTasks.set j { tj with startAt := now } } := by
      simp only [pickTask, gt_iff_lt, hm, if_true, hscan]
    rw [hp]
    exact Or.inl ⟨j, { tj with startAt := now }, getElem?_set_same _ _ tj _ hj,
      ((mapEligible_iff now tj).mp hej).1, by simp only; linarith⟩
  · have hr : 0 < c1.reduceRemain := by
      rcases hopen with h | h
      · exact absurd h hm
      · exact h
    have hc : 0 < c1.reduceTasks.countP (fun t => !t.done) := by
      have := hcnt.2.1
      unfold reduceNotDone at this
      omega
    obtain ⟨t, ht, hnd⟩ := List.countP_pos_iff.mp hc
    obtain ⟨k, hk⟩ := List.mem_iff_getElem?.mp ht
    have hel : t.eligible (now + (-10 * Second)) = true := by
      rw [reduceEligible_iff]
      refine ⟨by simpa using hnd, ?_⟩
      rw [hr0 t ht]
      linarith
    obtain ⟨j, tj, hscan, _⟩ := scanTasks_of_eligible _ c1.reduceTasks k t hk hel
    obtain ⟨hj, hej, _⟩ := scanTasks_some _ _ _ _ hscan
    have hp : (pickTask c1 reply now).1 =
        { c1 with reduceTasks := c1.reduceTasks.set j { tj with startAt := now } } := by
      simp only [pickTask, gt_iff_lt, hm, hr, if_true, if_false, hscan]
    rw [hp]
    exact Or.inr ⟨j, { tj with startAt := now }, getElem?_set_same _ _ tj _ hj,
      ((reduceEligible_iff now tj).mp hej).1, by simp only; linarith⟩

theorem forall_of_map_eq {α β : Type} (f : α → β) (l1 l2 : List α) (b : β)
    (h : l1.map f = l2.map f) (h2 : ∀ t ∈ l2, f t = b) : ∀ t ∈ l1, f t = b := by
  intro t ht
  have : f t ∈ l2.map f := by
    rw [← h]
    exact List.mem_map.mpr ⟨t, ht, rfl⟩
  obtain ⟨t2, ht2, e⟩ := List.mem_map.mp this
  rw [← e]
  exact h2 t2 ht2

/-- The first call on a fresh job with at least one map and one reduce task, made with a
clock past 10 s, hands out a task. -/
theorem first_call_assigns (files : List String) (nReduce : Int) (c0 c2 : Coordinator)
    (args : TaskArgs) (reply r : TaskReply) (now : Time)
    (hmk : MakeCoordinator files nReduce = some c0) (hM : 1 ≤ files.length)
    (hR : 1 ≤ nReduce) (hnow : 10 * Second < now)
    (hg : GetTask c0 args reply now = some (c2, r)) : hasAssignedPending c2 := by
  obtain ⟨c1, h1, h2⟩ := (GetTask_eq_some c0 args reply now c2 r).mp hg
  obtain ⟨hfm, hfr⟩ := MakeCoordinator_fresh files nReduce c0 hmk
  have hcnt1 := applyReport_counters c0 c1 args h1 (MakeCoordinator_counters files nReduce c0 hmk)
  obtain ⟨hsm, hsr⟩ := applyReport_startAt c0 c1 args h1
  have hm0 := forall_of_map_eq (fun t : MapTask => t.startAt) c1.mapTasks c0.mapTasks 0 hsm
    (fun t ht => (hfm t ht).2)
  have hr0 := forall_of_map_eq (fun t : ReduceTask => t.startAt) c1.reduceTasks
    c0.reduceTasks 0 hsr (fun t ht => (hfr t ht).2.1)
  obtain ⟨_, _, _, e0⟩ := MakeCoordinator_eq files nReduce c0 hmk
  have hmr : c0.mapRemain = files.length := by rw [e0]
  have hrr : c0.reduceRemain = nReduce := by rw [e0]
  have hopen : 0 < c1.mapRemain ∨ 0 < c1.reduceRemain := by
    rcases applyReport_cases c0 c1 args h1 with e | ⟨_, _, _, _, _, _, _, e⟩ |
      ⟨_, _, _, _, _, e⟩
    · left; rw [e, hmr]; omega
    · right; rw [e]; simp only; rw [hrr]; omega
    · left; rw [e]; simp only; rw [hmr]; omega
  have := pickTask_makes_assignedPending c1 reply now hcnt1 hnow hm0 hr0 hopen
  rw [h2] at this
  exact this

theorem not_Done_of_assignedPending (c : Coordinator) (hcnt : CountersExact c)
    (h : hasAssignedPending c) : Done c = false := by
  have hnot : ¬ (c.mapRemain = 0 ∧ c.reduceRemain = 0) := by
    rcases h with ⟨i, u, hu, hd, _⟩ | ⟨i, u, hu, hd, _⟩
    · have := mapRemain_pos_of_notDone c hcnt i u hu hd
      omega
    · have := reduceRemain_pos_of_notDone c hcnt i u hu hd
      omega
  cases hdd : Done c with
  | false => rfl
  | true => exact absurd ((Done_iff c).mp hdd) hnot

/-- C20 as stated fails on the code, since every call also hands out an eligible task.
With the clock reading later than 10 s past the zero time, as `time.Now()` does, there are
no `M ≥ 1`, `R ≥ 1` and no sequence of calls from the `MakeCoordinator` state, each
carrying a Map or Reduce completion report for a task whose `startAt` is still the zero
time, after which `Done()` returns true. -/
theorem unassigned_reports_counterexample :
    ¬ ∃ (files : List String) (nReduce : Int) (c0 c : Coordinator) (calls : List Call)
        (rs : List TaskReply),
      1 ≤ files.length ∧ 1 ≤ nReduce ∧ MakeCoordinator files nReduce = some c0 ∧
      (∀ call ∈ calls, 10 * Second < call.now) ∧ reportsUnassigned c0 calls ∧
      run c0 calls = some (c, rs) ∧ Done c = true := by
  rintro ⟨files, nReduce, c0, c, calls, rs, hM, hR, hmk, hnow, hrep, hrun, hdone⟩
  have hcnt := run_counters files nReduce c0 c calls rs hmk hrun
  cases calls with
  | nil =>
    simp only [run, Option.some.injEq, Prod.mk.injEq] at hrun
    obtain ⟨_, _, _, e0⟩ := MakeCoordinator_eq files nReduce c0 hmk
    have hmr : c0.mapRemain = files.length := by rw [e0]
    rw [← hrun.1] at hdone
    have := ((Done_iff c0).mp hdone).1
    omega
  | cons call rest =>
    obtain ⟨c2, r0, rs1, hg, hrun2, _⟩ := (run_cons_eq_some c0 call rest c rs).mp hrun
    simp only [reportsUnassigned, hg] at hrep
    have h2 := first_call_assigns files nReduce c0 c2 call.args call.reply r0 call.now hmk
      hM hR (hnow call (List.mem_cons_self _ _)) hg
    have h3 := run_keeps_assignedPending rest c2 c rs1 h2 hrep.2
      (fun x hx => hnow x (List.mem_cons_of_mem _ hx)) hrun2
    have := not_Done_of_assignedPending c hcnt h3
    rw [hdone] at this
    cases this

/-- C20, as the code has it: the report step checks neither `startAt` nor the phase, but
every call also hands out an eligible task.  A `{Reduce, id}` report for a reduce task that
is not done marks it done and decrements `reduceRemain` (in 64 bits), also while
`mapRemain > 0` and whatever the task's `startAt`; likewise a `{Map, id, files}` report
that applies marks a not-done map task done.  And for `M = R = 1` there is a sequence of
calls from the `MakeCoordinator` state, consisting only of completion reports and beginning
with the report of a reduce task whose `startAt` is still the zero time, made while
`mapRemain > 0`, after which `Done()` returns true. -/
theorem unassigned_reports_accepted :
    (∀ (c : Coordinator) (id : Int) (files : List String) (t : ReduceTask),
      0 ≤ id → c.reduceTasks[id.toNat]? = some t → t.done = false →
      applyReport c { DoneType := TaskTypeReduce, Id := id, Files := files } =
        some { c with
          reduceTasks := c.reduceTasks.set id.toNat { t with done := true }
          reduceRemain := wrapInt64 (c.reduceRemain - 1) } ∧
      (-(2 ^ 63) < c.reduceRemain → c.reduceRemain < 2 ^ 63 →
        wrapInt64 (c.reduceRemain - 1) = c.reduceRemain - 1)) ∧
    (∀ (c c1 : Coordinator) (id : Int) (files : List String) (t : MapTask),
      0 ≤ id → c.mapTasks[id.toNat]? = some t → t.done = false →
      applyReport c { DoneType := TaskTypeMap, Id := id, Files := files } = some c1 →
      c1.mapTasks = c.mapTasks.set id.toNat { t with done := true } ∧
      c1.mapRemain = wrapInt64 (c.mapRemain - 1)) ∧
    (MakeCoordinator ["x"] 1 = some soloStart ∧
      0 < soloStart.mapRemain ∧
      soloStart.reduceTasks[0]? = some { id := 0, files := [], startAt := 0, done := false } ∧
      run soloStart soloReportsOnly =
        some (soloReportedOnly,
          [{ Type_ := TaskTypeMap, Id := 0, Files := ["x"], NReduce := 1 },
           { Type_ := TaskTypeExit, Id := 0, Files := [], NReduce := 0 }]) ∧
      Done soloReportedOnly = true) := by
  refine ⟨?_, ?_, ?_⟩
  · intro c id files t h0 ht hd
    exact ⟨applyReport_reduce_fresh c id files t h0 ht hd,
      fun a b => wrapInt64_of_range _ (by omega) (by omega)⟩
  · intro c c1 id files t h0 ht hd h
    cases hr : rangeFiles c.reduceTasks 0 files with
    | none =>
      have hneg : ¬ id < 0 := by omega
      simp [applyReport, hneg, ht, hd, hr] at h
    | some rts =>
      rw [applyReport_map_fresh c id files t rts h0 ht hd hr] at h
      simp only [Option.some.injEq] at h
      subst h
      exact ⟨rfl, rfl⟩
  · exact ⟨by decide, by decide, by decide, by decide, by decide⟩

theorem unassigned_reports_accepted_witness :
    applyReport soloStart { DoneType := TaskTypeReduce, Id := 0, Files := ["mr-out-0"] } =
      some { soloStart with
        reduceTasks := soloStart.reduceTasks.set (0 : Int).toNat
          { id := 0, files := [], startAt := 0, done := true }
        reduceRemain := wrapInt64 (soloStart.reduceRemain - 1) } ∧
    wrapInt64 (soloStart.reduceRemain - 1) = soloStart.reduceRemain - 1 :=
  have h := unassigned_reports_accepted.1 soloStart 0 ["mr-out-0"]
    { id := 0, files := [], startAt := 0, done := false } (by decide) (by decide) rfl
  ⟨h.1, h.2 (by decide) (by decide)⟩

end mr
